import Mathlib

/-!
Voting chaincode (`test-network/chaincode/voting/voting.go`)

A shallow embedding of the voting smart contract: `CastVote`, `VoteExists`,
`GetVoteCount` (the spec's TallyVotes) and `GetVote`, over a model of the ledger
stub they call, together with the library functions the contract uses
(`strings.TrimSpace`, `json.Marshal`, `json.Unmarshal` on the `Vote` struct).

Go strings and byte slices are byte sequences (`GoString`), not necessarily
valid UTF-8; runes are natural numbers.  Bit operations of the Go sources are
written with `%`, `/` and `*` on naturals.
-/

namespace Voting

/-! ## Bytes and strings -/

/-- A byte. -/
abbrev Byte := Fin 256

/-- A Go `string` (or `[]byte`): a finite sequence of bytes. -/
abbrev GoString := List Byte

instance instDecidableEqExcept {ε α : Type} [DecidableEq ε] [DecidableEq α] :
    DecidableEq (Except ε α)
  | .ok a, .ok b => if h : a = b then isTrue (by rw [h]) else isFalse (by simpa using h)
  | .error a, .error b => if h : a = b then isTrue (by rw [h]) else isFalse (by simpa using h)
  | .ok _, .error _ => isFalse (by simp)
  | .error _, .ok _ => isFalse (by simp)

/-- The bytes of an ASCII literal. -/
def str (s : String) : GoString := s.data.map (fun c => Fin.ofNat c.toNat)

/-! ## `unicode/utf8` -/

/-- The rune `utf8.RuneError` (U+FFFD). -/
def RuneError : Nat := 0xFFFD

/-- Continuation byte test `locb <= b && b <= hicb`. -/
def isCont (b : Byte) : Bool := decide (0x80 ≤ b.val ∧ b.val ≤ 0xBF)

/-- Go `utf8.DecodeRune` (and `DecodeRuneInString`): the rune at the head of `p`
and its width in bytes; `(RuneError, 1)` for an invalid encoding and
`(RuneError, 0)` for the empty input. -/
def DecodeRune (p : GoString) : Nat × Nat :=
  match p with
  | [] => (RuneError, 0)
  | p0 :: rest =>
    if p0.val < 0x80 then (p0.val, 1)
    else if p0.val < 0xC2 then (RuneError, 1)
    else if p0.val < 0xE0 then
      match rest with
      | b1 :: _ =>
        if isCont b1 then ((p0.val % 32) * 64 + b1.val % 64, 2) else (RuneError, 1)
      | [] => (RuneError, 1)
    else if p0.val < 0xF0 then
      match rest with
      | b1 :: b2 :: _ =>
        if (if p0.val = 0xE0 then 0xA0 else 0x80) ≤ b1.val
            ∧ b1.val ≤ (if p0.val = 0xED then 0x9F else 0xBF) then
          if isCont b2 then
            ((p0.val % 16) * 4096 + (b1.val % 64) * 64 + b2.val % 64, 3)
          else (RuneError, 1)
        else (RuneError, 1)
      | _ => (RuneError, 1)
    else if p0.val < 0xF5 then
      match rest with
      | b1 :: b2 :: b3 :: _ =>
        if (if p0.val = 0xF0 then 0x90 else 0x80) ≤ b1.val
            ∧ b1.val ≤ (if p0.val = 0xF4 then 0x8F else 0xBF) then
          if isCont b2 then
            if isCont b3 then
              ((p0.val % 8) * 262144 + (b1.val % 64) * 4096 + (b2.val % 64) * 64
                + b3.val % 64, 4)
            else (RuneError, 1)
          else (RuneError, 1)
        else (RuneError, 1)
      | _ => (RuneError, 1)
    else (RuneError, 1)

/-- Go `utf8.AppendRune` to an empty slice: the UTF-8 encoding of a rune, the
encoding of `RuneError` for surrogates and values above `MaxRune`. -/
def EncodeRune (r : Nat) : GoString :=
  if r ≤ 0x7F then [Fin.ofNat r]
  else if r ≤ 0x7FF then [Fin.ofNat (0xC0 + r / 64), Fin.ofNat (0x80 + r % 64)]
  else if r > 0x10FFFF ∨ (0xD800 ≤ r ∧ r ≤ 0xDFFF) then [0xEF, 0xBF, 0xBD]
  else if r ≤ 0xFFFF then
    [Fin.ofNat (0xE0 + r / 4096), Fin.ofNat (0x80 + r / 64 % 64), Fin.ofNat (0x80 + r % 64)]
  else
    [Fin.ofNat (0xF0 + r / 262144), Fin.ofNat (0x80 + r / 4096 % 64),
      Fin.ofNat (0x80 + r / 64 % 64), Fin.ofNat (0x80 + r % 64)]

/-- The valid encodings at the head of a string, with the rune encoded and its
width: the cases in which `DecodeRune` does not return `(RuneError, 1)`. -/
inductive ValidHead : GoString → Nat → Nat → Prop
  | one (p0 : Byte) (t : GoString) (h0 : p0.val < 0x80) : ValidHead (p0 :: t) p0.val 1
  | two (p0 b1 : Byte) (t : GoString) (h0 : 0xC2 ≤ p0.val ∧ p0.val < 0xE0)
      (h1 : 0x80 ≤ b1.val ∧ b1.val ≤ 0xBF) :
      ValidHead (p0 :: b1 :: t) ((p0.val % 32) * 64 + b1.val % 64) 2
  | three (p0 b1 b2 : Byte) (t : GoString) (h0 : 0xE0 ≤ p0.val ∧ p0.val < 0xF0)
      (h1 : 0x80 ≤ b1.val ∧ b1.val ≤ 0xBF) (hlo : p0.val = 0xE0 → 0xA0 ≤ b1.val)
      (hhi : p0.val = 0xED → b1.val ≤ 0x9F) (h2 : 0x80 ≤ b2.val ∧ b2.val ≤ 0xBF) :
      ValidHead (p0 :: b1 :: b2 :: t)
        ((p0.val % 16) * 4096 + (b1.val % 64) * 64 + b2.val % 64) 3
  | four (p0 b1 b2 b3 : Byte) (t : GoString) (h0 : 0xF0 ≤ p0.val ∧ p0.val < 0xF5)
      (h1 : 0x80 ≤ b1.val ∧ b1.val ≤ 0xBF) (hlo : p0.val = 0xF0 → 0x90 ≤ b1.val)
      (hhi : p0.val = 0xF4 → b1.val ≤ 0x8F) (h2 : 0x80 ≤ b2.val ∧ b2.val ≤ 0xBF)
      (h3 : 0x80 ≤ b3.val ∧ b3.val ≤ 0xBF) :
      ValidHead (p0 :: b1 :: b2 :: b3 :: t)
        ((p0.val % 8) * 262144 + (b1.val % 64) * 4096 + (b2.val % 64) * 64 + b3.val % 64) 4

/-- Go `utf8.RuneStart`: the byte is not a continuation byte. -/
def RuneStart (b : Byte) : Bool := decide (b.val / 64 ≠ 2)

/-- The loop of `utf8.DecodeLastRuneInString` looking backwards for the start of
the last rune: `for start--; start >= lim; start-- { if RuneStart(s[start]) { break } }`,
entered here after `start--`.  At most four tests are made. -/
def lastRuneStart (s : GoString) (lim : Int) : Nat → Int → Int
  | 0, start => start
  | fuel + 1, start =>
    if start ≥ lim then
      if RuneStart (s.getD start.toNat 0) then start
      else lastRuneStart s lim fuel (start - 1)
    else start

/-- Go `utf8.DecodeLastRuneInString`: the last rune of `s` and its width. -/
def DecodeLastRune (s : GoString) : Nat × Nat :=
  if s.length = 0 then (RuneError, 0)
  else
    let last := (s.getD (s.length - 1) 0).val
    if last < 0x80 then (last, 1)
    else
      let lim : Int := if (s.length : Int) - 4 < 0 then 0 else (s.length : Int) - 4
      let start0 := lastRuneStart s lim 4 ((s.length : Int) - 2)
      let start : Int := if start0 < 0 then 0 else start0
      let rs := DecodeRune (s.drop start.toNat)
      if start + (rs.2 : Int) ≠ (s.length : Int) then (RuneError, 1) else rs

/-- Go `utf8.ValidString`: every rune of `s` decodes without error.  The first
argument counts the bytes of the current rune still to be passed over. -/
def validLoop : Nat → GoString → Bool
  | _, [] => true
  | k + 1, _ :: rest => validLoop k rest
  | 0, b :: rest =>
    if DecodeRune (b :: rest) = (RuneError, 1) then false
    else validLoop ((DecodeRune (b :: rest)).2 - 1) rest

/-- Go `utf8.ValidString`. -/
def ValidString (s : GoString) : Bool := validLoop 0 s

/-- The bytes standing for the rune at the head of `s` once `s` is coerced to
valid UTF-8: the encoding of U+FFFD for an invalid byte, else the bytes of the
rune. -/
def coerceAt (s : GoString) : GoString :=
  if DecodeRune s = (RuneError, 1) then [0xEF, 0xBF, 0xBD] else s.take (DecodeRune s).2

/-- The string with every invalid byte replaced by the encoding of U+FFFD.  The
first argument counts the bytes of the current rune still to be passed over. -/
def coerceLoop : Nat → GoString → GoString
  | _, [] => []
  | k + 1, _ :: rest => coerceLoop k rest
  | 0, b :: rest => coerceAt (b :: rest) ++ coerceLoop ((DecodeRune (b :: rest)).2 - 1) rest

/-- The string "coerced to valid UTF-8, replacing invalid bytes with the Unicode
replacement rune" (the words of the documentation of `json.Marshal`). -/
def coerceUTF8 (s : GoString) : GoString := coerceLoop 0 s

/-! ## `unicode.IsSpace` and `strings.TrimSpace` -/

/-- The table `asciiSpace` of package `strings`. -/
def asciiSpace (c : Byte) : Bool :=
  decide (c.val = 0x09 ∨ c.val = 0x0A ∨ c.val = 0x0B ∨ c.val = 0x0C ∨ c.val = 0x0D
    ∨ c.val = 0x20)

/-- Go `unicode.IsSpace`: the runes with the Unicode White_Space property. -/
def IsSpace (r : Nat) : Bool :=
  if r ≤ 0xFF then
    decide (r = 0x09 ∨ r = 0x0A ∨ r = 0x0B ∨ r = 0x0C ∨ r = 0x0D ∨ r = 0x20
      ∨ r = 0x85 ∨ r = 0xA0)
  else
    decide (r = 0x1680 ∨ (0x2000 ≤ r ∧ r ≤ 0x200A) ∨ r = 0x2028 ∨ r = 0x2029
      ∨ r = 0x202F ∨ r = 0x205F ∨ r = 0x3000)

/-- Go `strings.TrimLeftFunc(s, f)`: `s` from its first rune that does not satisfy
`f` (`indexFunc(s, f, false)` ranges over the runes of `s`).  The first argument
counts the bytes of the current rune still to be passed over. -/
def TrimLeftFunc (f : Nat → Bool) : Nat → GoString → GoString
  | _, [] => []
  | k + 1, _ :: rest => TrimLeftFunc f k rest
  | 0, c :: rest =>
    if f (DecodeRune (c :: rest)).1 then
      TrimLeftFunc f ((DecodeRune (c :: rest)).2 - 1) rest
    else c :: rest

/-- Go `lastIndexFunc(s, f, false)` of package `strings`, on the reversed string:
the index at which the last rune not satisfying `f` starts, `none` for -1.  The
first argument counts the bytes of the current rune still to be passed over. -/
def lastIndexFunc (f : Nat → Bool) : Nat → GoString → Option Nat
  | _, [] => none
  | k + 1, _ :: rest => lastIndexFunc f k rest
  | 0, c :: rest =>
    if f (DecodeLastRune (c :: rest).reverse).1 then
      lastIndexFunc f ((DecodeLastRune (c :: rest).reverse).2 - 1) rest
    else some ((c :: rest).length - (DecodeLastRune (c :: rest).reverse).2)

/-- Go `strings.TrimRightFunc(s, f)`. -/
def TrimRightFunc (f : Nat → Bool) (s : GoString) : GoString :=
  match lastIndexFunc f 0 s.reverse with
  | none => []
  | some i =>
    if (s.getD i 0).val ≥ 0x80 then s.take (i + (DecodeRune (s.drop i)).2)
    else s.take (i + 1)

/-- Go `strings.TrimFunc(s, f)`. -/
def TrimFunc (f : Nat → Bool) (s : GoString) : GoString :=
  TrimRightFunc f (TrimLeftFunc f 0 s)

/-- The second loop of `strings.TrimSpace`, over the reversed rest of the string:
drops trailing ASCII spaces and falls back to `TrimRightFunc` at a non-ASCII
byte. -/
def trimSpaceRight : GoString → GoString
  | [] => []
  | c :: rest =>
    if c.val ≥ 0x80 then TrimRightFunc IsSpace (c :: rest).reverse
    else if asciiSpace c then trimSpaceRight rest
    else (c :: rest).reverse

/-- Go `strings.TrimSpace`: `s` without leading and trailing white space. -/
def TrimSpace : GoString → GoString
  | [] => []
  | c :: rest =>
    if c.val ≥ 0x80 then TrimFunc IsSpace (c :: rest)
    else if asciiSpace c then TrimSpace rest
    else trimSpaceRight (c :: rest).reverse

/-! ## The `Vote` record -/

/-- The `Vote` struct: `Candidate` with JSON name `candidate`, `VoterID` with JSON
name `voterID`. -/
structure Vote where
  Candidate : GoString
  VoterID : GoString
  deriving DecidableEq, Repr

/-! ## `encoding/json`: `Marshal` of a `Vote` -/

/-- The digit `hex[n]` of `"0123456789abcdef"`. -/
def hex (n : Nat) : Byte := if n < 10 then Fin.ofNat (0x30 + n) else Fin.ofNat (0x57 + n)

/-- The table `htmlSafeSet` on ASCII bytes: everything from the space on except
the double quote, the backslash and the characters `&`, `<`, `>`. -/
def htmlSafeSet (b : Byte) : Bool :=
  decide (0x20 ≤ b.val ∧ b.val ≠ 0x22 ∧ b.val ≠ 0x26 ∧ b.val ≠ 0x3C ∧ b.val ≠ 0x3E
    ∧ b.val ≠ 0x5C)

/-- One round of the loop of `appendString` (with `escapeHTML` set, as `Marshal`
does): the bytes written for the rune at the head of `src` and the width of that
rune.  Safe ASCII bytes and valid runes are copied, the quote and the backslash
get a backslash, control characters and `&`, `<`, `>` a short or a `u00XX` escape,
an invalid byte becomes `ufffd` and U+2028, U+2029 are escaped. -/
def appendStringAt (src : GoString) : GoString × Nat :=
  match src with
  | [] => ([], 0)
  | b :: _ =>
    if b.val < 0x80 then
      if htmlSafeSet b then ([b], 1)
      else if b.val = 0x5C ∨ b.val = 0x22 then ([0x5C, b], 1)
      else if b.val = 0x08 then ([0x5C, 0x62], 1)
      else if b.val = 0x0C then ([0x5C, 0x66], 1)
      else if b.val = 0x0A then ([0x5C, 0x6E], 1)
      else if b.val = 0x0D then ([0x5C, 0x72], 1)
      else if b.val = 0x09 then ([0x5C, 0x74], 1)
      else ([0x5C, 0x75, 0x30, 0x30, hex (b.val / 16), hex (b.val % 16)], 1)
    else
      if DecodeRune src = (RuneError, 1) then ([0x5C, 0x75, 0x66, 0x66, 0x66, 0x64], 1)
      else if (DecodeRune src).1 = 0x2028 ∨ (DecodeRune src).1 = 0x2029 then
        ([0x5C, 0x75, 0x32, 0x30, 0x32, hex ((DecodeRune src).1 % 16)], (DecodeRune src).2)
      else (src.take (DecodeRune src).2, (DecodeRune src).2)

/-- The loop `for i := 0; i < len(src); { ... i += size }` of `appendString`.  The
first argument counts the bytes of the current rune still to be passed over. -/
def appendStringLoop : Nat → GoString → GoString
  | _, [] => []
  | k + 1, _ :: rest => appendStringLoop k rest
  | 0, b :: rest =>
    (appendStringAt (b :: rest)).1 ++ appendStringLoop ((appendStringAt (b :: rest)).2 - 1) rest

/-- The function `appendString`: the JSON string literal for `src`. -/
def appendString (src : GoString) : GoString :=
  [0x22] ++ appendStringLoop 0 src ++ [0x22]

/-- Errors of `encoding/json`. -/
inductive JsonError
  | SyntaxError
  | UnmarshalTypeError
  | MarshalerError
  | UnsupportedTypeError
  deriving DecidableEq, Repr

/-- The struct encoder for a `Vote`: the object with the members `candidate` and
`voterID`, in the order of the struct fields. -/
def structEncoder (vote : Vote) : GoString :=
  str "\x7b\"candidate\":" ++ appendString vote.Candidate ++ str ",\"voterID\":"
    ++ appendString vote.VoterID ++ str "\x7d"

/-- A field of a struct as the struct encoder meets it, by the kind of its type: of
kind string, or of a kind for which `newTypeEncoder` returns
`unsupportedTypeEncoder` (a channel, a function, a complex number).  The other
kinds (numbers, booleans, slices, maps, pointers, interfaces, types with a
`MarshalJSON` method) are left out: the `Vote` struct has no such field. -/
inductive FieldValue
  | string (s : GoString)
  | unsupported
  deriving DecidableEq, Repr

/-- The encoder of a field, `f.encoder(e, fv, opts)`, on the buffer `e`:
`stringEncoder` appends the string literal, `unsupportedTypeEncoder` ends the
encoding with an `UnsupportedTypeError`. -/
def FieldValue.encode (e : GoString) : FieldValue → Except JsonError GoString
  | .string s => .ok (e ++ appendString s)
  | .unsupported => .error .UnsupportedTypeError

/-- The loop of `structEncoder.encode` over the fields still to be written, each
with its `nameEscHTML` (the quoted name and the colon), on the buffer `e`: `next`
is the byte written before the next field, the opening brace at first and the
comma from then on.  An error of a field encoder ends `Marshal` with that error
and no bytes. -/
def encodeFields (e : GoString) (next : Byte) :
    List (GoString × FieldValue) → Except JsonError GoString
  | [] => .ok (if next.val = 0x7B then e ++ [0x7B, 0x7D] else e ++ [0x7D])
  | f :: rest =>
    match f.2.encode (e ++ [next] ++ f.1) with
    | .error err => .error err
    | .ok e' => encodeFields e' 0x2C rest

/-- The fields of a `Vote` as `typeFields` lists them for the struct encoder: the
two exported fields in the order of their declaration, both of kind string, under
the names of their tags `json:"candidate"` and `json:"voterID"`. -/
def Vote.fields (vote : Vote) : List (GoString × FieldValue) :=
  [(str "\"candidate\":", .string vote.Candidate), (str "\"voterID\":", .string vote.VoterID)]

/-- Go `json.Marshal(vote)`: the struct encoder run over the fields of the vote on an
empty buffer; the bytes written, or the error the encoding ended with. -/
def Marshal (vote : Vote) : Except JsonError GoString := encodeFields [] 0x7B vote.fields

/-! ## `encoding/json`: the scanner (`scanner.go`) -/

/-- The step functions of the scanner: the state `s.step` is in. -/
inductive Step
  | stateBeginValue | stateBeginValueOrEmpty | stateBeginStringOrEmpty | stateBeginString
  | stateEndValue | stateEndTop
  | stateInString | stateInStringEsc | stateInStringEscU | stateInStringEscU1
  | stateInStringEscU12 | stateInStringEscU123
  | stateNeg | state1 | state0 | stateDot | stateDot0 | stateE | stateESign | stateE0
  | stateT | stateTr | stateTru | stateF | stateFa | stateFal | stateFals
  | stateN | stateNu | stateNul
  | stateError
  deriving DecidableEq, Repr

/-- The entries of the scanner's `parseState` stack. -/
inductive ParseState
  | parseObjectKey
  | parseObjectValue
  | parseArrayValue
  deriving DecidableEq, Repr

/-- The scanner: its step function, the flag `endTop` and the stack `parseState`
(the head of the list is the top of the stack).  An error is the step
`stateError`. -/
structure Scanner where
  step : Step
  endTop : Bool
  parseState : List ParseState
  deriving DecidableEq, Repr

/-- The limit `maxNestingDepth` on the nesting of arrays and objects. -/
def maxNestingDepth : Nat := 10000

/-- White space of JSON: space, tab, carriage return, line feed. -/
def isSpace (c : Byte) : Bool :=
  decide (c.val = 0x20 ∨ c.val = 0x09 ∨ c.val = 0x0D ∨ c.val = 0x0A)

/-- Hexadecimal digit test of the `stateInStringEscU` states. -/
def isHex (c : Byte) : Bool :=
  decide ((0x30 ≤ c.val ∧ c.val ≤ 0x39) ∨ (0x61 ≤ c.val ∧ c.val ≤ 0x66)
    ∨ (0x41 ≤ c.val ∧ c.val ≤ 0x46))

/-- Decimal digit test. -/
def isDigit (c : Byte) : Bool := decide (0x30 ≤ c.val ∧ c.val ≤ 0x39)

/-- Go `scanner.reset`. -/
def Scanner.reset : Scanner := ⟨.stateBeginValue, false, []⟩

/-- Go `scanner.error`: records the error, every later step returns `scanError`. -/
def Scanner.error (s : Scanner) : Scanner := { s with step := .stateError }

/-- Go `scanner.pushParseState`, after the step was set to `next`: fails beyond
`maxNestingDepth`. -/
def Scanner.pushParseState (s : Scanner) (newParseState : ParseState) (next : Step) : Scanner :=
  if s.parseState.length + 1 ≤ maxNestingDepth then
    { s with step := next, parseState := newParseState :: s.parseState }
  else { s with parseState := newParseState :: s.parseState }.error

/-- Go `scanner.popParseState`. -/
def Scanner.popParseState (s : Scanner) : Scanner :=
  match s.parseState.tail with
  | [] => { s with step := .stateEndTop, endTop := true, parseState := [] }
  | rest => { s with step := .stateEndValue, parseState := rest }

/-- Go `stateEndTop`: only white space may follow the top-level value. -/
def stateEndTop (s : Scanner) (c : Byte) : Scanner :=
  if isSpace c then s else s.error

/-- Go `stateEndValue`: the state after a value: a colon after an object key, a
comma or the closing bracket after a member or an element. -/
def stateEndValue (s : Scanner) (c : Byte) : Scanner :=
  match s.parseState with
  | [] => stateEndTop { s with step := .stateEndTop, endTop := true } c
  | ps :: rest =>
    if isSpace c then { s with step := .stateEndValue }
    else
      match ps with
      | .parseObjectKey =>
        if c.val = 0x3A then
          { s with step := .stateBeginValue, parseState := .parseObjectValue :: rest }
        else s.error
      | .parseObjectValue =>
        if c.val = 0x2C then
          { s with step := .stateBeginString, parseState := .parseObjectKey :: rest }
        else if c.val = 0x7D then s.popParseState
        else s.error
      | .parseArrayValue =>
        if c.val = 0x2C then { s with step := .stateBeginValue }
        else if c.val = 0x5D then s.popParseState
        else s.error

/-- Go `stateBeginValue`: the state at the beginning of a value. -/
def stateBeginValue (s : Scanner) (c : Byte) : Scanner :=
  if isSpace c then s
  else if c.val = 0x7B then s.pushParseState .parseObjectKey .stateBeginStringOrEmpty
  else if c.val = 0x5B then s.pushParseState .parseArrayValue .stateBeginValueOrEmpty
  else if c.val = 0x22 then { s with step := .stateInString }
  else if c.val = 0x2D then { s with step := .stateNeg }
  else if c.val = 0x30 then { s with step := .state0 }
  else if c.val = 0x74 then { s with step := .stateT }
  else if c.val = 0x66 then { s with step := .stateF }
  else if c.val = 0x6E then { s with step := .stateN }
  else if 0x31 ≤ c.val ∧ c.val ≤ 0x39 then { s with step := .state1 }
  else s.error

/-- Go `stateBeginString`: the state before an object key. -/
def stateBeginString (s : Scanner) (c : Byte) : Scanner :=
  if isSpace c then s
  else if c.val = 0x22 then { s with step := .stateInString }
  else s.error

/-- Go `state0`: after a leading zero or a completed integer part. -/
def state0 (s : Scanner) (c : Byte) : Scanner :=
  if c.val = 0x2E then { s with step := .stateDot }
  else if c.val = 0x65 ∨ c.val = 0x45 then { s with step := .stateE }
  else stateEndValue s c

/-- Go `stateESign`: after the `e` and an optional sign of a number. -/
def stateESign (s : Scanner) (c : Byte) : Scanner :=
  if isDigit c then { s with step := .stateE0 } else s.error

/-- The expected next letter of a literal `true`, `false` or `null`. -/
def stateLetter (s : Scanner) (c : Byte) (letter : Nat) (next : Step) : Scanner :=
  if c.val = letter then { s with step := next } else s.error

/-- One call `s.step(s, c)`: the scanner after the byte `c`. -/
def Scanner.next (s : Scanner) (c : Byte) : Scanner :=
  match s.step with
  | .stateBeginValue => stateBeginValue s c
  | .stateBeginValueOrEmpty =>
    if isSpace c then s
    else if c.val = 0x5D then stateEndValue s c
    else stateBeginValue s c
  | .stateBeginStringOrEmpty =>
    if isSpace c then s
    else if c.val = 0x7D then
      stateEndValue { s with parseState := .parseObjectValue :: s.parseState.tail } c
    else stateBeginString s c
  | .stateBeginString => stateBeginString s c
  | .stateEndValue => stateEndValue s c
  | .stateEndTop => stateEndTop s c
  | .stateInString =>
    if c.val = 0x22 then { s with step := .stateEndValue }
    else if c.val = 0x5C then { s with step := .stateInStringEsc }
    else if c.val < 0x20 then s.error
    else s
  | .stateInStringEsc =>
    if c.val = 0x62 ∨ c.val = 0x66 ∨ c.val = 0x6E ∨ c.val = 0x72 ∨ c.val = 0x74
        ∨ c.val = 0x5C ∨ c.val = 0x2F ∨ c.val = 0x22 then { s with step := .stateInString }
    else if c.val = 0x75 then { s with step := .stateInStringEscU }
    else s.error
  | .stateInStringEscU => if isHex c then { s with step := .stateInStringEscU1 } else s.error
  | .stateInStringEscU1 => if isHex c then { s with step := .stateInStringEscU12 } else s.error
  | .stateInStringEscU12 => if isHex c then { s with step := .stateInStringEscU123 } else s.error
  | .stateInStringEscU123 => if isHex c then { s with step := .stateInString } else s.error
  | .stateNeg =>
    if c.val = 0x30 then { s with step := .state0 }
    else if 0x31 ≤ c.val ∧ c.val ≤ 0x39 then { s with step := .state1 }
    else s.error
  | .state1 => if isDigit c then { s with step := .state1 } else state0 s c
  | .state0 => state0 s c
  | .stateDot => if isDigit c then { s with step := .stateDot0 } else s.error
  | .stateDot0 =>
    if isDigit c then s
    else if c.val = 0x65 ∨ c.val = 0x45 then { s with step := .stateE }
    else stateEndValue s c
  | .stateE =>
    if c.val = 0x2B ∨ c.val = 0x2D then { s with step := .stateESign } else stateESign s c
  | .stateESign => stateESign s c
  | .stateE0 => if isDigit c then s else stateEndValue s c
  | .stateT => stateLetter s c 0x72 .stateTr
  | .stateTr => stateLetter s c 0x75 .stateTru
  | .stateTru => stateLetter s c 0x65 .stateEndValue
  | .stateF => stateLetter s c 0x61 .stateFa
  | .stateFa => stateLetter s c 0x6C .stateFal
  | .stateFal => stateLetter s c 0x73 .stateFals
  | .stateFals => stateLetter s c 0x65 .stateEndValue
  | .stateN => stateLetter s c 0x75 .stateNu
  | .stateNu => stateLetter s c 0x6C .stateNul
  | .stateNul => stateLetter s c 0x6C .stateEndValue
  | .stateError => s

/-- Go `scanner.eof`: whether the input read so far is a complete JSON value. -/
def Scanner.eof (s : Scanner) : Bool :=
  if s.step = .stateError then false
  else if s.endTop then true
  else (s.next 0x20).endTop

/-- Go `checkValid`: the input is one JSON value, white space around it allowed. -/
def checkValid (data : GoString) : Bool := (data.foldl Scanner.next Scanner.reset).eof

/-! ## `encoding/json`: `Unmarshal` into a `Vote` (`decode.go`) -/

/-- The value of a hexadecimal digit, as in `getu4`. -/
def hexVal (c : Byte) : Option Nat :=
  if 0x30 ≤ c.val ∧ c.val ≤ 0x39 then some (c.val - 0x30)
  else if 0x61 ≤ c.val ∧ c.val ≤ 0x66 then some (c.val - 0x61 + 10)
  else if 0x41 ≤ c.val ∧ c.val ≤ 0x46 then some (c.val - 0x41 + 10)
  else none

/-- Go `getu4`: the number of a `\uXXXX` escape at the head of `s`, `none` for -1. -/
def getu4 (s : GoString) : Option Nat :=
  match s with
  | b0 :: b1 :: c0 :: c1 :: c2 :: c3 :: _ =>
    if b0.val = 0x5C ∧ b1.val = 0x75 then
      match hexVal c0, hexVal c1, hexVal c2, hexVal c3 with
      | some x0, some x1, some x2, some x3 => some (((x0 * 16 + x1) * 16 + x2) * 16 + x3)
      | _, _, _, _ => none
    else none
  | _ => none

/-- Go `utf16.DecodeRune`: the rune of a surrogate pair, U+FFFD if the pair is not
valid (the second half may be missing). -/
def utf16DecodeRune (r1 : Nat) (r2 : Option Nat) : Nat :=
  match r2 with
  | some r2 =>
    if 0xD800 ≤ r1 ∧ r1 < 0xDC00 ∧ 0xDC00 ≤ r2 ∧ r2 < 0xE000 then
      (r1 - 0xD800) * 1024 + (r2 - 0xDC00) + 0x10000
    else 0xFFFD
  | none => 0xFFFD

/-- One round of the loop of `unquoteBytes` on the text between the quotes: the
bytes written for the escape or the rune at the head of `s` and the number of
bytes read, `none` when the text is not well formed.  Invalid UTF-8 is replaced
by U+FFFD. -/
def unquoteAt (s : GoString) : Option (GoString × Nat) :=
  match s with
  | [] => none
  | c :: rest =>
    if c.val = 0x5C then
      match rest with
      | [] => none
      | e :: _ =>
        if e.val = 0x22 ∨ e.val = 0x5C ∨ e.val = 0x2F ∨ e.val = 0x27 then some ([e], 2)
        else if e.val = 0x62 then some ([0x08], 2)
        else if e.val = 0x66 then some ([0x0C], 2)
        else if e.val = 0x6E then some ([0x0A], 2)
        else if e.val = 0x72 then some ([0x0D], 2)
        else if e.val = 0x74 then some ([0x09], 2)
        else if e.val = 0x75 then
          match getu4 s with
          | none => none
          | some rr =>
            if 0xD800 ≤ rr ∧ rr < 0xE000 then
              if utf16DecodeRune rr (getu4 (s.drop 6)) ≠ 0xFFFD then
                some (EncodeRune (utf16DecodeRune rr (getu4 (s.drop 6))), 12)
              else some (EncodeRune 0xFFFD, 6)
            else some (EncodeRune rr, 6)
        else none
    else if c.val = 0x22 ∨ c.val < 0x20 then none
    else if c.val < 0x80 then some ([c], 1)
    else some (EncodeRune (DecodeRune s).1, (DecodeRune s).2)

/-- The loop of `unquoteBytes`.  The first argument counts the bytes of the
current escape or rune still to be passed over. -/
def unquoteLoop : Nat → GoString → Option GoString
  | _, [] => some []
  | k + 1, _ :: rest => unquoteLoop k rest
  | 0, c :: rest =>
    match unquoteAt (c :: rest) with
    | none => none
    | some (out, size) =>
      match unquoteLoop (size - 1) rest with
      | none => none
      | some t => some (out ++ t)

/-- The first loop of `unquoteBytes`, which looks for "unusual characters": the
text has no backslash, no quote, no control character and no invalid UTF-8, so
that `unquoteBytes` returns it as it is.  The first argument counts the bytes of
the current rune still to be passed over. -/
def usualLoop : Nat → GoString → Bool
  | _, [] => true
  | k + 1, _ :: rest => usualLoop k rest
  | 0, c :: rest =>
    if c.val = 0x5C ∨ c.val = 0x22 ∨ c.val < 0x20 then false
    else if c.val < 0x80 then usualLoop 0 rest
    else if DecodeRune (c :: rest) = (RuneError, 1) then false
    else usualLoop ((DecodeRune (c :: rest)).2 - 1) rest

/-- Go `unquoteBytes` on the text between the quotes of a string literal: the
text itself when it has no unusual character, else what the loop makes of it. -/
def unquote (s : GoString) : Option GoString :=
  if usualLoop 0 s then some s else unquoteLoop 0 s

/-- The fields of the `Vote` struct. -/
inductive Field
  | candidate
  | voterID
  deriving DecidableEq, Repr

/-- Go `foldName` on ASCII: lower-case letters become upper-case.  (On other runes
`foldName` takes the smallest rune of the case orbit; only U+017F and U+212A
have an ASCII letter there, S and K, which occur in neither field name, so a
key with a non-ASCII rune matches no field and its bytes are left alone here.) -/
def foldName (key : GoString) : GoString :=
  key.map (fun c => if 0x61 ≤ c.val ∧ c.val ≤ 0x7A then Fin.ofNat (c.val - 0x20) else c)

/-- The field lookup of `decodeState.object`: the field with the exact JSON name
of the key, else the field with the same folded name. -/
def findField (key : GoString) : Option Field :=
  if key = str "candidate" then some .candidate
  else if key = str "voterID" then some .voterID
  else if foldName key = str "CANDIDATE" then some .candidate
  else if foldName key = str "VOTERID" then some .voterID
  else none

/-- The part of `decodeState` that matters for a `Vote`: the struct being
filled, whether an `UnmarshalTypeError` was saved, the text between the quotes of
the current key of the top-level object, and of the current string value. -/
structure decodeState where
  vote : Vote
  savedError : Bool
  key : GoString
  item : GoString
  deriving DecidableEq, Repr

/-- The field the current key stands for. -/
def decodeState.field (d : decodeState) : Option Field :=
  match unquote d.key with
  | some key => findField key
  | none => none

/-- Go `literalStore` of a string literal into the field of the current key: the
unquoted text is stored; nothing happens for a key that is no field. -/
def decodeState.storeString (d : decodeState) : decodeState :=
  match d.field, unquote d.item with
  | some .candidate, some s => { d with vote := { d.vote with Candidate := s } }
  | some .voterID, some s => { d with vote := { d.vote with VoterID := s } }
  | some _, none => { d with savedError := true }
  | none, _ => d

/-- The value of the current key is an array, an object, a number or a Boolean:
an `UnmarshalTypeError` is saved when the key is a field (of type string), the
value is skipped otherwise. -/
def decodeState.storeOther (d : decodeState) : decodeState :=
  match d.field with
  | some _ => { d with savedError := true }
  | none => d

/-- What `decodeState.value` does at the byte `c`, read by the scanner in state
`s`, when the target is a `Vote`:
* at the top level an object is decoded member by member, `null` has no
  effect, and any other value saves an `UnmarshalTypeError`;
* the key of a member of the top-level object is collected;
* the value of a member is stored when it is a string, has no effect when it is
  `null`, and saves an `UnmarshalTypeError` otherwise if the key is a field;
* everything nested deeper is skipped. -/
def decodeState.next (s : Scanner) (d : decodeState) (c : Byte) : decodeState :=
  match s.parseState with
  | [] =>
    if s.step = .stateBeginValue ∧ isSpace c = false ∧ c.val ≠ 0x7B ∧ c.val ≠ 0x6E then
      { d with savedError := true }
    else d
  | [.parseObjectKey] =>
    match s.step with
    | .stateBeginString | .stateBeginStringOrEmpty =>
      if c.val = 0x22 then { d with key := [] } else d
    | .stateInString => if c.val = 0x22 then d else { d with key := d.key ++ [c] }
    | .stateInStringEsc | .stateInStringEscU | .stateInStringEscU1 | .stateInStringEscU12
    | .stateInStringEscU123 => { d with key := d.key ++ [c] }
    | _ => d
  | [.parseObjectValue] =>
    match s.step with
    | .stateBeginValue =>
      if isSpace c then d
      else if c.val = 0x22 then { d with item := [] }
      else if c.val = 0x6E then d
      else d.storeOther
    | .stateInString => if c.val = 0x22 then d.storeString else { d with item := d.item ++ [c] }
    | .stateInStringEsc | .stateInStringEscU | .stateInStringEscU1 | .stateInStringEscU12
    | .stateInStringEscU123 => { d with item := d.item ++ [c] }
    | _ => d
  | _ => d

/-- The scanner and the decoder after one more byte. -/
def decodeNext (sd : Scanner × decodeState) (c : Byte) : Scanner × decodeState :=
  (sd.1.next c, sd.2.next sd.1 c)

/-- The scanner and the decoder after the whole input. -/
def decodeAll (data : GoString) : Scanner × decodeState :=
  data.foldl decodeNext (Scanner.reset, ⟨⟨[], []⟩, false, [], []⟩)

/-- The scanner inside a string literal that is the value of a member of the
top-level object. -/
def inValue (e : Bool) : Scanner := ⟨.stateInString, e, [.parseObjectValue]⟩

/-- The scanner is inside an array or an object. -/
def Scanner.Inside (s : Scanner) : Prop := s.endTop = false ∧ s.parseState ≠ []

/-- The states of a scanner that has entered an array or an object: failed, or
done with the top-level value, or still inside it. -/
def Scanner.Entered (s : Scanner) : Prop :=
  s.step = .stateError ∨ (s.endTop = true ∧ s.step = .stateEndTop ∧ s.parseState = [])
    ∨ s.Inside

/-- Go `json.Unmarshal(data, &vote)` for a fresh `var vote Vote`: a `SyntaxError`
when `checkValid` rejects the input, else the saved `UnmarshalTypeError` if there
is one, else the decoded vote. -/
def Unmarshal (data : GoString) : Except JsonError Vote :=
  if (decodeAll data).1.eof = false then .error .SyntaxError
  else if (decodeAll data).2.savedError then .error .UnmarshalTypeError
  else .ok (decodeAll data).2.vote

/-! ## Errors -/

/-- The errors the contract returns, one constructor for each `fmt.Errorf` of
`voting.go` (the cause, where the message wraps one), and the errors of the
ledger stub and of `encoding/json`. -/
inductive Error
  /-- An error returned by the ledger stub. -/
  | ledger
  /-- An error returned by `encoding/json`. -/
  | json (e : JsonError)
  /-- Message "voter Id cannot be empty". -/
  | voterIdEmpty
  /-- Message "candidate name cannot be empty". -/
  | candidateEmpty
  /-- Message "failed to check if voter has already voted : %v". -/
  | checkVoted (cause : Error)
  /-- Message "voter %s has already cast a vote". -/
  | alreadyVoted (voterID : GoString)
  /-- Message "failed to marshal vote data : %v". -/
  | marshalVote (cause : Error)
  /-- Message "failed to store vote%v". -/
  | storeVote (cause : Error)
  /-- Message "failed to read from world state: %v". -/
  | readWorldState (cause : Error)
  /-- Message "failed to read get state range: %v". -/
  | getStateRange (cause : Error)
  /-- Message "failed to iterate through results: %v". -/
  | iterate (cause : Error)
  /-- Message "the vote for voter %s does not exist". -/
  | notExist (voterID : GoString)
  /-- Message "failed to unmarshal vote data: %v". -/
  | unmarshalVote (cause : Error)
  deriving DecidableEq, Repr

/-- The error taxonomy of the specification. -/
inductive ErrorKind
  | InvalidInput
  | AlreadyVoted
  | NotFound
  | StorageFailure
  | EncodeError
  | DecodeError
  deriving DecidableEq, Repr

/-- The kind of an error in the taxonomy of the specification. -/
def Error.kind : Error → ErrorKind
  | .ledger => .StorageFailure
  | .json .MarshalerError => .EncodeError
  | .json .UnsupportedTypeError => .EncodeError
  | .json _ => .DecodeError
  | .voterIdEmpty => .InvalidInput
  | .candidateEmpty => .InvalidInput
  | .checkVoted _ => .StorageFailure
  | .alreadyVoted _ => .AlreadyVoted
  | .marshalVote _ => .EncodeError
  | .storeVote _ => .StorageFailure
  | .readWorldState _ => .StorageFailure
  | .getStateRange _ => .StorageFailure
  | .iterate _ => .StorageFailure
  | .notExist _ => .NotFound
  | .unmarshalVote _ => .DecodeError

/-! ## The ledger stub -/

/-- The order of the keys: byte-wise lexicographic. -/
def keyLt : GoString → GoString → Bool
  | [], [] => false
  | [], _ :: _ => true
  | _ :: _, [] => false
  | a :: as, b :: bs => if a.val < b.val then true else if b.val < a.val then false else keyLt as bs

/-- The value stored under `key` in a list of key-value pairs. -/
def get (key : GoString) : List (GoString × GoString) → Option GoString
  | [] => none
  | (k, v) :: rest => if k = key then some v else get key rest

/-- The list of key-value pairs with `value` stored under `key`: the value under
that key is replaced, a new key is inserted in key order. -/
def put (key value : GoString) : List (GoString × GoString) → List (GoString × GoString)
  | [] => [(key, value)]
  | (k, v) :: rest =>
    if k = key then (key, value) :: rest
    else if keyLt key k then (key, value) :: (k, v) :: rest
    else (k, v) :: put key value rest

/-- Modelled from the spec: the key-value store behind `ctx.GetStub()`, which is
the ledger platform and no part of the repository.  The specification gives its
contract: `Get(key) -> (value, existed, error)`, `Put(key, value) -> error`,
`IterateRange("", "")` yielding all pairs in ascending key order, each operation
possibly failing.  `state` is the content of the store in key order; the other
fields say which calls fail: `GetState` on a key, `PutState` of a key and value,
`GetStateByRange`, and the `i`-th call of `Next` on the iterator. -/
structure Stub where
  state : List (GoString × GoString)
  getStateErr : GoString → Bool
  putStateErr : GoString → GoString → Bool
  getStateByRangeErr : Bool
  nextErr : Nat → Bool

/-- Call `stub.GetState(key)`: the value under the key, `nil` (`none`) when there is
none; an error when the read fails. -/
def Stub.GetState (stub : Stub) (key : GoString) : Option GoString × Option Error :=
  if stub.getStateErr key then (none, some .ledger) else (get key stub.state, none)

/-- Call `stub.PutState(key, value)`: the store with the value under the key; an error
and the store as it was when the write fails. -/
def Stub.PutState (stub : Stub) (key value : GoString) : Option Error × Stub :=
  if stub.putStateErr key value then (some .ledger, stub)
  else (none, { stub with state := put key value stub.state })

/-- A store none of whose operations fails. -/
def Stub.ofState (state : List (GoString × GoString)) : Stub :=
  ⟨state, fun _ => false, fun _ _ => false, false, fun _ => false⟩

/-! ## The contract (`voting.go`) -/

/-- Source: `VoteExists` checks if a voter has already cast a vote. -/
def VoteExists (stub : Stub) (voterID : GoString) : Bool × Option Error :=
  match stub.GetState voterID with
  | (_, some err) => (false, some (.readWorldState err))
  | (voteJSON, none) => (voteJSON.isSome, none)

/-- Source: `CastVote` allows a voter to cast their vote for a candidate.  The result is
the returned `error` (`none` for `nil`) and the store after the call. -/
def CastVote (stub : Stub) (voterID candidate : GoString) : Option Error × Stub :=
  let voterID := TrimSpace voterID
  if voterID.length = 0 then (some .voterIdEmpty, stub)
  else
    let candidate := TrimSpace candidate
    if candidate.length = 0 then (some .candidateEmpty, stub)
    else
      match VoteExists stub voterID with
      | (_, some err) => (some (.checkVoted err), stub)
      | (true, none) => (some (.alreadyVoted voterID), stub)
      | (false, none) =>
        match Marshal { Candidate := candidate, VoterID := voterID } with
        | .error err => (some (.marshalVote (.json err)), stub)
        | .ok voteJSON =>
          match stub.PutState voterID voteJSON with
          | (some err, stub') => (some (.storeVote err), stub')
          | (none, stub') => (none, stub')

/-- The Go map `map[string]int` of the tally: candidates with their counts, each
candidate at most once.  (A count is the number of records counted so far, far
below the range of `int`.) -/
abbrev VoteCounts := List (GoString × Nat)

/-- The map lookup `voteCounts[candidate]` with the presence flag. -/
def VoteCounts.lookup (candidate : GoString) : VoteCounts → Option Nat
  | [] => none
  | (k, n) :: rest => if k = candidate then some n else VoteCounts.lookup candidate rest

/-- The statement `voteCounts[candidate]++`: an absent candidate starts from the
zero value. -/
def VoteCounts.incr (candidate : GoString) : VoteCounts → VoteCounts
  | [] => [(candidate, 0 + 1)]
  | (k, n) :: rest =>
    if k = candidate then (k, n + 1) :: rest else (k, n) :: VoteCounts.incr candidate rest

/-- The loop `for resultsIterator.HasNext()` of `GetVoteCount` over the pairs the
iterator still has to yield, `i` calls of `Next` made so far: an error of `Next`
ends the function with `nil` and the error, a value that does not unmarshal is
logged and passed over, else the count of the vote's candidate is incremented. -/
def tallyLoop (nextErr : Nat → Bool) :
    Nat → List (GoString × GoString) → VoteCounts → Option VoteCounts × Option Error
  | _, [], voteCounts => (some voteCounts, none)
  | i, queryResponse :: rest, voteCounts =>
    if nextErr i then (none, some (.iterate .ledger))
    else
      match Unmarshal queryResponse.2 with
      | .error _ => tallyLoop nextErr (i + 1) rest voteCounts
      | .ok vote => tallyLoop nextErr (i + 1) rest (voteCounts.incr vote.Candidate)

/-- Source: `GetVoteCount` returns the total votes per candidate (the specification's
TallyVotes): the map, or `nil` and an error. -/
def GetVoteCount (stub : Stub) : Option VoteCounts × Option Error :=
  if stub.getStateByRangeErr then (none, some (.getStateRange .ledger))
  else tallyLoop stub.nextErr 0 stub.state []

/-- Source: `GetVote` retrieves a specific vote by voterID: the vote, or `nil` and an
error. -/
def GetVote (stub : Stub) (voterID : GoString) : Option Vote × Option Error :=
  match stub.GetState voterID with
  | (_, some err) => (none, some (.readWorldState err))
  | (none, none) => (none, some (.notExist voterID))
  | (some voteJSON, none) =>
    match Unmarshal voteJSON with
    | .error err => (none, some (.unmarshalVote (.json err)))
    | .ok vote => (some vote, none)

/-- Source: `InitLedger` initializes the chaincode: it returns `nil` and touches
nothing. -/
def InitLedger (stub : Stub) : Option Error × Stub := (none, stub)

/-! ## Notions of the specification -/

/-- The stored value unmarshals to a vote for `candidate`. -/
def isVoteFor (candidate value : GoString) : Bool :=
  match Unmarshal value with
  | .ok vote => decide (vote.Candidate = candidate)
  | .error _ => false

/-- The number of stored records that unmarshal to a vote for `candidate`. -/
def votesFor (candidate : GoString) (state : List (GoString × GoString)) : Nat :=
  state.countP (fun kv => isVoteFor candidate kv.2)

/-- The stored value unmarshals to a vote. -/
def decodes (value : GoString) : Bool :=
  match Unmarshal value with
  | .ok _ => true
  | .error _ => false

/-- The count of a candidate in a tally, 0 when the candidate is absent. -/
def VoteCounts.count (voteCounts : VoteCounts) (candidate : GoString) : Nat :=
  (voteCounts.lookup candidate).getD 0

/-- No candidate is in the tally with the count 0. -/
def VoteCounts.NoZero (m : VoteCounts) : Prop := ∀ k, m.lookup k ≠ some 0

/-- The store of the example of the specification: voter1 voted for cat, voter2
for dog, voter3 for cat. -/
def tallyExample : Stub :=
  Stub.ofState
    [(str "voter1", str "\x7b\"candidate\":\"cat\",\"voterID\":\"voter1\"\x7d"),
      (str "voter2", str "\x7b\"candidate\":\"dog\",\"voterID\":\"voter2\"\x7d"),
      (str "voter3", str "\x7b\"candidate\":\"cat\",\"voterID\":\"voter3\"\x7d")]

/-- A store with a truncated record between two valid ones. -/
def corruptExample : Stub :=
  Stub.ofState
    [(str "voter1", str "\x7b\"candidate\":\"cat\",\"voterID\":\"voter1\"\x7d"),
      (str "voter2", str "\x7b\"candidate\":\"dog\""),
      (str "voter3", str "\x7b\"candidate\":\"cat\",\"voterID\":\"voter3\"\x7d")]

/-- A store all of whose operations fail. -/
def failingStub : Stub := ⟨[], fun _ => true, fun _ _ => true, true, fun _ => true⟩

/-- An empty store whose writes fail. -/
def readOnlyStub : Stub := ⟨[], fun _ => false, fun _ _ => true, false, fun _ => false⟩


/-! ## Sequences of operations -/

/-- The operations of the contract, with their arguments. -/
inductive Op where
  | InitLedger
  | CastVote (voterID candidate : GoString)
  | VoteExists (voterID : GoString)
  | GetVote (voterID : GoString)
  | GetVoteCount

/-- The store after an operation.  `InitLedger` and `CastVote` hand it back;
`VoteExists`, `GetVote` and `GetVoteCount` call only `GetState` and
`GetStateByRange` of the stub, which read, so the store after them is the store
before. -/
def Op.run (stub : Stub) : Op → Stub
  | .InitLedger => (Voting.InitLedger stub).2
  | .CastVote voterID candidate => (Voting.CastVote stub voterID candidate).2
  | .VoteExists _ => stub
  | .GetVote _ => stub
  | .GetVoteCount => stub

/-- The store after a sequence of operations. -/
def runOps (stub : Stub) (ops : List Op) : Stub := ops.foldl Op.run stub

/-- The stores reachable from an empty store (whatever calls of it fail) by
operations of the contract. -/
def Reachable (stub : Stub) : Prop :=
  ∃ (init : Stub) (ops : List Op), init.state = [] ∧ stub = runOps init ops

/-- The string has no leading and no trailing white space: neither its first nor
its last rune is white space. -/
def Trimmed (s : GoString) : Prop :=
  IsSpace (DecodeRune s).1 = false ∧ IsSpace (DecodeLastRune s).1 = false

/-- The sum of the counts of a tally. -/
def VoteCounts.total (voteCounts : VoteCounts) : Nat := (voteCounts.map Prod.snd).sum

/-! ## Lemmas on the store -/

/-- Go `json.Marshal` of a vote returns the bytes of the struct encoder: no field of
a `Vote` is of a kind that cannot be encoded. -/
theorem Marshal_eq (vote : Vote) : Marshal vote = .ok (structEncoder vote) := by
  have h1 : ([] : GoString) ++ [0x7B] ++ str "\"candidate\":" = str "\x7b\"candidate\":" := by
    decide
  have h2 : ∀ e : GoString, e ++ [0x2C] ++ str "\"voterID\":" = e ++ str ",\"voterID\":" := by
    intro e
    rw [List.append_assoc]
    rfl
  have h3 : ¬ ((0x2C : Byte).val = 0x7B) := by decide
  simp only [Marshal, Vote.fields, encodeFields, FieldValue.encode, structEncoder, h1, h2,
    if_neg h3]
  rfl


theorem get_put_same (key value : GoString) (l : List (GoString × GoString)) :
    get key (put key value l) = some value := by
  induction l with
  | nil => simp [put, get]
  | cons kv rest ih =>
    obtain ⟨k, v⟩ := kv
    by_cases hk : k = key
    · simp [put, get, hk]
    · by_cases hlt : keyLt key k = true
      · simp [put, get, hk, hlt]
      · simp [put, get, hk, hlt, ih]

theorem get_put_other (k key value : GoString) (l : List (GoString × GoString))
    (h : k ≠ key) : get k (put key value l) = get k l := by
  induction l with
  | nil => simp [put, get, Ne.symm h]
  | cons kv rest ih =>
    obtain ⟨k', v⟩ := kv
    by_cases hk : k' = key
    · have hk' : ¬ k' = k := by rw [hk]; exact Ne.symm h
      simp [put, get, hk, Ne.symm h]
    · by_cases hlt : keyLt key k' = true
      · simp [put, get, hk, hlt, Ne.symm h]
      · simp [put, get, hk, hlt, ih]

theorem length_put_of_get_none (key value : GoString) (l : List (GoString × GoString))
    (h : get key l = none) : (put key value l).length = l.length + 1 := by
  induction l with
  | nil => simp [put]
  | cons kv rest ih =>
    obtain ⟨k, v⟩ := kv
    by_cases hk : k = key
    · simp [get, hk] at h
    · simp only [get, hk, if_false] at h
      by_cases hlt : keyLt key k = true
      · simp [put, hk, hlt]
      · simp [put, hk, hlt, ih h]

/-- What a successful `CastVote` amounts to. -/
theorem CastVote_eq_none_iff (stub : Stub) (voterID candidate : GoString) :
    (CastVote stub voterID candidate).1 = none ↔
      TrimSpace voterID ≠ [] ∧ TrimSpace candidate ≠ []
        ∧ stub.getStateErr (TrimSpace voterID) = false
        ∧ get (TrimSpace voterID) stub.state = none
        ∧ stub.putStateErr (TrimSpace voterID)
            (structEncoder ⟨TrimSpace candidate, TrimSpace voterID⟩) = false := by
  unfold CastVote VoteExists Stub.GetState Stub.PutState
  simp only [Marshal_eq]
  by_cases h1 : TrimSpace voterID = []
  · simp [h1]
  by_cases h2 : TrimSpace candidate = []
  · simp [h1, h2]
  by_cases h3 : stub.getStateErr (TrimSpace voterID) = true
  · simp [h1, h2, h3]
  cases h4 : get (TrimSpace voterID) stub.state with
  | some v => simp [h1, h2, h3, h4]
  | none =>
    by_cases h5 : stub.putStateErr (TrimSpace voterID)
        (structEncoder ⟨TrimSpace candidate, TrimSpace voterID⟩) = true
    · simp [h1, h2, h3, h4, h5]
    · simp [h1, h2, h3, h4, h5]

/-- The store after a successful `CastVote`. -/
theorem CastVote_store_of_success (stub : Stub) (voterID candidate : GoString)
    (h : (CastVote stub voterID candidate).1 = none) :
    (CastVote stub voterID candidate).2 =
      { stub with
        state := (put (TrimSpace voterID)
          (structEncoder ⟨TrimSpace candidate, TrimSpace voterID⟩) stub.state) } := by
  obtain ⟨h1, h2, h3, h4, h5⟩ := (CastVote_eq_none_iff stub voterID candidate).1 h
  unfold CastVote VoteExists Stub.GetState Stub.PutState
  simp only [Marshal_eq]
  simp [h1, h2, h3, h4, h5]

/-! ## Lemmas on UTF-8 -/

theorem ofNat_eq_iff (b : Byte) (n : Nat) : (Fin.ofNat n : Byte) = b ↔ n % 256 = b.val := by
  constructor
  · intro h; rw [← h]; rfl
  · intro h; apply Fin.ext; simpa [Fin.ofNat] using h

theorem DecodeRune_width_pos (p0 : Byte) (rest : GoString) :
    1 ≤ (DecodeRune (p0 :: rest)).2 := by
  simp only [DecodeRune]
  split_ifs <;> (try split) <;> (try split_ifs) <;> simp

theorem DecodeRune_width_le (s : GoString) : (DecodeRune s).2 ≤ s.length := by
  cases s with
  | nil => simp [DecodeRune]
  | cons p0 rest =>
    simp only [DecodeRune]
    split_ifs <;> (try split) <;> (try split_ifs) <;> simp

theorem DecodeRune_of_ValidHead {s : GoString} {r n : Nat} (h : ValidHead s r n) :
    DecodeRune s = (r, n) := by
  cases h with
  | one p0 t h0 => simp [DecodeRune, h0]
  | two p0 b1 t h0 h1 =>
    simp only [DecodeRune, isCont]
    rw [if_neg (by omega), if_neg (by omega), if_pos (by omega)]
    simp [h1]
  | three p0 b1 b2 t h0 h1 hlo hhi h2 =>
    simp only [DecodeRune, isCont]
    rw [if_neg (by omega), if_neg (by omega), if_neg (by omega), if_pos (by omega)]
    rw [if_pos (by constructor <;> split_ifs <;> omega)]
    simp [h2]
  | four p0 b1 b2 b3 t h0 h1 hlo hhi h2 h3 =>
    simp only [DecodeRune, isCont]
    rw [if_neg (by omega), if_neg (by omega), if_neg (by omega), if_neg (by omega),
      if_pos (by omega)]
    rw [if_pos (by constructor <;> split_ifs <;> omega)]
    simp [h2, h3]

theorem ValidHead_of_DecodeRune (p0 : Byte) (rest : GoString)
    (h : DecodeRune (p0 :: rest) ≠ (RuneError, 1)) :
    ValidHead (p0 :: rest) (DecodeRune (p0 :: rest)).1 (DecodeRune (p0 :: rest)).2 := by
  by_cases h0 : p0.val < 0x80
  · have := ValidHead.one p0 rest h0
    rw [DecodeRune_of_ValidHead this]; exact this
  by_cases h1 : p0.val < 0xC2
  · exfalso; apply h; simp [DecodeRune, h0, h1]
  by_cases h2 : p0.val < 0xE0
  · cases rest with
    | nil => exfalso; apply h; simp [DecodeRune, h0, h1, h2]
    | cons b1 t =>
      by_cases hc : 0x80 ≤ b1.val ∧ b1.val ≤ 0xBF
      · have := ValidHead.two p0 b1 t (by omega) hc
        rw [DecodeRune_of_ValidHead this]; exact this
      · exfalso; apply h; simp only [DecodeRune, isCont, h0, h1, h2, hc]; simp
  by_cases h3 : p0.val < 0xF0
  · match rest with
    | [] => exfalso; apply h; simp [DecodeRune, h0, h1, h2, h3]
    | [_] => exfalso; apply h; simp [DecodeRune, h0, h1, h2, h3]
    | b1 :: b2 :: t =>
      by_cases hc : (if p0.val = 0xE0 then 0xA0 else 0x80) ≤ b1.val
          ∧ b1.val ≤ (if p0.val = 0xED then 0x9F else 0xBF)
      · by_cases hc2 : 0x80 ≤ b2.val ∧ b2.val ≤ 0xBF
        · have := ValidHead.three p0 b1 b2 t (by omega)
            (by obtain ⟨ha, hb⟩ := hc; split_ifs at ha hb <;> omega)
            (by intro hp; obtain ⟨ha, _⟩ := hc; rw [if_pos hp] at ha; exact ha)
            (by intro hp; obtain ⟨_, hb⟩ := hc; rw [if_pos hp] at hb; exact hb) hc2
          rw [DecodeRune_of_ValidHead this]; exact this
        · exfalso; apply h; simp only [DecodeRune, isCont, h0, h1, h2, h3, hc, hc2]; simp
      · exfalso; apply h; simp only [DecodeRune, isCont, h0, h1, h2, h3, hc]; simp
  by_cases h4 : p0.val < 0xF5
  · match rest with
    | [] => exfalso; apply h; simp [DecodeRune, h0, h1, h2, h3, h4]
    | [_] => exfalso; apply h; simp [DecodeRune, h0, h1, h2, h3, h4]
    | [_, _] => exfalso; apply h; simp [DecodeRune, h0, h1, h2, h3, h4]
    | b1 :: b2 :: b3 :: t =>
      by_cases hc : (if p0.val = 0xF0 then 0x90 else 0x80) ≤ b1.val
          ∧ b1.val ≤ (if p0.val = 0xF4 then 0x8F else 0xBF)
      · by_cases hc2 : 0x80 ≤ b2.val ∧ b2.val ≤ 0xBF
        · by_cases hc3 : 0x80 ≤ b3.val ∧ b3.val ≤ 0xBF
          · have := ValidHead.four p0 b1 b2 b3 t (by omega)
              (by obtain ⟨ha, hb⟩ := hc; split_ifs at ha hb <;> omega)
              (by intro hp; obtain ⟨ha, _⟩ := hc; rw [if_pos hp] at ha; exact ha)
              (by intro hp; obtain ⟨_, hb⟩ := hc; rw [if_pos hp] at hb; exact hb) hc2 hc3
            rw [DecodeRune_of_ValidHead this]; exact this
          · exfalso; apply h
            simp only [DecodeRune, isCont, h0, h1, h2, h3, h4, hc, hc2, hc3]; simp
        · exfalso; apply h; simp only [DecodeRune, isCont, h0, h1, h2, h3, h4, hc, hc2]; simp
      · exfalso; apply h; simp only [DecodeRune, isCont, h0, h1, h2, h3, h4, hc]; simp
  · exfalso; apply h; simp [DecodeRune, h0, h1, h2, h3, h4]

theorem EncodeRune_of_ValidHead {s : GoString} {r n : Nat} (h : ValidHead s r n) :
    EncodeRune r = s.take n := by
  cases h with
  | one p0 t h0 =>
    simp only [EncodeRune, List.take_succ_cons, List.take_zero]
    rw [if_pos (by omega)]
    simp only [List.cons.injEq, ofNat_eq_iff, and_true]; omega
  | two p0 b1 t h0 h1 =>
    simp only [EncodeRune, List.take_succ_cons, List.take_zero]
    rw [if_neg (by omega), if_pos (by omega)]
    simp only [List.cons.injEq, ofNat_eq_iff, and_true]; omega
  | three p0 b1 b2 t h0 h1 hlo hhi h2 =>
    simp only [EncodeRune, List.take_succ_cons, List.take_zero]
    rw [if_neg (by omega), if_neg (by omega), if_neg (by omega), if_pos (by omega)]
    simp only [List.cons.injEq, ofNat_eq_iff, and_true]; omega
  | four p0 b1 b2 b3 t h0 h1 hlo hhi h2 h3 =>
    simp only [EncodeRune, List.take_succ_cons, List.take_zero]
    rw [if_neg (by omega), if_neg (by omega), if_neg (by omega), if_neg (by omega)]
    simp only [List.cons.injEq, ofNat_eq_iff, and_true]; omega

/-- A valid head stays one whatever follows it. -/
theorem ValidHead_take_append {s : GoString} {r n : Nat} (h : ValidHead s r n)
    (t : GoString) : ValidHead (s.take n ++ t) r n := by
  cases h with
  | one p0 t h0 => exact ValidHead.one p0 _ h0
  | two p0 b1 t h0 h1 => exact ValidHead.two p0 b1 _ h0 h1
  | three p0 b1 b2 t h0 h1 hlo hhi h2 => exact ValidHead.three p0 b1 b2 _ h0 h1 hlo hhi h2
  | four p0 b1 b2 b3 t h0 h1 hlo hhi h2 h3 =>
    exact ValidHead.four p0 b1 b2 b3 _ h0 h1 hlo hhi h2 h3
/-! ## The loops over the runes of a string -/

/-- Induction over a string rune by rune. -/
theorem rune_induction (P : GoString → Prop) (h0 : P [])
    (hstep : ∀ b rest, P ((b :: rest).drop (DecodeRune (b :: rest)).2) → P (b :: rest)) :
    ∀ s, P s := by
  have key : ∀ n, ∀ s : GoString, s.length ≤ n → P s := by
    intro n
    induction n with
    | zero =>
      intro s hs
      have : s = [] := List.length_eq_zero.mp (by omega)
      rw [this]; exact h0
    | succ n ih =>
      intro s hs
      cases s with
      | nil => exact h0
      | cons b rest =>
        apply hstep
        have h1 := DecodeRune_width_pos b rest
        apply ih
        simp only [List.length_drop, List.length_cons] at hs ⊢
        omega
  exact fun s => key s.length s (Nat.le_refl _)

theorem drop_width_cons (b : Byte) (rest : GoString) (n : Nat) (h : 1 ≤ n) :
    (b :: rest).drop n = rest.drop (n - 1) := by
  obtain ⟨m, rfl⟩ : ∃ m, n = m + 1 := ⟨n - 1, by omega⟩
  simp

theorem appendStringLoop_skip (k : Nat) (s : GoString) :
    appendStringLoop k s = appendStringLoop 0 (s.drop k) := by
  induction s generalizing k with
  | nil => simp [appendStringLoop]
  | cons b rest ih =>
    cases k with
    | zero => simp
    | succ k => simp only [appendStringLoop, List.drop_succ_cons]; exact ih k

theorem unquoteLoop_skip (k : Nat) (s : GoString) :
    unquoteLoop k s = unquoteLoop 0 (s.drop k) := by
  induction s generalizing k with
  | nil => simp [unquoteLoop]
  | cons b rest ih =>
    cases k with
    | zero => simp
    | succ k => simp only [unquoteLoop, List.drop_succ_cons]; exact ih k

theorem coerceLoop_skip (k : Nat) (s : GoString) :
    coerceLoop k s = coerceLoop 0 (s.drop k) := by
  induction s generalizing k with
  | nil => simp [coerceLoop]
  | cons b rest ih =>
    cases k with
    | zero => simp
    | succ k => simp only [coerceLoop, List.drop_succ_cons]; exact ih k

theorem validLoop_skip (k : Nat) (s : GoString) :
    validLoop k s = validLoop 0 (s.drop k) := by
  induction s generalizing k with
  | nil => simp [validLoop]
  | cons b rest ih =>
    cases k with
    | zero => simp
    | succ k => simp only [validLoop, List.drop_succ_cons]; exact ih k

theorem appendStringAt_width (b : Byte) (rest : GoString) :
    (appendStringAt (b :: rest)).2 = (DecodeRune (b :: rest)).2 := by
  by_cases h : b.val < 0x80
  · have hd : DecodeRune (b :: rest) = (b.val, 1) := by simp [DecodeRune, h]
    simp only [appendStringAt, h, if_true, hd]
    split_ifs <;> rfl
  · simp only [appendStringAt, h, if_false]
    split_ifs with h1 h2
    · rw [h1]
    · rfl
    · rfl

theorem appendStringLoop_cons (b : Byte) (rest : GoString) :
    appendStringLoop 0 (b :: rest) = (appendStringAt (b :: rest)).1
      ++ appendStringLoop 0 ((b :: rest).drop (DecodeRune (b :: rest)).2) := by
  rw [drop_width_cons b rest _ (DecodeRune_width_pos b rest), ← appendStringLoop_skip,
    ← appendStringAt_width]
  rfl

theorem coerceLoop_cons (b : Byte) (rest : GoString) :
    coerceLoop 0 (b :: rest) = coerceAt (b :: rest)
      ++ coerceLoop 0 ((b :: rest).drop (DecodeRune (b :: rest)).2) := by
  rw [drop_width_cons b rest _ (DecodeRune_width_pos b rest), ← coerceLoop_skip]
  rfl

theorem validLoop_cons (b : Byte) (rest : GoString) :
    validLoop 0 (b :: rest) = (!decide (DecodeRune (b :: rest) = (RuneError, 1))
      && validLoop 0 ((b :: rest).drop (DecodeRune (b :: rest)).2)) := by
  rw [drop_width_cons b rest _ (DecodeRune_width_pos b rest), ← validLoop_skip]
  simp only [validLoop]
  split_ifs with h <;> simp [h]

/-- A string that is valid UTF-8 is not changed by the coercion. -/
theorem coerceUTF8_of_valid (s : GoString) (h : ValidString s = true) : coerceUTF8 s = s := by
  unfold coerceUTF8 ValidString at *
  revert h
  refine rune_induction (fun s => validLoop 0 s = true → coerceLoop 0 s = s) ?_ ?_ s
  · intro _; rfl
  · intro b rest ih h
    rw [validLoop_cons] at h
    simp only [Bool.and_eq_true, Bool.not_eq_true', decide_eq_false_iff_not] at h
    rw [coerceLoop_cons, ih h.2, coerceAt, if_neg h.1, List.take_append_drop]

/-- The unfolding of `unquoteLoop` at a chunk that `unquoteAt` reads as a whole. -/
theorem unquoteLoop_chunk (out t c : GoString) (hne : out ≠ [])
    (h : unquoteAt (out ++ t) = some (c, out.length)) :
    unquoteLoop 0 (out ++ t) = (unquoteLoop 0 t).map (fun u => c ++ u) := by
  cases out with
  | nil => exact absurd rfl hne
  | cons o out' =>
    simp only [List.cons_append] at h ⊢
    simp only [unquoteLoop, h, List.length_cons, Nat.add_sub_cancel]
    rw [unquoteLoop_skip]
    simp only [List.drop_left']
    cases unquoteLoop 0 t <;> rfl
/-! ## Unquoting an escaped string -/

theorem byte_val_lit (n : Nat) : ((no_index (OfNat.ofNat n) : Byte) : Nat) = n % 256 := rfl

theorem hexVal_hex : ∀ n, n < 16 → hexVal (hex n) = some n := by decide

theorem isHex_hex : ∀ n, n < 16 → isHex (hex n) = true := by decide

theorem getu4_escape (u v x y : Nat) (hu : u < 16) (hv : v < 16) (hx : x < 16) (hy : y < 16)
    (t : GoString) :
    getu4 (0x5C :: 0x75 :: hex u :: hex v :: hex x :: hex y :: t)
      = some (((u * 16 + v) * 16 + x) * 16 + y) := by
  simp only [getu4, byte_val_lit]
  rw [hexVal_hex u hu, hexVal_hex v hv, hexVal_hex x hx, hexVal_hex y hy]
  simp

theorem coerceAt_ascii (b : Byte) (rest : GoString) (h : b.val < 0x80) :
    coerceAt (b :: rest) = [b] := by
  have hd : DecodeRune (b :: rest) = (b.val, 1) := by simp [DecodeRune, h]
  simp only [coerceAt, hd]
  rw [if_neg]
  · simp
  · intro hh
    simp only [RuneError, Prod.mk.injEq] at hh
    omega

theorem unquoteAt_plain (c : Byte) (t : GoString) (h1 : c.val ≠ 0x5C) (h2 : c.val ≠ 0x22)
    (h3 : 0x20 ≤ c.val) (h4 : c.val < 0x80) : unquoteAt (c :: t) = some ([c], 1) := by
  simp only [unquoteAt]
  rw [if_neg h1, if_neg (by omega), if_pos h4]

theorem unquoteAt_raw (c : Byte) (t : GoString) (h : 0x80 ≤ c.val) :
    unquoteAt (c :: t) = some (EncodeRune (DecodeRune (c :: t)).1, (DecodeRune (c :: t)).2) := by
  simp only [unquoteAt]
  rw [if_neg (by omega), if_neg (by omega), if_neg (by omega)]

theorem unquoteAt_short (e : Byte) (t : GoString) :
    unquoteAt (0x5C :: e :: t) =
      if e.val = 0x22 ∨ e.val = 0x5C ∨ e.val = 0x2F ∨ e.val = 0x27 then some ([e], 2)
      else if e.val = 0x62 then some ([0x08], 2)
      else if e.val = 0x66 then some ([0x0C], 2)
      else if e.val = 0x6E then some ([0x0A], 2)
      else if e.val = 0x72 then some ([0x0D], 2)
      else if e.val = 0x74 then some ([0x09], 2)
      else if e.val = 0x75 then
        match getu4 (0x5C :: e :: t) with
        | none => none
        | some rr =>
          if 0xD800 ≤ rr ∧ rr < 0xE000 then
            if utf16DecodeRune rr (getu4 ((0x5C :: e :: t).drop 6)) ≠ 0xFFFD then
              some (EncodeRune (utf16DecodeRune rr (getu4 ((0x5C :: e :: t).drop 6))), 12)
            else some (EncodeRune 0xFFFD, 6)
          else some (EncodeRune rr, 6)
      else none := by
  simp only [unquoteAt, byte_val_lit]
  rfl

theorem unquoteAt_u (u v x y : Nat) (hu : u < 16) (hv : v < 16) (hx : x < 16) (hy : y < 16)
    (t : GoString) (hs : ¬ (0xD800 ≤ ((u * 16 + v) * 16 + x) * 16 + y
      ∧ ((u * 16 + v) * 16 + x) * 16 + y < 0xE000)) :
    unquoteAt (0x5C :: 0x75 :: hex u :: hex v :: hex x :: hex y :: t)
      = some (EncodeRune (((u * 16 + v) * 16 + x) * 16 + y), 6) := by
  rw [unquoteAt_short, getu4_escape u v x y hu hv hx hy]
  simp only [byte_val_lit]
  norm_num
  intro h1 h2
  exact absurd ⟨h1, h2⟩ hs

theorem EncodeRune_ascii (b : Byte) (h : b.val < 0x80) : EncodeRune b.val = [b] := by
  simp only [EncodeRune]
  rw [if_pos (by omega)]
  simp only [List.cons.injEq, ofNat_eq_iff, and_true]; omega

theorem appendStringAt_ascii (b : Byte) (rest : GoString) (h : b.val < 0x80) :
    (appendStringAt (b :: rest)).1 =
      if htmlSafeSet b then [b]
      else if b.val = 0x5C ∨ b.val = 0x22 then [0x5C, b]
      else if b.val = 0x08 then [0x5C, 0x62]
      else if b.val = 0x0C then [0x5C, 0x66]
      else if b.val = 0x0A then [0x5C, 0x6E]
      else if b.val = 0x0D then [0x5C, 0x72]
      else if b.val = 0x09 then [0x5C, 0x74]
      else [0x5C, 0x75, 0x30, 0x30, hex (b.val / 16), hex (b.val % 16)] := by
  simp only [appendStringAt, h, if_true]
  split_ifs <;> rfl

theorem appendStringAt_nonascii (b : Byte) (rest : GoString) (h : ¬ b.val < 0x80) :
    (appendStringAt (b :: rest)).1 =
      if DecodeRune (b :: rest) = (RuneError, 1) then [0x5C, 0x75, 0x66, 0x66, 0x66, 0x64]
      else if (DecodeRune (b :: rest)).1 = 0x2028 ∨ (DecodeRune (b :: rest)).1 = 0x2029 then
        [0x5C, 0x75, 0x32, 0x30, 0x32, hex ((DecodeRune (b :: rest)).1 % 16)]
      else (b :: rest).take (DecodeRune (b :: rest)).2 := by
  simp only [appendStringAt, h, if_false]
  split_ifs <;> rfl

/-- Each chunk written by `appendString` is read back by `unquoteBytes` as the
coerced bytes of the rune it was written for. -/
theorem unquoteAt_appendStringAt (b : Byte) (rest t : GoString) :
    unquoteAt ((appendStringAt (b :: rest)).1 ++ t)
      = some (coerceAt (b :: rest), (appendStringAt (b :: rest)).1.length) := by
  by_cases h : b.val < 0x80
  · rw [coerceAt_ascii b rest h, appendStringAt_ascii b rest h]
    split_ifs with h1 h2 h3 h4 h5 h6 h7
    · simp only [htmlSafeSet, decide_eq_true_eq] at h1
      simp only [List.cons_append, List.nil_append]
      rw [unquoteAt_plain b t (by omega) (by omega) (by omega) h]
      rfl
    · simp only [List.cons_append, List.nil_append]
      rw [unquoteAt_short, if_pos (by omega)]
      rfl
    · simp only [List.cons_append, List.nil_append]
      rw [unquoteAt_short]
      simp only [byte_val_lit, List.length_cons, List.length_nil]
      norm_num
      apply Fin.ext; simp only [byte_val_lit]; omega
    · simp only [List.cons_append, List.nil_append]
      rw [unquoteAt_short]
      simp only [byte_val_lit, List.length_cons, List.length_nil]
      norm_num
      apply Fin.ext; simp only [byte_val_lit]; omega
    · simp only [List.cons_append, List.nil_append]
      rw [unquoteAt_short]
      simp only [byte_val_lit, List.length_cons, List.length_nil]
      norm_num
      apply Fin.ext; simp only [byte_val_lit]; omega
    · simp only [List.cons_append, List.nil_append]
      rw [unquoteAt_short]
      simp only [byte_val_lit, List.length_cons, List.length_nil]
      norm_num
      apply Fin.ext; simp only [byte_val_lit]; omega
    · simp only [List.cons_append, List.nil_append]
      rw [unquoteAt_short]
      simp only [byte_val_lit, List.length_cons, List.length_nil]
      norm_num
      apply Fin.ext; simp only [byte_val_lit]; omega
    · simp only [List.cons_append, List.nil_append]
      have e0 : (0x30 : Byte) = hex 0 := by decide
      rw [e0, unquoteAt_u 0 0 (b.val / 16) (b.val % 16) (by omega) (by omega) (by omega)
        (by omega) t (by omega)]
      have : ((0 * 16 + 0) * 16 + b.val / 16) * 16 + b.val % 16 = b.val := by omega
      rw [this, EncodeRune_ascii b h]
      rfl
  · rw [appendStringAt_nonascii b rest h]
    split_ifs with h1 h2
    · simp only [List.cons_append, List.nil_append, coerceAt, h1, if_true]
      have e : ([0x5C, 0x75, 0x66, 0x66, 0x66, 0x64] : GoString)
          = [0x5C, 0x75, hex 15, hex 15, hex 15, hex 13] := by decide
      have e' : (0x5C :: 0x75 :: 0x66 :: 0x66 :: 0x66 :: 0x64 :: t : GoString)
          = 0x5C :: 0x75 :: hex 15 :: hex 15 :: hex 15 :: hex 13 :: t := by
        have := congrArg (fun l => l ++ t) e
        simpa using this
      rw [e', unquoteAt_u 15 15 15 13 (by omega) (by omega) (by omega) (by omega) t (by omega)]
      have : EncodeRune (((15 * 16 + 15) * 16 + 15) * 16 + 13) = [0xEF, 0xBF, 0xBD] := by decide
      rw [this]; rfl
    · have hv := ValidHead_of_DecodeRune b rest h1
      have henc := EncodeRune_of_ValidHead hv
      simp only [List.cons_append, List.nil_append, coerceAt, h1, if_false]
      have e : ([0x5C, 0x75, 0x32, 0x30, 0x32] : GoString)
          = [0x5C, 0x75, hex 2, hex 0, hex 2] := by decide
      have e' : (0x5C :: 0x75 :: 0x32 :: 0x30 :: 0x32
            :: hex ((DecodeRune (b :: rest)).1 % 16) :: t : GoString)
          = 0x5C :: 0x75 :: hex 2 :: hex 0 :: hex 2
            :: hex ((DecodeRune (b :: rest)).1 % 16) :: t := by
        have := congrArg (fun l => l ++ (hex ((DecodeRune (b :: rest)).1 % 16) :: t)) e
        simpa using this
      rw [e', unquoteAt_u 2 0 2 _ (by omega) (by omega) (by omega) (by omega) t (by omega)]
      have : ((2 * 16 + 0) * 16 + 2) * 16 + (DecodeRune (b :: rest)).1 % 16
          = (DecodeRune (b :: rest)).1 := by omega
      rw [this, henc]; rfl
    · have hv := ValidHead_of_DecodeRune b rest h1
      have hv' := ValidHead_take_append hv t
      have henc := EncodeRune_of_ValidHead hv
      have hd := DecodeRune_of_ValidHead hv'
      have hlen : ((b :: rest).take (DecodeRune (b :: rest)).2).length
          = (DecodeRune (b :: rest)).2 := by
        rw [List.length_take]; exact Nat.min_eq_left (DecodeRune_width_le _)
      obtain ⟨n, hn⟩ : ∃ n, (DecodeRune (b :: rest)).2 = n + 1 :=
        ⟨(DecodeRune (b :: rest)).2 - 1, by have := DecodeRune_width_pos b rest; omega⟩
      rw [hn] at hd hlen henc ⊢
      simp only [List.take_succ_cons, List.cons_append] at hd hlen henc ⊢
      rw [unquoteAt_raw b _ (by omega), hd]
      simp only [coerceAt, h1, if_false, hn, List.take_succ_cons, henc, hlen]
theorem usualLoop_skip (k : Nat) (s : GoString) :
    usualLoop k s = usualLoop 0 (s.drop k) := by
  induction s generalizing k with
  | nil => simp [usualLoop]
  | cons b rest ih =>
    cases k with
    | zero => simp
    | succ k => simp only [usualLoop, List.drop_succ_cons]; exact ih k

/-- On a text without unusual characters, which `unquoteBytes` returns as it is,
the loop of `unquoteBytes` returns the text as well. -/
theorem unquoteLoop_of_usual (s : GoString) (h : usualLoop 0 s = true) :
    unquoteLoop 0 s = some s := by
  revert h
  refine rune_induction (fun s => usualLoop 0 s = true → unquoteLoop 0 s = some s) ?_ ?_ s
  · intro _; rfl
  · intro b rest ih h
    have hw := DecodeRune_width_pos b rest
    simp only [usualLoop] at h
    split_ifs at h with h1 h2 h3
    · have hd : DecodeRune (b :: rest) = (b.val, 1) := by simp [DecodeRune, h2]
      rw [hd] at ih
      simp only [List.drop_succ_cons, List.drop_zero] at ih
      have := unquoteLoop_chunk [b] rest [b] (by simp)
        (by simpa using unquoteAt_plain b rest (by omega) (by omega) (by omega) h2)
      simp only [List.cons_append, List.nil_append] at this
      rw [this, ih h]
      rfl
    · rw [usualLoop_skip, ← drop_width_cons b rest _ hw] at h
      have hv := ValidHead_of_DecodeRune b rest h3
      have henc := EncodeRune_of_ValidHead hv
      have hlen : ((b :: rest).take (DecodeRune (b :: rest)).2).length
          = (DecodeRune (b :: rest)).2 := by
        rw [List.length_take]; exact Nat.min_eq_left (DecodeRune_width_le _)
      have hsplit := List.take_append_drop (DecodeRune (b :: rest)).2 (b :: rest)
      have hat : unquoteAt ((b :: rest).take (DecodeRune (b :: rest)).2
            ++ (b :: rest).drop (DecodeRune (b :: rest)).2)
          = some ((b :: rest).take (DecodeRune (b :: rest)).2,
              ((b :: rest).take (DecodeRune (b :: rest)).2).length) := by
        rw [hsplit, unquoteAt_raw b rest (by omega), henc, hlen]
      have hne : (b :: rest).take (DecodeRune (b :: rest)).2 ≠ [] := by
        intro h0
        have := congrArg List.length h0
        rw [hlen] at this
        simp at this
        omega
      have := unquoteLoop_chunk _ _ _ hne hat
      rw [hsplit] at this
      rw [this, ih h]
      simp only [Option.map_some']
      rw [hsplit]

/-- The two paths of `unquoteBytes` agree: it returns what its loop returns. -/
theorem unquote_eq_unquoteLoop (s : GoString) : unquote s = unquoteLoop 0 s := by
  unfold unquote
  split_ifs with h
  · rw [unquoteLoop_of_usual s h]
  · rfl
/-! ## Decoding an encoded vote -/

theorem appendStringAt_ne_nil (b : Byte) (rest : GoString) :
    (appendStringAt (b :: rest)).1 ≠ [] := by
  intro h
  have := unquoteAt_appendStringAt b rest []
  rw [h] at this
  simp [unquoteAt] at this

/-- Unquoting what `appendString` wrote between the quotes gives the string
coerced to valid UTF-8. -/
theorem unquote_appendStringLoop (s : GoString) :
    unquote (appendStringLoop 0 s) = some (coerceUTF8 s) := by
  rw [unquote_eq_unquoteLoop]
  unfold coerceUTF8
  refine rune_induction
    (fun s => unquoteLoop 0 (appendStringLoop 0 s) = some (coerceLoop 0 s)) ?_ ?_ s
  · rfl
  · intro b rest ih
    rw [appendStringLoop_cons, unquoteLoop_chunk _ _ _ (appendStringAt_ne_nil b rest)
      (unquoteAt_appendStringAt b rest _), ih, coerceLoop_cons]
    rfl

theorem decodeNext_plain (e : Bool) (d : decodeState) (c : Byte) (h1 : c.val ≠ 0x22)
    (h2 : c.val ≠ 0x5C) (h3 : 0x20 ≤ c.val) :
    decodeNext (inValue e, d) c = (inValue e, { d with item := d.item ++ [c] }) := by
  simp only [decodeNext, inValue, Scanner.next, decodeState.next]
  rw [if_neg h1, if_neg h2, if_neg (by omega), if_neg h1]

theorem foldl_decodeNext_plain (e : Bool) (l : GoString) (d : decodeState)
    (h : ∀ c ∈ l, 0x80 ≤ c.val) :
    l.foldl decodeNext (inValue e, d) = (inValue e, { d with item := d.item ++ l }) := by
  induction l generalizing d with
  | nil => simp
  | cons c l ih =>
    have hc := h c (List.mem_cons_self _ _)
    rw [List.foldl_cons, decodeNext_plain e d c (by omega) (by omega) (by omega),
      ih _ (fun x hx => h x (List.mem_cons_of_mem _ hx))]
    simp

theorem foldl_decodeNext_short (e : Bool) (d : decodeState) (c : Byte)
    (h : c.val = 0x62 ∨ c.val = 0x66 ∨ c.val = 0x6E ∨ c.val = 0x72 ∨ c.val = 0x74
        ∨ c.val = 0x5C ∨ c.val = 0x2F ∨ c.val = 0x22) :
    [0x5C, c].foldl decodeNext (inValue e, d)
      = (inValue e, { d with item := d.item ++ [0x5C, c] }) := by
  simp only [List.foldl_cons, List.foldl_nil, decodeNext, inValue, Scanner.next,
    decodeState.next, byte_val_lit]
  norm_num
  intro a1 a2 a3 a4 a5 a6 a7 a8
  omega

theorem foldl_decodeNext_u (e : Bool) (d : decodeState) (u v x y : Nat) (hu : u < 16)
    (hv : v < 16) (hx : x < 16) (hy : y < 16) :
    [0x5C, 0x75, hex u, hex v, hex x, hex y].foldl decodeNext (inValue e, d)
      = (inValue e, { d with item := d.item ++ [0x5C, 0x75, hex u, hex v, hex x, hex y] }) := by
  simp only [List.foldl_cons, List.foldl_nil, decodeNext, inValue, Scanner.next,
    decodeState.next, byte_val_lit, isHex_hex u hu, isHex_hex v hv, isHex_hex x hx,
    isHex_hex y hy]
  norm_num

theorem ValidHead_bytes {s : GoString} {r n : Nat} (h : ValidHead s r n)
    (h0 : ∀ b t, s = b :: t → 0x80 ≤ b.val) : ∀ c ∈ s.take n, 0x80 ≤ c.val := by
  cases h with
  | one p0 t hp => have := h0 p0 t rfl; omega
  | two p0 b1 t hp h1 =>
    intro c hc
    simp only [List.take_succ_cons, List.take_zero, List.mem_cons, List.mem_nil_iff,
      or_false] at hc
    rcases hc with rfl | rfl <;> omega
  | three p0 b1 b2 t hp h1 hlo hhi h2 =>
    intro c hc
    simp only [List.take_succ_cons, List.take_zero, List.mem_cons, List.mem_nil_iff,
      or_false] at hc
    rcases hc with rfl | rfl | rfl <;> omega
  | four p0 b1 b2 b3 t hp h1 hlo hhi h2 h3 =>
    intro c hc
    simp only [List.take_succ_cons, List.take_zero, List.mem_cons, List.mem_nil_iff,
      or_false] at hc
    rcases hc with rfl | rfl | rfl | rfl <;> omega

/-- The decoder collects each chunk written by `appendString` as it stands. -/
theorem foldl_decodeNext_appendStringAt (e : Bool) (d : decodeState) (b : Byte)
    (rest : GoString) :
    (appendStringAt (b :: rest)).1.foldl decodeNext (inValue e, d)
      = (inValue e, { d with item := d.item ++ (appendStringAt (b :: rest)).1 }) := by
  by_cases h : b.val < 0x80
  · rw [appendStringAt_ascii b rest h]
    split_ifs with h1 h2 h3 h4 h5 h6 h7
    · simp only [htmlSafeSet, decide_eq_true_eq] at h1
      rw [List.foldl_cons, List.foldl_nil, decodeNext_plain e d b (by omega) (by omega)
        (by omega)]
    · exact foldl_decodeNext_short e d b (by omega)
    · exact foldl_decodeNext_short e d _ (by simp [byte_val_lit])
    · exact foldl_decodeNext_short e d _ (by simp [byte_val_lit])
    · exact foldl_decodeNext_short e d _ (by simp [byte_val_lit])
    · exact foldl_decodeNext_short e d _ (by simp [byte_val_lit])
    · exact foldl_decodeNext_short e d _ (by simp [byte_val_lit])
    · have e0 : (0x30 : Byte) = hex 0 := by decide
      rw [e0]
      exact foldl_decodeNext_u e d 0 0 _ _ (by omega) (by omega) (by omega) (by omega)
  · rw [appendStringAt_nonascii b rest h]
    split_ifs with h1 h2
    · have e1 : ([0x5C, 0x75, 0x66, 0x66, 0x66, 0x64] : GoString)
          = [0x5C, 0x75, hex 15, hex 15, hex 15, hex 13] := by decide
      rw [e1]
      exact foldl_decodeNext_u e d _ _ _ _ (by omega) (by omega) (by omega) (by omega)
    · have e1 : ([0x5C, 0x75, 0x32, 0x30, 0x32,
            hex ((DecodeRune (b :: rest)).1 % 16)] : GoString)
          = [0x5C, 0x75, hex 2, hex 0, hex 2, hex ((DecodeRune (b :: rest)).1 % 16)] := by
        have : ([0x5C, 0x75, 0x32, 0x30, 0x32] : GoString)
            = [0x5C, 0x75, hex 2, hex 0, hex 2] := by decide
        have := congrArg (fun l => l ++ [hex ((DecodeRune (b :: rest)).1 % 16)]) this
        simpa using this
      rw [e1]
      exact foldl_decodeNext_u e d _ _ _ _ (by omega) (by omega) (by omega) (by omega)
    · apply foldl_decodeNext_plain
      apply ValidHead_bytes (ValidHead_of_DecodeRune b rest h1)
      intro b' t' hbt
      simp only [List.cons.injEq] at hbt
      rw [← hbt.1]; omega

/-- The decoder collects the text `appendString` wrote between the quotes. -/
theorem foldl_decodeNext_appendStringLoop (e : Bool) (s : GoString) (d : decodeState) :
    (appendStringLoop 0 s).foldl decodeNext (inValue e, d)
      = (inValue e, { d with item := d.item ++ appendStringLoop 0 s }) := by
  revert d
  refine rune_induction (fun s => ∀ d : decodeState,
    (appendStringLoop 0 s).foldl decodeNext (inValue e, d)
      = (inValue e, { d with item := d.item ++ appendStringLoop 0 s })) ?_ ?_ s
  · intro d; simp [appendStringLoop]
  · intro b rest ih d
    rw [appendStringLoop_cons, List.foldl_append, foldl_decodeNext_appendStringAt, ih]
    simp
theorem decodeAll_prefix :
    decodeNext ((str "\x7b\"candidate\":").foldl decodeNext
        (Scanner.reset, ⟨⟨[], []⟩, false, [], []⟩)) 0x22
      = (inValue false, ⟨⟨[], []⟩, false, str "candidate", []⟩) := by
  decide

theorem field_candidate (d : decodeState) (h : d.key = str "candidate") :
    d.field = some .candidate := by
  unfold decodeState.field
  rw [h]
  decide

theorem field_voterID (d : decodeState) (h : d.key = str "voterID") :
    d.field = some .voterID := by
  unfold decodeState.field
  rw [h]
  decide

theorem decodeNext_quote (d : decodeState) :
    decodeNext (inValue false, d) 0x22
      = (⟨.stateEndValue, false, [.parseObjectValue]⟩, d.storeString) := by
  rfl

theorem str_middle : str ",\"voterID\":"
    = [0x2C, 0x22, 0x76, 0x6F, 0x74, 0x65, 0x72, 0x49, 0x44, 0x22, 0x3A] := by decide

theorem str_voterID : str "voterID" = [0x76, 0x6F, 0x74, 0x65, 0x72, 0x49, 0x44] := by decide

theorem decodeAll_middle (d : decodeState) :
    decodeNext ((str ",\"voterID\":").foldl decodeNext
        (⟨.stateEndValue, false, [.parseObjectValue]⟩, d)) 0x22
      = (inValue false, { d with key := str "voterID", item := [] }) := by
  rw [str_middle, str_voterID]
  simp [List.foldl, decodeNext, Scanner.next, decodeState.next, stateEndValue, stateBeginString,
    stateBeginValue, isSpace, byte_val_lit, inValue]

theorem decodeAll_suffix (d : decodeState) :
    (str "\x7d").foldl decodeNext (⟨.stateEndValue, false, [.parseObjectValue]⟩, d)
      = (⟨.stateEndTop, true, []⟩, d) := by
  rfl

/-- The scanner and the decoder after the encoding of a vote. -/
theorem decodeAll_structEncoder (vote : Vote) :
    decodeAll (structEncoder vote)
      = (⟨.stateEndTop, true, []⟩,
          ⟨⟨coerceUTF8 vote.Candidate, coerceUTF8 vote.VoterID⟩, false, str "voterID",
            appendStringLoop 0 vote.VoterID⟩) := by
  have e : structEncoder vote
      = (str "\x7b\"candidate\":" ++ [0x22]) ++ appendStringLoop 0 vote.Candidate ++ [0x22]
        ++ (str ",\"voterID\":" ++ [0x22]) ++ appendStringLoop 0 vote.VoterID ++ [0x22]
        ++ str "\x7d" := by
    simp [structEncoder, appendString]
  rw [decodeAll, e]
  simp only [List.foldl_append, decodeAll_prefix, foldl_decodeNext_appendStringLoop,
    List.foldl_cons, List.foldl_nil, decodeNext_quote, decodeAll_middle, decodeAll_suffix]
  simp only [decodeState.storeString, List.nil_append]
  rw [field_voterID _ rfl, field_candidate _ rfl]
  simp only [unquote_appendStringLoop]

/-- Unmarshalling the encoding of a vote succeeds and gives the vote with both
strings coerced to valid UTF-8. -/
theorem Unmarshal_structEncoder (vote : Vote) :
    Unmarshal (structEncoder vote)
      = .ok ⟨coerceUTF8 vote.Candidate, coerceUTF8 vote.VoterID⟩ := by
  simp [Unmarshal, decodeAll_structEncoder, Scanner.eof]
/-! ## White space -/

theorem IsSpace_cases (r : Nat) (h : IsSpace r = true) :
    r = 0x09 ∨ r = 0x0A ∨ r = 0x0B ∨ r = 0x0C ∨ r = 0x0D ∨ r = 0x20 ∨ r = 0x85 ∨ r = 0xA0
      ∨ r = 0x1680 ∨ r = 0x2000 ∨ r = 0x2001 ∨ r = 0x2002 ∨ r = 0x2003 ∨ r = 0x2004
      ∨ r = 0x2005 ∨ r = 0x2006 ∨ r = 0x2007 ∨ r = 0x2008 ∨ r = 0x2009 ∨ r = 0x200A
      ∨ r = 0x2028 ∨ r = 0x2029 ∨ r = 0x202F ∨ r = 0x205F ∨ r = 0x3000 := by
  unfold IsSpace at h
  split_ifs at h <;> simp only [decide_eq_true_eq] at h <;> omega

/-- The encoding of a white space rune decodes to that rune. -/
theorem DecodeRune_EncodeRune_space (r : Nat) (h : IsSpace r = true) :
    EncodeRune r ≠ [] ∧ DecodeRune (EncodeRune r) ≠ (RuneError, 1)
      ∧ DecodeRune (EncodeRune r) = (r, (EncodeRune r).length) := by
  rcases IsSpace_cases r h with h | h | h | h | h | h | h | h | h | h | h | h | h | h | h | h
    | h | h | h | h | h | h | h | h | h <;> subst h <;> decide

theorem DecodeRune_EncodeRune_space_append (r : Nat) (h : IsSpace r = true) (t : GoString) :
    DecodeRune (EncodeRune r ++ t) = (r, (EncodeRune r).length) := by
  obtain ⟨h1, h2, h3⟩ := DecodeRune_EncodeRune_space r h
  cases he : EncodeRune r with
  | nil => exact absurd he h1
  | cons b rest =>
    rw [he] at h2 h3
    have hv := ValidHead_of_DecodeRune b rest h2
    rw [h3] at hv
    have := ValidHead_take_append hv t
    rw [List.take_length] at this
    exact DecodeRune_of_ValidHead this

theorem TrimLeftFunc_skip (f : Nat → Bool) (k : Nat) (s : GoString) :
    TrimLeftFunc f k s = TrimLeftFunc f 0 (s.drop k) := by
  induction s generalizing k with
  | nil => simp [TrimLeftFunc]
  | cons b rest ih =>
    cases k with
    | zero => simp
    | succ k => simp only [TrimLeftFunc, List.drop_succ_cons]; exact ih k

/-- Function `TrimLeftFunc` removes a string of white space runes altogether. -/
theorem TrimLeftFunc_spaces (runes : List Nat) (h : ∀ r ∈ runes, IsSpace r = true) :
    TrimLeftFunc IsSpace 0 (runes.flatMap EncodeRune) = [] := by
  induction runes with
  | nil => rfl
  | cons r rs ih =>
    have hr := h r (List.mem_cons_self _ _)
    have hd := DecodeRune_EncodeRune_space_append r hr (rs.flatMap EncodeRune)
    obtain ⟨h1, -, -⟩ := DecodeRune_EncodeRune_space r hr
    simp only [List.flatMap_cons]
    cases he : EncodeRune r with
    | nil => exact absurd he h1
    | cons b rest =>
      rw [he] at hd
      simp only [List.cons_append] at hd ⊢
      simp only [TrimLeftFunc, hd, hr, if_true, List.length_cons, Nat.add_sub_cancel]
      rw [TrimLeftFunc_skip]
      simp only [List.drop_left']
      exact ih (fun x hx => h x (List.mem_cons_of_mem _ hx))

theorem EncodeRune_space_head (r : Nat) (h : IsSpace r = true) :
    (∃ b rest, EncodeRune r = b :: rest ∧ b.val ≥ 0x80)
      ∨ (∃ b, EncodeRune r = [b] ∧ b.val < 0x80 ∧ asciiSpace b = true) := by
  rcases IsSpace_cases r h with h | h | h | h | h | h | h | h | h | h | h | h | h
    | h | h | h | h | h | h | h | h | h | h | h | h <;> subst h <;>
    first
    | exact Or.inr ⟨_, rfl, by decide, by decide⟩
    | exact Or.inl ⟨_, _, rfl, by decide⟩

/-- Result: `TrimSpace` of a string that is empty or consists of white space only is the
empty string. -/
theorem TrimSpace_spaces (runes : List Nat) (h : ∀ r ∈ runes, IsSpace r = true) :
    TrimSpace (runes.flatMap EncodeRune) = [] := by
  induction runes with
  | nil => rfl
  | cons r rs ih =>
    have hr := h r (List.mem_cons_self _ _)
    have ih' := ih (fun x hx => h x (List.mem_cons_of_mem _ hx))
    have hl := TrimLeftFunc_spaces (r :: rs) h
    simp only [List.flatMap_cons] at hl ⊢
    rcases EncodeRune_space_head r hr with ⟨b, rest, he, hb⟩ | ⟨b, he, hb, hs⟩
    · rw [he] at hl ⊢
      simp only [List.cons_append] at hl ⊢
      simp only [TrimSpace, hb, if_true, TrimFunc, hl]
      rfl
    · rw [he]
      simp only [List.cons_append, List.nil_append]
      simp only [TrimSpace, hs, if_true]
      rw [if_neg (by omega)]
      exact ih'
/-! ## The scanner on truncated input -/

theorem decodeAll_fst_aux (data : GoString) (s : Scanner) (d : decodeState) :
    (data.foldl decodeNext (s, d)).1 = data.foldl Scanner.next s := by
  induction data generalizing s d with
  | nil => rfl
  | cons c rest ih => simp only [List.foldl_cons, decodeNext]; exact ih _ _

theorem decodeAll_fst (data : GoString) :
    (decodeAll data).1 = data.foldl Scanner.next Scanner.reset :=
  decodeAll_fst_aux data _ _

theorem Scanner.next_error (s : Scanner) (c : Byte) (h : s.step = .stateError) :
    (s.next c).step = .stateError := by
  unfold Scanner.next
  rw [h]
  exact h

theorem Scanner.foldl_error (data : GoString) (s : Scanner) (h : s.step = .stateError) :
    (data.foldl Scanner.next s).step = .stateError := by
  induction data generalizing s with
  | nil => exact h
  | cons c rest ih => exact ih _ (Scanner.next_error s c h)

theorem Entered_with_step (s : Scanner) (h : s.Inside) (x : Step) :
    Scanner.Entered { s with step := x } := Or.inr (Or.inr h)

theorem Entered_self (s : Scanner) (h : s.Inside) : s.Entered := Or.inr (Or.inr h)

theorem Entered_error (s : Scanner) : s.error.Entered := Or.inl rfl

theorem Entered_stateEndTop (s : Scanner) (c : Byte) (h : s.Inside) :
    (stateEndTop s c).Entered := by
  unfold stateEndTop
  split_ifs
  · exact Entered_self s h
  · exact Entered_error s

theorem Entered_popParseState (s : Scanner) (h : s.endTop = false) :
    s.popParseState.Entered := by
  unfold Scanner.popParseState
  split
  · exact Or.inr (Or.inl ⟨rfl, rfl, rfl⟩)
  · rename_i rest hne
    exact Or.inr (Or.inr ⟨h, by simpa using hne⟩)

theorem Entered_pushParseState (s : Scanner) (ps : ParseState) (x : Step)
    (h : s.endTop = false) : (s.pushParseState ps x).Entered := by
  unfold Scanner.pushParseState
  split_ifs
  · exact Or.inr (Or.inr ⟨h, by simp⟩)
  · exact Or.inl rfl

theorem Entered_stateEndValue (s : Scanner) (c : Byte) (h : s.Inside) :
    (stateEndValue s c).Entered := by
  obtain ⟨step, endTop, parseState⟩ := s
  obtain ⟨h1, h2⟩ := h
  simp only at h1 h2
  subst h1
  cases parseState with
  | nil => exact absurd rfl h2
  | cons ps rest =>
    cases ps <;> simp only [stateEndValue] <;> split_ifs <;>
      first
      | exact Entered_error _
      | exact Entered_popParseState _ rfl
      | exact Or.inr (Or.inr ⟨rfl, by simp⟩)

theorem Entered_stateBeginValue (s : Scanner) (c : Byte) (h : s.Inside) :
    (stateBeginValue s c).Entered := by
  unfold stateBeginValue
  by_cases h1 : isSpace c = true
  · rw [if_pos h1]; exact Or.inr (Or.inr h)
  rw [if_neg h1]
  by_cases h2 : c.val = 0x7B
  · rw [if_pos h2]; exact Entered_pushParseState _ _ _ h.1
  rw [if_neg h2]
  by_cases h3 : c.val = 0x5B
  · rw [if_pos h3]; exact Entered_pushParseState _ _ _ h.1
  rw [if_neg h3]
  split_ifs
  all_goals exact Or.inr (Or.inr h)

theorem Entered_stateBeginString (s : Scanner) (c : Byte) (h : s.Inside) :
    (stateBeginString s c).Entered := by
  unfold stateBeginString
  split_ifs <;>
    first
    | exact Entered_self s h
    | exact Entered_error _
    | exact Entered_with_step s h _

theorem Entered_state0 (s : Scanner) (c : Byte) (h : s.Inside) : (state0 s c).Entered := by
  unfold state0
  split_ifs <;>
    first
    | exact Entered_stateEndValue s c h
    | exact Entered_with_step s h _

theorem Entered_stateESign (s : Scanner) (c : Byte) (h : s.Inside) :
    (stateESign s c).Entered := by
  unfold stateESign
  split_ifs <;>
    first
    | exact Entered_error _
    | exact Entered_with_step s h _

theorem Entered_stateLetter (s : Scanner) (c : Byte) (n : Nat) (x : Step) (h : s.Inside) :
    (stateLetter s c n x).Entered := by
  unfold stateLetter
  split_ifs <;>
    first
    | exact Entered_error _
    | exact Entered_with_step s h _

theorem Inside_with_parseState (s : Scanner) (h : s.Inside) (ps : ParseState) :
    Scanner.Inside { s with parseState := ps :: s.parseState.tail } := ⟨h.1, by simp⟩

/-- A scanner that has entered an array or an object stays so. -/
theorem Scanner.Entered_next (s : Scanner) (c : Byte) (h : s.Entered) : (s.next c).Entered := by
  rcases h with h | ⟨h1, h2, h3⟩ | h
  · exact Or.inl (Scanner.next_error _ c h)
  · unfold Scanner.next
    rw [h2]
    simp only [stateEndTop]
    split_ifs
    · exact Or.inr (Or.inl ⟨h1, h2, h3⟩)
    · exact Or.inl rfl
  · unfold Scanner.next
    split <;> (try split_ifs) <;>
      first
      | exact Entered_stateBeginValue s c h
      | exact Entered_stateBeginString s c h
      | exact Entered_stateEndValue s c h
      | exact Entered_stateEndValue _ c (Inside_with_parseState s h _)
      | exact Entered_stateEndTop s c h
      | exact Entered_state0 s c h
      | exact Entered_stateESign s c h
      | exact Entered_stateLetter s c _ _ h
      | exact Entered_error _
      | exact Entered_with_step s h _

theorem Scanner.Entered_foldl (data : GoString) (s : Scanner) (h : s.Entered) :
    (data.foldl Scanner.next s).Entered := by
  induction data generalizing s with
  | nil => exact h
  | cons c rest ih => exact ih _ (Scanner.Entered_next s c h)

/-- After the top-level value only white space is accepted. -/
theorem Scanner.foldl_done (data : GoString) (s : Scanner) (h : s.step = .stateEndTop)
    (c : Byte) (hc : c ∈ data) (hsp : isSpace c = false) :
    (data.foldl Scanner.next s).step = .stateError := by
  induction data generalizing s with
  | nil => simp at hc
  | cons b rest ih =>
    simp only [List.foldl_cons]
    by_cases hb : isSpace b = true
    · have : s.next b = s := by
        unfold Scanner.next; rw [h]; simp [stateEndTop, hb]
      rw [this]
      rcases List.mem_cons.1 hc with rfl | hin
      · rw [hb] at hsp; exact absurd hsp (by simp)
      · exact ih s h hin
    · apply Scanner.foldl_error
      unfold Scanner.next; rw [h]; simp [stateEndTop, hb, Scanner.error]

/-- A scanner inside an array or an object is not at the end of a value. -/
theorem Scanner.eof_of_Inside (s : Scanner) (h : s.Inside) : s.eof = false := by
  have key : (s.next 0x20).endTop = false := by
    obtain ⟨step, endTop, parseState⟩ := s
    obtain ⟨h1, h2⟩ := h
    simp only at h1 h2
    subst h1
    cases parseState with
    | nil => exact absurd rfl h2
    | cons ps rest =>
      cases step <;> rfl
  unfold Scanner.eof
  rw [h.1, key]
  simp
theorem checkValid_eq (data : GoString) : checkValid data = (decodeAll data).1.eof := by
  rw [decodeAll_fst]; rfl

/-- A proper prefix of a valid JSON text that is an object or an array and does
not end in white space is not a valid JSON text. -/
theorem checkValid_prefix (p q : GoString) (c : Byte) (hc : c ∈ q) (hsp : isSpace c = false)
    (hhead : ∀ b t, p ++ q = b :: t → b.val = 0x7B ∨ b.val = 0x5B)
    (hvalid : checkValid (p ++ q) = true) : checkValid p = false := by
  cases p with
  | nil => decide
  | cons b p' =>
    have hb := hhead b (p' ++ q) rfl
    have h1 : (Scanner.reset.next b).Entered := by
      have : Scanner.reset.next b = stateBeginValue Scanner.reset b := rfl
      rw [this]
      unfold stateBeginValue
      have hs : isSpace b = false := by
        simp only [isSpace, decide_eq_false_iff_not]; omega
      rw [if_neg (by simp [hs])]
      rcases hb with hb | hb
      · rw [if_pos hb]; exact Entered_pushParseState _ _ _ rfl
      · rw [if_neg (by omega), if_pos hb]; exact Entered_pushParseState _ _ _ rfl
    have h2 := Scanner.Entered_foldl p' _ h1
    have hp : (b :: p').foldl Scanner.next Scanner.reset
        = p'.foldl Scanner.next (Scanner.reset.next b) := rfl
    have hfull : checkValid (b :: p' ++ q)
        = (q.foldl Scanner.next (p'.foldl Scanner.next (Scanner.reset.next b))).eof := by
      simp [checkValid, List.foldl_append]
    rw [hfull] at hvalid
    unfold checkValid
    rw [hp]
    rcases h2 with h | ⟨-, h, -⟩ | h
    · have := Scanner.foldl_error q _ h
      simp [Scanner.eof, this] at hvalid
    · have := Scanner.foldl_done q _ h c hc hsp
      simp [Scanner.eof, this] at hvalid
    · exact Scanner.eof_of_Inside _ h

theorem Unmarshal_of_not_valid (data : GoString) (h : checkValid data = false) :
    Unmarshal data = .error .SyntaxError := by
  rw [checkValid_eq] at h
  simp [Unmarshal, h]

theorem checkValid_structEncoder (vote : Vote) : checkValid (structEncoder vote) = true := by
  rw [checkValid_eq, decodeAll_structEncoder]; rfl

/-- Every truncation of the encoding of a vote is rejected. -/
theorem Unmarshal_take_structEncoder (vote : Vote) (n : Nat)
    (hn : n < (structEncoder vote).length) :
    Unmarshal ((structEncoder vote).take n) = .error .SyntaxError := by
  apply Unmarshal_of_not_valid
  apply checkValid_prefix _ ((structEncoder vote).drop n) 0x7D
  · have hlast : (structEncoder vote).getLast? = some 0x7D := by
      have e1 : str "\x7d" = [0x7D] := by decide
      simp only [structEncoder, e1, List.getLast?_append, List.getLast?_singleton]
      rfl
    have hne : (structEncoder vote).drop n ≠ [] := by
      intro h; have := congrArg List.length h; simp at this; omega
    have : ((structEncoder vote).drop n).getLast? = some 0x7D := by
      rw [List.getLast?_drop, if_neg (by omega)]; exact hlast
    exact List.mem_of_getLast?_eq_some this
  · decide
  · intro b t h
    rw [List.take_append_drop] at h
    have e2 : str "\x7b\"candidate\":" = 0x7B :: str "\"candidate\":" := by decide
    simp only [structEncoder, e2, List.cons_append] at h
    simp only [List.cons.injEq] at h
    left; rw [← h.1]; rfl
  · rw [List.take_append_drop]; exact checkValid_structEncoder vote

theorem savedError_storeString (d : decodeState) (h : d.savedError = true) :
    d.storeString.savedError = true := by
  unfold decodeState.storeString
  split <;> simp [h]

theorem savedError_storeOther (d : decodeState) (h : d.savedError = true) :
    d.storeOther.savedError = true := by
  unfold decodeState.storeOther
  split <;> simp [h]

theorem savedError_next (s : Scanner) (d : decodeState) (c : Byte) (h : d.savedError = true) :
    (d.next s c).savedError = true := by
  unfold decodeState.next
  split
  · split_ifs <;> simp [h]
  · split <;> (try split_ifs) <;>
      first
      | exact h
  · split <;> (try split_ifs) <;>
      first
      | exact h
      | exact savedError_storeString d h
      | exact savedError_storeOther d h
  · exact h

theorem savedError_foldl (data : GoString) (s : Scanner) (d : decodeState)
    (h : d.savedError = true) : (data.foldl decodeNext (s, d)).2.savedError = true := by
  induction data generalizing s d with
  | nil => exact h
  | cons c rest ih =>
    simp only [List.foldl_cons, decodeNext]
    exact ih _ _ (savedError_next s d c h)

theorem foldl_decodeNext_spaces (ws : GoString) (d : decodeState)
    (h : ∀ b ∈ ws, isSpace b = true) :
    ws.foldl decodeNext (Scanner.reset, d) = (Scanner.reset, d) := by
  induction ws with
  | nil => rfl
  | cons b rest ih =>
    have hb := h b (List.mem_cons_self _ _)
    have : decodeNext (Scanner.reset, d) b = (Scanner.reset, d) := by
      simp [decodeNext, Scanner.next, Scanner.reset, stateBeginValue, decodeState.next, hb]
    rw [List.foldl_cons, this]
    exact ih (fun x hx => h x (List.mem_cons_of_mem _ hx))

/-- A text whose first byte after leading white space does not open an object
and is not the `n` of `null` does not unmarshal into a `Vote`. -/
theorem Unmarshal_of_top_level (ws : GoString) (c : Byte) (rest : GoString)
    (hws : ∀ b ∈ ws, isSpace b = true) (h1 : isSpace c = false) (h2 : c.val ≠ 0x7B)
    (h3 : c.val ≠ 0x6E) : ∃ e, Unmarshal (ws ++ c :: rest) = .error e := by
  have hs : (decodeAll (ws ++ c :: rest)).2.savedError = true := by
    unfold decodeAll
    rw [List.foldl_append, foldl_decodeNext_spaces ws _ hws, List.foldl_cons]
    apply savedError_foldl
    simp [decodeNext, decodeState.next, Scanner.reset, h1, h2, h3]
  unfold Unmarshal
  split_ifs with h
  · exact ⟨_, rfl⟩
  · exact ⟨_, rfl⟩
/-! ## Lemmas on the tally -/

theorem lookup_incr_same (k : GoString) (m : VoteCounts) :
    (m.incr k).lookup k = some (m.count k + 1) := by
  induction m with
  | nil => simp [VoteCounts.incr, VoteCounts.lookup, VoteCounts.count]
  | cons e rest ih =>
    obtain ⟨k', n⟩ := e
    by_cases h : k' = k
    · simp [VoteCounts.incr, VoteCounts.lookup, VoteCounts.count, h]
    · simp only [VoteCounts.incr, VoteCounts.lookup, VoteCounts.count, h, if_false] at ih ⊢
      exact ih

theorem lookup_incr_other (k k' : GoString) (m : VoteCounts) (h : k' ≠ k) :
    (m.incr k).lookup k' = m.lookup k' := by
  induction m with
  | nil => simp [VoteCounts.incr, VoteCounts.lookup, Ne.symm h]
  | cons e rest ih =>
    obtain ⟨k'', n⟩ := e
    by_cases h1 : k'' = k
    · subst h1
      simp [VoteCounts.incr, VoteCounts.lookup, Ne.symm h]
    · by_cases h2 : k'' = k'
      · subst h2
        simp [VoteCounts.incr, VoteCounts.lookup, h1]
      · simp [VoteCounts.incr, VoteCounts.lookup, h1, h2, ih]

theorem count_incr (k k' : GoString) (m : VoteCounts) :
    (m.incr k).count k' = m.count k' + (if k' = k then 1 else 0) := by
  by_cases h : k' = k
  · subst h
    simp [VoteCounts.count, lookup_incr_same]
  · simp [VoteCounts.count, lookup_incr_other k k' m h, h]

theorem NoZero_incr (k : GoString) (m : VoteCounts) (h : m.NoZero) : (m.incr k).NoZero := by
  intro k'
  by_cases hk : k' = k
  · subst hk; rw [lookup_incr_same]; simp
  · rw [lookup_incr_other k k' m hk]; exact h k'

theorem keys_incr (k : GoString) (m : VoteCounts) (h : (m.map Prod.fst).Nodup) :
    ((m.incr k).map Prod.fst).Nodup ∧ ∀ x, x ∈ (m.incr k).map Prod.fst → x = k ∨ x ∈ m.map Prod.fst := by
  induction m with
  | nil => simp [VoteCounts.incr]
  | cons e rest ih =>
    obtain ⟨k', n⟩ := e
    simp only [List.map_cons, List.nodup_cons] at h
    by_cases h1 : k' = k
    · subst h1
      simp only [VoteCounts.incr, if_true, List.map_cons, List.nodup_cons]
      exact ⟨h, fun x hx => Or.inr hx⟩
    · obtain ⟨ih1, ih2⟩ := ih h.2
      simp only [VoteCounts.incr, h1, if_false, List.map_cons, List.nodup_cons, List.mem_cons]
      refine ⟨⟨?_, ih1⟩, ?_⟩
      · intro hin
        rcases ih2 _ hin with heq | hin'
        · exact h1 heq
        · exact h.1 hin'
      · intro x hx
        rcases hx with rfl | hx
        · exact Or.inr (Or.inl rfl)
        · rcases ih2 x hx with heq | hin'
          · exact Or.inl heq
          · exact Or.inr (Or.inr hin')

theorem votesFor_cons_ok (n : GoString) (kv : GoString × GoString)
    (rest : List (GoString × GoString)) (vote : Vote) (h : Unmarshal kv.2 = .ok vote) :
    votesFor n (kv :: rest) = votesFor n rest + (if n = vote.Candidate then 1 else 0) := by
  simp only [votesFor, List.countP_cons, isVoteFor, h]
  by_cases hn : n = vote.Candidate
  · simp [hn]
  · simp [hn, Ne.symm hn]

theorem votesFor_cons_error (n : GoString) (kv : GoString × GoString)
    (rest : List (GoString × GoString)) (e : JsonError) (h : Unmarshal kv.2 = .error e) :
    votesFor n (kv :: rest) = votesFor n rest := by
  simp [votesFor, List.countP_cons, isVoteFor, h]

/-- The loop of `GetVoteCount`, when no step of the iteration fails: it ends with
a map, whose counts are the counts at the start plus the numbers of the records
read. -/
theorem tallyLoop_spec (nextErr : Nat → Bool) (hnext : ∀ i, nextErr i = false)
    (state : List (GoString × GoString)) (i : Nat) (m : VoteCounts) :
    ∃ m', tallyLoop nextErr i state m = (some m', none)
      ∧ (∀ n, m'.count n = m.count n + votesFor n state)
      ∧ (m.NoZero → m'.NoZero)
      ∧ ((m.map Prod.fst).Nodup → (m'.map Prod.fst).Nodup) := by
  induction state generalizing i m with
  | nil => exact ⟨m, rfl, fun n => by simp [votesFor], id, id⟩
  | cons kv rest ih =>
    simp only [tallyLoop, hnext i]
    cases hu : Unmarshal kv.2 with
    | error e =>
      obtain ⟨m', h1, h2, h3, h4⟩ := ih (i + 1) m
      refine ⟨m', by simpa using h1, ?_, h3, h4⟩
      intro n; rw [h2 n, votesFor_cons_error n kv rest e hu]
    | ok vote =>
      obtain ⟨m', h1, h2, h3, h4⟩ := ih (i + 1) (m.incr vote.Candidate)
      refine ⟨m', by simpa using h1, ?_, fun hz => h3 (NoZero_incr _ _ hz),
        fun hk => h4 (keys_incr _ _ hk).1⟩
      intro n; rw [h2 n, votesFor_cons_ok n kv rest vote hu, count_incr]; omega

/-- The loop of `GetVoteCount` passes over the records that do not unmarshal. -/
theorem tallyLoop_filter (nextErr : Nat → Bool) (hnext : ∀ i, nextErr i = false)
    (state : List (GoString × GoString)) (i j : Nat) (m : VoteCounts) :
    tallyLoop nextErr i state m
      = tallyLoop nextErr j (state.filter (fun kv => decodes kv.2)) m := by
  induction state generalizing i j m with
  | nil => rfl
  | cons kv rest ih =>
    cases hu : Unmarshal kv.2 with
    | error e =>
      have hd : decodes kv.2 = false := by simp [decodes, hu]
      simp only [tallyLoop, hnext i, hu, List.filter_cons, hd]
      exact ih (i + 1) j m
    | ok vote =>
      have hd : decodes kv.2 = true := by simp [decodes, hu]
      simp only [tallyLoop, hnext i, hnext j, hu, List.filter_cons, hd, if_true]
      exact ih (i + 1) (j + 1) _
theorem decodeAll_candidate_key :
    (str "\x7b\"candidate\":").foldl decodeNext (Scanner.reset, ⟨⟨[], []⟩, false, [], []⟩)
      = (⟨.stateBeginValue, false, [.parseObjectValue]⟩,
          ⟨⟨[], []⟩, false, str "candidate", []⟩) := by
  decide

theorem decodeAll_voterID_key :
    (str "\x7b\"voterID\":").foldl decodeNext (Scanner.reset, ⟨⟨[], []⟩, false, [], []⟩)
      = (⟨.stateBeginValue, false, [.parseObjectValue]⟩,
          ⟨⟨[], []⟩, false, str "voterID", []⟩) := by
  decide

theorem savedError_of_other_value (s : Scanner) (d : decodeState) (c : Byte) (f : Field)
    (hs : s = ⟨.stateBeginValue, false, [.parseObjectValue]⟩) (hf : d.field = some f)
    (h1 : isSpace c = false) (h2 : c.val ≠ 0x22) (h3 : c.val ≠ 0x6E) :
    (d.next s c).savedError = true := by
  subst hs
  simp [decodeState.next, h1, h2, h3, decodeState.storeOther, hf]

/-- An object whose first member is a field of the vote with a value that is not
a string and not `null` does not unmarshal into a `Vote`. -/
theorem Unmarshal_of_field_type (key : GoString) (c : Byte) (rest : GoString)
    (hkey : key = str "candidate" ∨ key = str "voterID")
    (h1 : isSpace c = false) (h2 : c.val ≠ 0x22) (h3 : c.val ≠ 0x6E) :
    ∃ e, Unmarshal (str "\x7b\"" ++ key ++ str "\":" ++ c :: rest) = .error e := by
  have hs : (decodeAll (str "\x7b\"" ++ key ++ str "\":" ++ c :: rest)).2.savedError
      = true := by
    unfold decodeAll
    rcases hkey with rfl | rfl
    · have e : str "\x7b\"" ++ str "candidate" ++ str "\":" = str "\x7b\"candidate\":" := by
        decide
      rw [e, List.foldl_append, decodeAll_candidate_key, List.foldl_cons]
      apply savedError_foldl
      exact savedError_of_other_value _ _ c .candidate rfl (field_candidate _ rfl) h1 h2 h3
    · have e : str "\x7b\"" ++ str "voterID" ++ str "\":" = str "\x7b\"voterID\":" := by
        decide
      rw [e, List.foldl_append, decodeAll_voterID_key, List.foldl_cons]
      apply savedError_foldl
      exact savedError_of_other_value _ _ c .voterID rfl (field_voterID _ rfl) h1 h2 h3
  unfold Unmarshal
  split_ifs with h
  · exact ⟨_, rfl⟩
  · exact ⟨_, rfl⟩
/-- Whenever the decoder is at the value of a member of the top-level object
whose key is a field of the vote, and the value is neither a string nor `null`,
the input does not unmarshal into a `Vote`. -/
theorem Unmarshal_of_member_type (p : GoString) (c : Byte) (rest : GoString)
    (hstep : (decodeAll p).1.step = .stateBeginValue)
    (hstack : (decodeAll p).1.parseState = [.parseObjectValue])
    (hfield : (decodeAll p).2.field ≠ none)
    (h1 : isSpace c = false) (h2 : c.val ≠ 0x22) (h3 : c.val ≠ 0x6E) :
    ∃ e, Unmarshal (p ++ c :: rest) = .error e := by
  have hs : (decodeAll (p ++ c :: rest)).2.savedError = true := by
    have e : decodeAll (p ++ c :: rest)
        = rest.foldl decodeNext (decodeNext (decodeAll p) c) := by
      simp [decodeAll, List.foldl_append]
    rw [e]
    apply savedError_foldl
    obtain ⟨f, hf⟩ := Option.ne_none_iff_exists'.1 hfield
    simp [decodeNext, decodeState.next, hstep, hstack, h1, h2, h3, decodeState.storeOther, hf]
  unfold Unmarshal
  split_ifs with h
  · exact ⟨_, rfl⟩
  · exact ⟨_, rfl⟩
/-! ## The claims -/

theorem VoteExists_of_ok (stub : Stub) (voterID : GoString)
    (h : stub.getStateErr voterID = false) :
    VoteExists stub voterID = ((get voterID stub.state).isSome, none) := by
  simp [VoteExists, Stub.GetState, h]

theorem GetVote_of_get (stub : Stub) (voterID data : GoString)
    (h : stub.getStateErr voterID = false) (hg : get voterID stub.state = some data) :
    GetVote stub voterID =
      match Unmarshal data with
      | .error err => (none, some (.unmarshalVote (.json err)))
      | .ok vote => (some vote, none) := by
  simp only [GetVote, Stub.GetState, h, hg]
  rfl

theorem CastVote_of_exists (stub : Stub) (v c : GoString) (hv : TrimSpace v ≠ [])
    (hc : TrimSpace c ≠ []) (hread : stub.getStateErr (TrimSpace v) = false) (data : GoString)
    (hg : get (TrimSpace v) stub.state = some data) :
    CastVote stub v c = (some (.alreadyVoted (TrimSpace v)), stub) := by
  simp [CastVote, VoteExists, Stub.GetState, hv, hc, hread, hg]

theorem CastVote_of_empty_candidate (stub : Stub) (v c : GoString) (hv : TrimSpace v ≠ [])
    (hc : TrimSpace c = []) : CastVote stub v c = (some .candidateEmpty, stub) := by
  simp [CastVote, hv, hc]

theorem CastVote_of_empty_voter (stub : Stub) (v c : GoString) (hv : TrimSpace v = []) :
    CastVote stub v c = (some .voterIdEmpty, stub) := by
  simp [CastVote, hv]

/-- C1 (amended): if `CastVote(v, c)` succeeds then a following `CastVote(v, c')`,
the read of the store not failing, fails: with the error "has already cast a
vote" (AlreadyVoted) when `c'` is not empty after trimming, and with "candidate
name cannot be empty" (InvalidInput) when it is.  The store stays as the first
call left it: under the trimmed `v` it holds the encoding of the vote for the
trimmed `c`, which `GetVote` reads back with that candidate (coerced to valid
UTF-8, that is unchanged when it is valid UTF-8). -/
theorem CastVote_second_call_fails (stub : Stub) (v c c' : GoString)
    (h : (CastVote stub v c).1 = none)
    (hread : (CastVote stub v c).2.getStateErr (TrimSpace v) = false) :
    (TrimSpace c' ≠ [] →
        (CastVote (CastVote stub v c).2 v c').1 = some (.alreadyVoted (TrimSpace v)))
      ∧ (TrimSpace c' = [] → (CastVote (CastVote stub v c).2 v c').1 = some .candidateEmpty)
      ∧ (Error.alreadyVoted (TrimSpace v)).kind = .AlreadyVoted
      ∧ Error.candidateEmpty.kind = .InvalidInput
      ∧ (CastVote (CastVote stub v c).2 v c').2 = (CastVote stub v c).2
      ∧ get (TrimSpace v) (CastVote (CastVote stub v c).2 v c').2.state
          = some (structEncoder ⟨TrimSpace c, TrimSpace v⟩)
      ∧ GetVote (CastVote (CastVote stub v c).2 v c').2 (TrimSpace v)
          = (some ⟨coerceUTF8 (TrimSpace c), coerceUTF8 (TrimSpace v)⟩, none)
      ∧ (ValidString (TrimSpace c) = true → coerceUTF8 (TrimSpace c) = TrimSpace c) := by
  obtain ⟨h1, h2, h3, h4, h5⟩ := (CastVote_eq_none_iff stub v c).1 h
  have hs := CastVote_store_of_success stub v c h
  have hg : get (TrimSpace v) (CastVote stub v c).2.state
      = some (structEncoder ⟨TrimSpace c, TrimSpace v⟩) := by
    rw [hs]; exact get_put_same _ _ _
  have hsame : (CastVote (CastVote stub v c).2 v c').2 = (CastVote stub v c).2 := by
    by_cases hc' : TrimSpace c' = []
    · rw [CastVote_of_empty_candidate _ v c' h1 hc']
    · rw [CastVote_of_exists _ v c' h1 hc' hread _ hg]
  refine ⟨?_, ?_, rfl, rfl, hsame, ?_, ?_, ?_⟩
  · intro hc'
    rw [CastVote_of_exists _ v c' h1 hc' hread _ hg]
  · intro hc'
    rw [CastVote_of_empty_candidate _ v c' h1 hc']
  · rw [hsame]; exact hg
  · rw [hsame, GetVote_of_get _ _ _ hread hg, Unmarshal_structEncoder]
  · exact coerceUTF8_of_valid _

/-- Witness of C1 (amended): two votes of the voter `v` on the empty store. -/
theorem CastVote_second_call_fails_witness :
    (CastVote (Stub.ofState []) (str " v ") (str "cat")).1 = none
      ∧ TrimSpace (str "dog") ≠ []
      ∧ (CastVote (CastVote (Stub.ofState []) (str " v ") (str "cat")).2 (str " v ")
          (str "dog")).1 = some (.alreadyVoted (TrimSpace (str " v "))) :=
  ⟨by decide, by decide,
    (CastVote_second_call_fails (Stub.ofState []) (str " v ") (str "cat") (str "dog")
      (by decide) (by decide)).1 (by decide)⟩

/-- Counterexample to C1 as stated: after a successful `CastVote("v", "a")`, the
call `CastVote("v", "")` does not fail with the already-voted error but with
"candidate name cannot be empty". -/
theorem CastVote_second_call_empty_candidate :
    (CastVote (Stub.ofState []) (str "v") (str "a")).1 = none
      ∧ (CastVote (Stub.ofState []) (str "v") (str "a")).2.getStateErr (TrimSpace (str "v"))
          = false
      ∧ (CastVote (CastVote (Stub.ofState []) (str "v") (str "a")).2 (str "v") (str "")).1
          = some .candidateEmpty
      ∧ (CastVote (CastVote (Stub.ofState []) (str "v") (str "a")).2 (str "v") (str "")).1
          ≠ some (.alreadyVoted (TrimSpace (str "v")))
      ∧ Error.candidateEmpty.kind ≠ .AlreadyVoted := by
  decide
/-- C2 (amended): for `v` and `c` that are not empty after trimming and a store whose
reads and writes do not fail, `CastVote(v, c)` succeeds if and only if
`VoteExists` of the trimmed `v` was false before the call; after a successful
call `VoteExists` of the trimmed `v` is true and `GetVote` of the trimmed `v`
returns the vote of the trimmed `v` for the trimmed `c`, both coerced to valid
UTF-8 by the encoder, so exactly that vote when both are valid UTF-8. -/
theorem CastVote_succeeds_iff (stub : Stub) (v c : GoString) (hv : TrimSpace v ≠ [])
    (hc : TrimSpace c ≠ []) (hget : ∀ k, stub.getStateErr k = false)
    (hput : ∀ k x, stub.putStateErr k x = false) :
    ((CastVote stub v c).1 = none ↔ VoteExists stub (TrimSpace v) = (false, none))
      ∧ ((CastVote stub v c).1 = none →
          VoteExists (CastVote stub v c).2 (TrimSpace v) = (true, none)
            ∧ GetVote (CastVote stub v c).2 (TrimSpace v)
                = (some ⟨coerceUTF8 (TrimSpace c), coerceUTF8 (TrimSpace v)⟩, none)
            ∧ (ValidString (TrimSpace v) = true → ValidString (TrimSpace c) = true →
                GetVote (CastVote stub v c).2 (TrimSpace v)
                  = (some ⟨TrimSpace c, TrimSpace v⟩, none))) := by
  have hiff : (CastVote stub v c).1 = none ↔ VoteExists stub (TrimSpace v) = (false, none) := by
    rw [CastVote_eq_none_iff, VoteExists_of_ok stub _ (hget _)]
    constructor
    · rintro ⟨-, -, -, h4, -⟩
      rw [h4]; rfl
    · intro h
      refine ⟨hv, hc, hget _, ?_, hput _ _⟩
      cases hg : get (TrimSpace v) stub.state with
      | none => rfl
      | some x => rw [hg] at h; simp at h
  refine ⟨hiff, ?_⟩
  intro h
  have hs := CastVote_store_of_success stub v c h
  have hread : (CastVote stub v c).2.getStateErr (TrimSpace v) = false := by
    rw [hs]; exact hget _
  have hg : get (TrimSpace v) (CastVote stub v c).2.state
      = some (structEncoder ⟨TrimSpace c, TrimSpace v⟩) := by
    rw [hs]; exact get_put_same _ _ _
  have hgv : GetVote (CastVote stub v c).2 (TrimSpace v)
      = (some ⟨coerceUTF8 (TrimSpace c), coerceUTF8 (TrimSpace v)⟩, none) := by
    rw [GetVote_of_get _ _ _ hread hg, Unmarshal_structEncoder]
  refine ⟨?_, hgv, ?_⟩
  · rw [VoteExists_of_ok _ _ hread, hg]; rfl
  · intro h1 h2
    rw [hgv, coerceUTF8_of_valid _ h1, coerceUTF8_of_valid _ h2]

/-- Witness of C2 (amended): the first vote of ` voter1 ` on the empty store. -/
theorem CastVote_succeeds_iff_witness :
    TrimSpace (str " voter1 ") ≠ [] ∧ TrimSpace (str "cat ") ≠ []
      ∧ ((CastVote (Stub.ofState []) (str " voter1 ") (str "cat ")).1 = none
          ↔ VoteExists (Stub.ofState []) (TrimSpace (str " voter1 ")) = (false, none)) :=
  ⟨by decide, by decide,
    (CastVote_succeeds_iff (Stub.ofState []) (str " voter1 ") (str "cat ") (by decide)
      (by decide) (fun _ => rfl) (fun _ _ => rfl)).1⟩

/-- Counterexample to C2 as stated.  With `a` in the store, `VoteExists(" a ")` is
false and yet `CastVote(" a ", "cat")` fails, as the key is the trimmed string;
`VoteExists(" ")` is false and `CastVote(" ", "cat")` fails; and after the
successful `CastVote` of the voter with the single byte 0xFF, `GetVote` does not
return the voter it was given but U+FFFD. -/
theorem CastVote_succeeds_iff_untrimmed :
    (VoteExists (Stub.ofState
          [(str "a", str "\x7b\"candidate\":\"dog\",\"voterID\":\"a\"\x7d")]) (str " a ")
        = (false, none)
      ∧ (CastVote (Stub.ofState
          [(str "a", str "\x7b\"candidate\":\"dog\",\"voterID\":\"a\"\x7d")]) (str " a ")
          (str "cat")).1 ≠ none)
      ∧ (VoteExists (Stub.ofState []) (str " ") = (false, none)
        ∧ (CastVote (Stub.ofState []) (str " ") (str "cat")).1 ≠ none)
      ∧ ((CastVote (Stub.ofState []) [0xFF] (str "cat")).1 = none
        ∧ GetVote (CastVote (Stub.ofState []) [0xFF] (str "cat")).2 [0xFF]
          = (some ⟨str "cat", [0xEF, 0xBF, 0xBD]⟩, none)
        ∧ GetVote (CastVote (Stub.ofState []) [0xFF] (str "cat")).2 [0xFF]
          ≠ (some ⟨TrimSpace (str "cat"), TrimSpace [0xFF]⟩, none)) := by
  decide

/-- C3: `CastVote` is all-or-nothing: whenever it returns an error, whichever it
is, the store after the call is the store before the call. -/
theorem CastVote_error_store_unchanged (stub : Stub) (voterID candidate : GoString)
    (h : (CastVote stub voterID candidate).1 ≠ none) :
    (CastVote stub voterID candidate).2 = stub := by
  revert h
  unfold CastVote VoteExists Stub.GetState Stub.PutState
  simp only [Marshal_eq]
  by_cases h1 : TrimSpace voterID = []
  · simp [h1]
  by_cases h2 : TrimSpace candidate = []
  · simp [h1, h2]
  by_cases h3 : stub.getStateErr (TrimSpace voterID) = true
  · simp [h1, h2, h3]
  cases h4 : get (TrimSpace voterID) stub.state with
  | some v => simp [h1, h2, h3, h4]
  | none =>
    by_cases h5 : stub.putStateErr (TrimSpace voterID)
        (structEncoder ⟨TrimSpace candidate, TrimSpace voterID⟩) = true
    · simp [h1, h2, h3, h4, h5]
    · simp [h1, h2, h3, h4, h5]

/-- Witness of C3: the write fails, `CastVote` returns the error of the write and
the store is as before. -/
theorem CastVote_error_store_unchanged_witness :
    (CastVote readOnlyStub (str "v") (str "cat")).1 = some (.storeVote .ledger)
      ∧ (CastVote readOnlyStub (str "v") (str "cat")).2 = readOnlyStub :=
  ⟨by decide, CastVote_error_store_unchanged readOnlyStub (str "v") (str "cat") (by decide)⟩

/-- C4: when `CastVote(voterID, candidate)` succeeds, the trimmed voterID was
absent from the store and now holds the encoding of the vote of the trimmed
voterID for the trimmed candidate; every other key holds what it held before (or
is absent as before); the store has exactly one record more, and nothing else of
it has changed. -/
theorem CastVote_success_frame (stub : Stub) (voterID candidate : GoString)
    (h : (CastVote stub voterID candidate).1 = none) :
    get (TrimSpace voterID) stub.state = none
      ∧ Marshal ⟨TrimSpace candidate, TrimSpace voterID⟩
          = .ok (structEncoder ⟨TrimSpace candidate, TrimSpace voterID⟩)
      ∧ get (TrimSpace voterID) (CastVote stub voterID candidate).2.state
          = some (structEncoder ⟨TrimSpace candidate, TrimSpace voterID⟩)
      ∧ (∀ k, k ≠ TrimSpace voterID →
          get k (CastVote stub voterID candidate).2.state = get k stub.state)
      ∧ (CastVote stub voterID candidate).2.state.length = stub.state.length + 1
      ∧ (CastVote stub voterID candidate).2
          = { stub with state := (CastVote stub voterID candidate).2.state } := by
  obtain ⟨h1, h2, h3, h4, h5⟩ := (CastVote_eq_none_iff stub voterID candidate).1 h
  have hs := CastVote_store_of_success stub voterID candidate h
  refine ⟨h4, Marshal_eq _, ?_, ?_, ?_, ?_⟩
  · rw [hs]; exact get_put_same _ _ _
  · intro k hk; rw [hs]; exact get_put_other _ _ _ _ hk
  · rw [hs]; exact length_put_of_get_none _ _ _ h4
  · rw [hs]

/-- Witness of C4: the vote of ` v1 ` for `cat` on a store with one other record. -/
theorem CastVote_success_frame_witness :
    (CastVote (Stub.ofState [(str "v0", str "x")]) (str " v1 ") (str "cat")).1 = none
      ∧ get (TrimSpace (str " v1 "))
          (CastVote (Stub.ofState [(str "v0", str "x")]) (str " v1 ") (str "cat")).2.state
          = some (structEncoder ⟨TrimSpace (str "cat"), TrimSpace (str " v1 ")⟩) :=
  ⟨by decide,
    (CastVote_success_frame (Stub.ofState [(str "v0", str "x")]) (str " v1 ") (str "cat")
      (by decide)).2.2.1⟩
/-- C5: a voterID that is empty or consists of white space only (the encodings of
runes with `unicode.IsSpace`) makes `CastVote` fail with "voter Id cannot be
empty", and such a candidate makes it fail with "candidate name cannot be empty"
(or with the former, when the voterID is empty as well): InvalidInput in each
case, whatever the store holds and whichever of its operations would fail, and
the store is not touched.  So for `("", "x")`, `("  ", "x")`, `("x", "")` and
`("x", "  ")`. -/
theorem CastVote_rejects_blank (stub : Stub) (voterID candidate : GoString)
    (runes : List Nat) (h : ∀ r ∈ runes, IsSpace r = true) :
    CastVote stub (runes.flatMap EncodeRune) candidate = (some .voterIdEmpty, stub)
      ∧ (TrimSpace voterID ≠ [] →
          CastVote stub voterID (runes.flatMap EncodeRune) = (some .candidateEmpty, stub))
      ∧ (∃ e, CastVote stub voterID (runes.flatMap EncodeRune) = (some e, stub)
          ∧ e.kind = .InvalidInput)
      ∧ Error.voterIdEmpty.kind = .InvalidInput ∧ Error.candidateEmpty.kind = .InvalidInput
      ∧ CastVote stub (str "") (str "x") = (some .voterIdEmpty, stub)
      ∧ CastVote stub (str "  ") (str "x") = (some .voterIdEmpty, stub)
      ∧ CastVote stub (str "x") (str "") = (some .candidateEmpty, stub)
      ∧ CastVote stub (str "x") (str "  ") = (some .candidateEmpty, stub) := by
  have hs := TrimSpace_spaces runes h
  refine ⟨CastVote_of_empty_voter _ _ _ hs, fun hv => CastVote_of_empty_candidate _ _ _ hv hs,
    ?_, rfl, rfl, ?_, ?_, ?_, ?_⟩
  · by_cases hv : TrimSpace voterID = []
    · exact ⟨_, CastVote_of_empty_voter _ _ _ hv, rfl⟩
    · exact ⟨_, CastVote_of_empty_candidate _ _ _ hv hs, rfl⟩
  · exact CastVote_of_empty_voter _ _ _ (by decide)
  · exact CastVote_of_empty_voter _ _ _ (by decide)
  · exact CastVote_of_empty_candidate _ _ _ (by decide) (by decide)
  · exact CastVote_of_empty_candidate _ _ _ (by decide) (by decide)

/-- Witness of C5: a voterID of a tab, a no-break space and an ideographic space,
on a store all of whose operations fail. -/
theorem CastVote_rejects_blank_witness :
    [0x09, 0xA0, 0x3000].flatMap EncodeRune = [0x09, 0xC2, 0xA0, 0xE3, 0x80, 0x80]
      ∧ (CastVote failingStub ([0x09, 0xA0, 0x3000].flatMap EncodeRune) (str "x")).1
          = some .voterIdEmpty :=
  ⟨by decide,
    congrArg Prod.fst (CastVote_rejects_blank failingStub (str "x") (str "x")
      [0x09, 0xA0, 0x3000] (by decide)).1⟩

theorem votesFor_pos_iff (n : GoString) (state : List (GoString × GoString)) :
    0 < votesFor n state
      ↔ ∃ kv ∈ state, ∃ vote, Unmarshal kv.2 = .ok vote ∧ vote.Candidate = n := by
  unfold votesFor
  rw [List.countP_pos_iff]
  constructor
  · rintro ⟨kv, hin, h⟩
    refine ⟨kv, hin, ?_⟩
    unfold isVoteFor at h
    split at h
    · rename_i vote hu
      exact ⟨vote, hu, by simpa using h⟩
    · simp at h
  · rintro ⟨kv, hin, vote, hu, hc⟩
    exact ⟨kv, hin, by simp [isVoteFor, hu, hc]⟩

/-- C6: when the iteration does not fail, `GetVoteCount` returns a map that
contains a candidate `n` if and only if some stored record unmarshals to a vote
for `n`; the value at `n` is then the number of such records; no candidate is
present with the count 0 (and none twice). -/
theorem GetVoteCount_counts (stub : Stub) (hrange : stub.getStateByRangeErr = false)
    (hnext : ∀ i, stub.nextErr i = false) :
    ∃ voteCounts, GetVoteCount stub = (some voteCounts, none)
      ∧ (∀ n, (∃ k, voteCounts.lookup n = some k)
          ↔ ∃ kv ∈ stub.state, ∃ vote, Unmarshal kv.2 = .ok vote ∧ vote.Candidate = n)
      ∧ (∀ n k, voteCounts.lookup n = some k → k = votesFor n stub.state)
      ∧ (∀ n, voteCounts.lookup n ≠ some 0)
      ∧ (voteCounts.map Prod.fst).Nodup := by
  obtain ⟨m, h1, h2, h3, h4⟩ := tallyLoop_spec stub.nextErr hnext stub.state 0 []
  have hz : m.NoZero := h3 (fun k => by simp [VoteCounts.lookup])
  have hcount : ∀ n, m.count n = votesFor n stub.state := by
    intro n; rw [h2 n]; simp [VoteCounts.count, VoteCounts.lookup]
  refine ⟨m, by simp [GetVoteCount, hrange, h1], ?_, ?_, hz, h4 (by simp)⟩
  · intro n
    rw [← votesFor_pos_iff, ← hcount n]
    unfold VoteCounts.count
    cases hl : m.lookup n with
    | none => simp
    | some k =>
      have := hz n
      rw [hl] at this
      simp only [Option.some.injEq, exists_eq', Option.getD_some, true_iff]
      exact Nat.pos_of_ne_zero (fun h0 => this (by rw [h0]))
  · intro n k hl
    rw [← hcount n]
    simp [VoteCounts.count, hl]

/-- Witness of C6: the records of voter1 for cat, voter2 for dog and voter3 for
cat give the tally cat 2, dog 1. -/
theorem GetVoteCount_counts_witness :
    GetVoteCount tallyExample = (some [(str "cat", 2), (str "dog", 1)], none)
      ∧ votesFor (str "cat") tallyExample.state = 2
      ∧ votesFor (str "dog") tallyExample.state = 1 := by
  obtain ⟨m, h1, -, h3, -, -⟩ := GetVoteCount_counts tallyExample rfl (fun _ => rfl)
  have h0 : GetVoteCount tallyExample = (some [(str "cat", 2), (str "dog", 1)], none) := by
    decide
  rw [h0] at h1
  simp only [Prod.mk.injEq, Option.some.injEq, and_true] at h1
  subst h1
  exact ⟨h0, (h3 (str "cat") 2 (by decide)).symm, (h3 (str "dog") 1 (by decide)).symm⟩

/-- C7: when the iteration does not fail, `GetVoteCount` succeeds however many
stored values do not unmarshal, and returns what it returns on the store without
those values; in particular a single such record among the others changes
nothing. -/
theorem GetVoteCount_skips_corrupt (stub : Stub) (hrange : stub.getStateByRangeErr = false)
    (hnext : ∀ i, stub.nextErr i = false) :
    (∃ voteCounts, GetVoteCount stub = (some voteCounts, none))
      ∧ GetVoteCount stub
          = GetVoteCount { stub with state := stub.state.filter (fun kv => decodes kv.2) }
      ∧ (∀ before after key value, stub.state = before ++ (key, value) :: after →
          decodes value = false →
          GetVoteCount stub = GetVoteCount { stub with state := before ++ after }) := by
  have hfilter : ∀ st : List (GoString × GoString),
      GetVoteCount { stub with state := st }
        = tallyLoop stub.nextErr 0 (st.filter (fun kv => decodes kv.2)) [] := by
    intro st
    simp only [GetVoteCount, hrange]
    exact tallyLoop_filter stub.nextErr hnext st 0 0 []
  have hself : GetVoteCount stub
      = tallyLoop stub.nextErr 0 (stub.state.filter (fun kv => decodes kv.2)) [] :=
    hfilter stub.state
  refine ⟨?_, ?_, ?_⟩
  · obtain ⟨m, h1, -⟩ := tallyLoop_spec stub.nextErr hnext stub.state 0 []
    exact ⟨m, by simp [GetVoteCount, hrange, h1]⟩
  · rw [hself, hfilter]
    simp
  · intro before after key value hst hd
    rw [hself, hfilter, hst]
    simp [List.filter_append, List.filter_cons, hd]

/-- Witness of C7: one truncated record between two valid ones. -/
theorem GetVoteCount_skips_corrupt_witness :
    decodes (str "\x7b\"candidate\":\"dog\"") = false
      ∧ GetVoteCount corruptExample
        = GetVoteCount { corruptExample with
            state :=
              [(str "voter1", str "\x7b\"candidate\":\"cat\",\"voterID\":\"voter1\"\x7d")]
                ++ [(str "voter3",
                      str "\x7b\"candidate\":\"cat\",\"voterID\":\"voter3\"\x7d")] }
      ∧ GetVoteCount corruptExample = (some [(str "cat", 2)], none) :=
  ⟨by decide,
    (GetVoteCount_skips_corrupt corruptExample rfl (fun _ => rfl)).2.2 _ _ _ _ rfl (by decide),
    by decide⟩
/-- C8 (amended): for every vote whose candidate and voterID are valid UTF-8,
`json.Unmarshal` of what `json.Marshal` returns for it succeeds and yields the
vote itself; for any vote at all it succeeds and yields the vote with each
invalid byte of the two strings replaced by the encoding of U+FFFD. -/
theorem Unmarshal_Marshal (vote : Vote) :
    (∃ data, Marshal vote = .ok data
        ∧ Unmarshal data = .ok ⟨coerceUTF8 vote.Candidate, coerceUTF8 vote.VoterID⟩)
      ∧ (ValidString vote.Candidate = true → ValidString vote.VoterID = true →
          ∃ data, Marshal vote = .ok data ∧ Unmarshal data = .ok vote) := by
  refine ⟨⟨_, Marshal_eq vote, Unmarshal_structEncoder vote⟩, ?_⟩
  intro h1 h2
  refine ⟨_, Marshal_eq vote, ?_⟩
  rw [Unmarshal_structEncoder, coerceUTF8_of_valid _ h1, coerceUTF8_of_valid _ h2]

/-- Witness of C8 (amended): a vote with characters that are escaped, a character of
two bytes and one of four bytes. -/
theorem Unmarshal_Marshal_witness :
    ValidString (str "a\"b\\c<\n" ++ [0xC3, 0xA9, 0xF0, 0x9F, 0x98, 0x80]) = true
      ∧ ValidString (str " v 1 ") = true
      ∧ ∃ data, Marshal ⟨str "a\"b\\c<\n" ++ [0xC3, 0xA9, 0xF0, 0x9F, 0x98, 0x80], str " v 1 "⟩
            = .ok data
          ∧ Unmarshal data
            = .ok ⟨str "a\"b\\c<\n" ++ [0xC3, 0xA9, 0xF0, 0x9F, 0x98, 0x80], str " v 1 "⟩ :=
  ⟨by decide, by decide,
    (Unmarshal_Marshal ⟨str "a\"b\\c<\n" ++ [0xC3, 0xA9, 0xF0, 0x9F, 0x98, 0x80], str " v 1 "⟩).2
      (by decide) (by decide)⟩

/-- Counterexample to C8 as stated: the vote of `v1` for the candidate that is the
single byte 0xFF is encoded with `\ufffd` for the candidate and decoded with the
candidate U+FFFD, which is not the candidate of the vote. -/
theorem Unmarshal_Marshal_invalid_utf8 :
    Marshal ⟨[0xFF], str "v1"⟩
        = .ok (str "\x7b\"candidate\":\"\\ufffd\",\"voterID\":\"v1\"\x7d")
      ∧ Unmarshal (str "\x7b\"candidate\":\"\\ufffd\",\"voterID\":\"v1\"\x7d")
        = .ok ⟨[0xEF, 0xBF, 0xBD], str "v1"⟩
      ∧ Unmarshal (str "\x7b\"candidate\":\"\\ufffd\",\"voterID\":\"v1\"\x7d")
        ≠ .ok ⟨[0xFF], str "v1"⟩ := by
  decide

/-- C9 (amended): `json.Unmarshal` into a `Vote` fails for every input that is not
a JSON text (in particular for every truncation of the encoding of a vote), for
every input whose first byte after white space neither opens an object nor is
the `n` of `null` (so for an array, a string, a number, `true` and `false`), and
whenever a member of the top-level object whose key is `candidate` or `voterID`
(a field of the vote) has a value that is neither a string nor `null` (so for a
number), be it the first member or a later one; for such a stored value
`GetVote` returns the error "failed to unmarshal vote data" (DecodeError) and the
loop of `GetVoteCount` passes over it. -/
theorem Unmarshal_rejects :
    (∀ data, checkValid data = false → Unmarshal data = .error .SyntaxError)
      ∧ (∀ vote n, n < (structEncoder vote).length →
          Unmarshal ((structEncoder vote).take n) = .error .SyntaxError)
      ∧ (∀ ws c rest, (∀ b ∈ ws, isSpace b = true) → isSpace c = false → c.val ≠ 0x7B →
          c.val ≠ 0x6E → ∃ e, Unmarshal (ws ++ c :: rest) = .error e)
      ∧ (∀ p c rest, (decodeAll p).1.step = .stateBeginValue →
          (decodeAll p).1.parseState = [.parseObjectValue] → (decodeAll p).2.field ≠ none →
          isSpace c = false → c.val ≠ 0x22 → c.val ≠ 0x6E →
          ∃ e, Unmarshal (p ++ c :: rest) = .error e)
      ∧ (∀ key c rest, key = str "candidate" ∨ key = str "voterID" → isSpace c = false →
          c.val ≠ 0x22 → c.val ≠ 0x6E →
          ∃ e, Unmarshal (str "\x7b\"" ++ key ++ str "\":" ++ c :: rest) = .error e)
      ∧ Unmarshal (str "\x7b\"candidate\":5,\"voterID\":\"v1\"\x7d")
          = .error .UnmarshalTypeError
      ∧ (∀ stub voterID data e, stub.getStateErr voterID = false →
          get voterID stub.state = some data → Unmarshal data = .error e →
          GetVote stub voterID = (none, some (.unmarshalVote (.json e)))
            ∧ (Error.unmarshalVote (.json e)).kind = .DecodeError)
      ∧ (∀ nextErr i queryResponse rest voteCounts e, nextErr i = false →
          Unmarshal queryResponse.2 = .error e →
          tallyLoop nextErr i (queryResponse :: rest) voteCounts
            = tallyLoop nextErr (i + 1) rest voteCounts) := by
  refine ⟨Unmarshal_of_not_valid, Unmarshal_take_structEncoder, Unmarshal_of_top_level,
    Unmarshal_of_member_type, Unmarshal_of_field_type, by decide, ?_, ?_⟩
  · intro stub voterID data e h1 h2 h3
    rw [GetVote_of_get stub voterID data h1 h2, h3]
    exact ⟨rfl, rfl⟩
  · intro nextErr i queryResponse rest voteCounts e h1 h2
    simp [tallyLoop, h1, h2]

/-- Witness of C9 (amended): the encoding of the vote of `v1` for `cat`, cut after 20
bytes; the array `["cat","v1"]`; and an object whose voterID is the number 7. -/
theorem Unmarshal_rejects_witness :
    Unmarshal ((structEncoder ⟨str "cat", str "v1"⟩).take 20) = .error .SyntaxError
      ∧ (structEncoder ⟨str "cat", str "v1"⟩).take 20 = str "\x7b\"candidate\":\"cat\",\""
      ∧ (∃ e, Unmarshal ([] ++ (0x5B : Byte) :: str "\"cat\",\"v1\"]") = .error e)
      ∧ ∃ e, Unmarshal (str "\x7b\"candidate\":\"cat\",\"voterID\":" ++ (0x37 : Byte)
          :: str "\x7d") = .error e :=
  ⟨Unmarshal_rejects.2.1 ⟨str "cat", str "v1"⟩ 20 (by decide), by decide,
    Unmarshal_rejects.2.2.1 [] 0x5B (str "\"cat\",\"v1\"]") (by simp) rfl
      (by simp [byte_val_lit]) (by simp [byte_val_lit]),
    Unmarshal_rejects.2.2.2.1 (str "\x7b\"candidate\":\"cat\",\"voterID\":") 0x37
      (str "\x7d") (by decide) (by decide) (by decide) rfl (by simp [byte_val_lit])
      (by simp [byte_val_lit])⟩

/-- Counterexample to C9 as stated: an object without the candidate field, the
empty object and `null` unmarshal without error, to votes with empty strings for
the missing fields; `GetVote` returns such a vote and `GetVoteCount` counts it,
for the empty candidate. -/
theorem Unmarshal_accepts_missing_fields :
    Unmarshal (str "\x7b\"voterID\":\"v1\"\x7d") = .ok ⟨[], str "v1"⟩
      ∧ Unmarshal (str "\x7b\x7d") = .ok ⟨[], []⟩
      ∧ Unmarshal (str "null") = .ok ⟨[], []⟩
      ∧ GetVote (Stub.ofState [(str "v1", str "\x7b\"voterID\":\"v1\"\x7d")]) (str "v1")
          = (some ⟨[], str "v1"⟩, none)
      ∧ GetVoteCount (Stub.ofState [(str "v1", str "\x7b\"voterID\":\"v1\"\x7d")])
          = (some [([], 1)], none) := by
  decide

theorem mem_of_get (key value : GoString) (state : List (GoString × GoString))
    (h : get key state = some value) : (key, value) ∈ state := by
  induction state with
  | nil => simp [get] at h
  | cons kv rest ih =>
    obtain ⟨k, v⟩ := kv
    by_cases hk : k = key
    · simp only [get, hk, if_true, Option.some.injEq] at h
      rw [hk, h]; exact List.mem_cons_self _ _
    · simp only [get, hk, if_false] at h
      exact List.mem_cons_of_mem _ (ih h)
/-! ## Operations and their sequences -/

/-- A `CastVote` that returns an error hands the store back as it was. -/
theorem CastVote_snd_of_error (stub : Stub) (voterID candidate : GoString)
    (h : (CastVote stub voterID candidate).1 ≠ none) :
    (CastVote stub voterID candidate).2 = stub := by
  revert h
  unfold CastVote VoteExists Stub.GetState Stub.PutState
  simp only [Marshal_eq]
  by_cases h1 : TrimSpace voterID = []
  · simp [h1]
  by_cases h2 : TrimSpace candidate = []
  · simp [h1, h2]
  by_cases h3 : stub.getStateErr (TrimSpace voterID) = true
  · simp [h1, h2, h3]
  cases h4 : get (TrimSpace voterID) stub.state with
  | some v => simp [h1, h2, h3, h4]
  | none =>
    by_cases h5 : stub.putStateErr (TrimSpace voterID)
        (structEncoder ⟨TrimSpace candidate, TrimSpace voterID⟩) = true
    · simp [h1, h2, h3, h4, h5]
    · simp [h1, h2, h3, h4, h5]

/-- A new key is inserted somewhere among the pairs, which stay as they are. -/
theorem put_perm (key value : GoString) (l : List (GoString × GoString))
    (h : get key l = none) : (put key value l).Perm ((key, value) :: l) := by
  induction l with
  | nil => simp [put]
  | cons kv rest ih =>
    obtain ⟨k, v⟩ := kv
    by_cases hk : k = key
    · simp [get, hk] at h
    · simp only [get, hk, if_false] at h
      by_cases hlt : keyLt key k = true
      · simp only [put, hk, hlt, if_false, if_true]
        exact List.Perm.refl _
      · simp only [put, hk, hlt, if_false]
        exact ((ih h).cons (k, v)).trans (List.Perm.swap _ _ _)

/-- An operation either leaves the pairs of the store as they are, or it is a
`CastVote` that puts the encoding of a vote under a key that was absent. -/
theorem run_state (stub : Stub) (op : Op) :
    (Op.run stub op).state = stub.state
      ∨ ∃ v c, op = .CastVote v c ∧ (CastVote stub v c).1 = none
          ∧ TrimSpace v ≠ [] ∧ TrimSpace c ≠ []
          ∧ get (TrimSpace v) stub.state = none
          ∧ (Op.run stub op).state
              = put (TrimSpace v) (structEncoder ⟨TrimSpace c, TrimSpace v⟩) stub.state := by
  cases op with
  | InitLedger => exact Or.inl rfl
  | VoteExists v => exact Or.inl rfl
  | GetVote v => exact Or.inl rfl
  | GetVoteCount => exact Or.inl rfl
  | CastVote v c =>
    by_cases h : (CastVote stub v c).1 = none
    · obtain ⟨h1, h2, _, h4, _⟩ := (CastVote_eq_none_iff stub v c).1 h
      refine Or.inr ⟨v, c, rfl, h, h1, h2, h4, ?_⟩
      simp only [Op.run]
      rw [CastVote_store_of_success stub v c h]
    · left
      simp only [Op.run]
      rw [CastVote_snd_of_error stub v c h]

/-- No operation changes which calls of the store fail. -/
theorem run_oracles (stub : Stub) (op : Op) :
    (Op.run stub op).getStateErr = stub.getStateErr
      ∧ (Op.run stub op).putStateErr = stub.putStateErr
      ∧ (Op.run stub op).getStateByRangeErr = stub.getStateByRangeErr
      ∧ (Op.run stub op).nextErr = stub.nextErr := by
  cases op with
  | InitLedger => exact ⟨rfl, rfl, rfl, rfl⟩
  | VoteExists v => exact ⟨rfl, rfl, rfl, rfl⟩
  | GetVote v => exact ⟨rfl, rfl, rfl, rfl⟩
  | GetVoteCount => exact ⟨rfl, rfl, rfl, rfl⟩
  | CastVote v c =>
    by_cases h : (CastVote stub v c).1 = none
    · simp only [Op.run]
      rw [CastVote_store_of_success stub v c h]
      exact ⟨rfl, rfl, rfl, rfl⟩
    · simp only [Op.run]
      rw [CastVote_snd_of_error stub v c h]
      exact ⟨rfl, rfl, rfl, rfl⟩

theorem runOps_oracles (stub : Stub) (ops : List Op) :
    (runOps stub ops).getStateErr = stub.getStateErr
      ∧ (runOps stub ops).putStateErr = stub.putStateErr
      ∧ (runOps stub ops).getStateByRangeErr = stub.getStateByRangeErr
      ∧ (runOps stub ops).nextErr = stub.nextErr := by
  induction ops generalizing stub with
  | nil => exact ⟨rfl, rfl, rfl, rfl⟩
  | cons op rest ih =>
    obtain ⟨a, b, c, d⟩ := ih (Op.run stub op)
    obtain ⟨a', b', c', d'⟩ := run_oracles stub op
    exact ⟨a.trans a', b.trans b', c.trans c', d.trans d'⟩

/-- An operation keeps every record. -/
theorem get_run (stub : Stub) (op : Op) (k value : GoString)
    (h : get k stub.state = some value) : get k (Op.run stub op).state = some value := by
  rcases run_state stub op with hs | ⟨v, c, -, -, -, -, hnone, hs⟩
  · rw [hs]; exact h
  · rw [hs, get_put_other]
    · exact h
    · intro hk
      rw [hk, hnone] at h
      cases h

/-- A sequence of operations keeps every record. -/
theorem get_runOps (stub : Stub) (ops : List Op) (k value : GoString)
    (h : get k stub.state = some value) : get k (runOps stub ops).state = some value := by
  induction ops generalizing stub with
  | nil => exact h
  | cons op rest ih => exact ih (Op.run stub op) (get_run stub op k value h)

/-- A key stays absent as long as no `CastVote` is made for it. -/
theorem get_runOps_none (stub : Stub) (ops : List Op) (k : GoString)
    (h : get k stub.state = none)
    (hops : ∀ v c, Op.CastVote v c ∈ ops → TrimSpace v ≠ k) :
    get k (runOps stub ops).state = none := by
  induction ops generalizing stub with
  | nil => exact h
  | cons op rest ih =>
    refine ih (Op.run stub op) ?_ (fun v c hm => hops v c (List.mem_cons_of_mem _ hm))
    rcases run_state stub op with hs | ⟨v, c, hop, -, -, -, -, hs⟩
    · rw [hs]; exact h
    · rw [hs, get_put_other _ _ _ _ ?_]
      · exact h
      · intro hk
        exact hops v c (by rw [hop]; exact List.mem_cons_self _ _) hk.symm
/-! ## Tallies as maps -/

/-- A tally without zero counts is determined by its counts. -/
theorem lookup_of_count (m : VoteCounts) (hz : m.NoZero) (n : GoString) :
    m.lookup n = if m.count n = 0 then none else some (m.count n) := by
  unfold VoteCounts.count
  cases h : m.lookup n with
  | none => simp
  | some c =>
    have : c ≠ 0 := by
      intro hc
      rw [hc] at h
      exact hz n h
    simp [this]

theorem NoZero_nil : VoteCounts.NoZero [] := by
  intro k h
  simp [VoteCounts.lookup] at h

theorem votesFor_append (n : GoString) (xs ys : List (GoString × GoString)) :
    votesFor n (xs ++ ys) = votesFor n xs + votesFor n ys := by
  simp [votesFor, List.countP_append]

theorem votesFor_perm (n : GoString) (xs ys : List (GoString × GoString))
    (h : xs.Perm ys) : votesFor n xs = votesFor n ys := by
  unfold votesFor
  exact h.countP_eq _

/-- The tally of a sequence of records read without failure: a map without zero
counts whose count of a candidate is the number of records for the candidate. -/
theorem tally_counts (nextErr : Nat → Bool) (hnext : ∀ i, nextErr i = false)
    (state : List (GoString × GoString)) (i : Nat) :
    ∃ m, tallyLoop nextErr i state [] = (some m, none)
      ∧ (∀ n, m.count n = votesFor n state)
      ∧ (∀ n, m.lookup n = if votesFor n state = 0 then none else some (votesFor n state)) := by
  obtain ⟨m, h1, h2, h3, -⟩ := tallyLoop_spec nextErr hnext state i []
  have hc : ∀ n, m.count n = votesFor n state := by
    intro n
    rw [h2 n]
    simp [VoteCounts.count, VoteCounts.lookup]
  refine ⟨m, h1, hc, ?_⟩
  intro n
  rw [lookup_of_count m (h3 NoZero_nil) n, hc n]

/-! ## C11: the four outcomes of `GetVote` -/

theorem GetVote_of_read_error (stub : Stub) (voterID : GoString)
    (h : stub.getStateErr voterID = true) :
    GetVote stub voterID = (none, some (.readWorldState .ledger)) := by
  simp [GetVote, Stub.GetState, h]

theorem GetVote_of_absent (stub : Stub) (voterID : GoString)
    (h : stub.getStateErr voterID = false) (hg : get voterID stub.state = none) :
    GetVote stub voterID = (none, some (.notExist voterID)) := by
  simp [GetVote, Stub.GetState, h, hg]

theorem GetVote_of_present (stub : Stub) (voterID data : GoString)
    (h : stub.getStateErr voterID = false) (hg : get voterID stub.state = some data) :
    GetVote stub voterID
      = match Unmarshal data with
        | .error err => (none, some (.unmarshalVote (.json err)))
        | .ok vote => (some vote, none) := by
  cases hu : Unmarshal data <;> simp [GetVote, Stub.GetState, h, hg, hu]

theorem kind_json_ne_encode (e : JsonError) (he : e ≠ .MarshalerError) :
    (Error.unmarshalVote (.json e)).kind = .DecodeError := by
  cases e <;> simp_all [Error.kind]

/-- C11: `GetVote(voterID)` has four outcomes, decided by the read of the store
under exactly the key `voterID`.  It fails with a StorageFailure if and only if
the read fails; with NotFound if and only if the read finds no record, as it does
for a voter who never voted (no `CastVote` for that key since the empty store);
with a DecodeError if and only if the read finds bytes that
do not unmarshal; and it returns a vote if and only if the read finds bytes that
unmarshal, and then exactly the vote they unmarshal to.  The four cases are
exhaustive and mutually exclusive. -/
theorem GetVote_cases (stub : Stub) (voterID : GoString) :
    (((∃ e, GetVote stub voterID = (none, some e) ∧ e.kind = .StorageFailure)
        ↔ stub.getStateErr voterID = true)
      ∧ ((∃ e, GetVote stub voterID = (none, some e) ∧ e.kind = .NotFound)
        ↔ stub.getStateErr voterID = false ∧ get voterID stub.state = none)
      ∧ ((∃ e, GetVote stub voterID = (none, some e) ∧ e.kind = .DecodeError)
        ↔ stub.getStateErr voterID = false
          ∧ ∃ data, get voterID stub.state = some data ∧ decodes data = false)
      ∧ ((∃ vote, GetVote stub voterID = (some vote, none))
        ↔ stub.getStateErr voterID = false
          ∧ ∃ data, get voterID stub.state = some data ∧ decodes data = true)
      ∧ (∀ data vote, stub.getStateErr voterID = false →
          get voterID stub.state = some data → Unmarshal data = .ok vote →
          GetVote stub voterID = (some vote, none))
      ∧ (stub.getStateErr voterID = true
          ∨ (stub.getStateErr voterID = false ∧ get voterID stub.state = none)
          ∨ (stub.getStateErr voterID = false
            ∧ ∃ data, get voterID stub.state = some data ∧ decodes data = false)
          ∨ (stub.getStateErr voterID = false
            ∧ ∃ data, get voterID stub.state = some data ∧ decodes data = true))
      ∧ ¬ (stub.getStateErr voterID = true ∧ stub.getStateErr voterID = false)
      ∧ ¬ (get voterID stub.state = none ∧ ∃ data, get voterID stub.state = some data)
      ∧ ¬ ((∃ data, get voterID stub.state = some data ∧ decodes data = false)
          ∧ ∃ data, get voterID stub.state = some data ∧ decodes data = true))
      ∧ (∀ init ops, init.state = [] → stub = runOps init ops →
          (∀ v c, Op.CastVote v c ∈ ops → TrimSpace v ≠ voterID) →
          stub.getStateErr voterID = false →
          ∃ e, GetVote stub voterID = (none, some e) ∧ e.kind = .NotFound) := by
  have hnever : ∀ init ops, init.state = [] → stub = runOps init ops →
      (∀ v c, Op.CastVote v c ∈ ops → TrimSpace v ≠ voterID) →
      stub.getStateErr voterID = false →
      ∃ e, GetVote stub voterID = (none, some e) ∧ e.kind = .NotFound := by
    intro init ops hinit hstub hops herr
    have hg : get voterID stub.state = none := by
      rw [hstub]
      exact get_runOps_none init ops voterID (by rw [hinit]; rfl) hops
    exact ⟨_, GetVote_of_absent stub voterID herr hg, rfl⟩
  refine ⟨?_, hnever⟩
  cases hg : get voterID stub.state with
  | none =>
    cases herr : stub.getStateErr voterID with
    | true => rw [GetVote_of_read_error stub voterID herr]; simp [Error.kind]
    | false => rw [GetVote_of_absent stub voterID herr hg]; simp [Error.kind]
  | some data =>
    cases herr : stub.getStateErr voterID with
    | true =>
      rw [GetVote_of_read_error stub voterID herr]
      cases hd : decodes data <;> simp [Error.kind, hd]
    | false =>
      rw [GetVote_of_present stub voterID data herr hg]
      cases hu : Unmarshal data with
      | error e =>
        have hd : decodes data = false := by simp [decodes, hu]
        have hk : e ≠ .MarshalerError := by
          intro he
          rw [he] at hu
          unfold Unmarshal at hu
          split_ifs at hu <;> cases hu
        have hkind := kind_json_ne_encode e hk
        simp [hkind, hd]
        rintro _ vote rfl h
        rw [hu] at h; cases h
      | ok vote =>
        have hd : decodes data = true := by simp [decodes, hu]
        simp
        refine ⟨hd, ?_⟩
        rintro _ vote' rfl h
        rw [hu] at h; cases h; rfl

/-- Witness of C11: the four outcomes, on the store of the example, on a store
with a truncated record and on a store whose reads fail. -/
theorem GetVote_cases_witness :
    GetVote tallyExample (str "voter1") = (some ⟨str "cat", str "voter1"⟩, none)
      ∧ (∃ e, GetVote tallyExample (str "voter4") = (none, some e) ∧ e.kind = .NotFound)
      ∧ (∃ e, GetVote corruptExample (str "voter2") = (none, some e)
          ∧ e.kind = .DecodeError)
      ∧ (∃ e, GetVote failingStub (str "voter1") = (none, some e)
          ∧ e.kind = .StorageFailure) :=
  ⟨(GetVote_cases tallyExample (str "voter1")).1.2.2.2.2.1
      (str "\x7b\"candidate\":\"cat\",\"voterID\":\"voter1\"\x7d") _
      (by decide) (by decide) (by decide),
    (GetVote_cases tallyExample (str "voter4")).1.2.1.2 ⟨by decide, by decide⟩,
    (GetVote_cases corruptExample (str "voter2")).1.2.2.1.2
      ⟨by decide, str "\x7b\"candidate\":\"dog\"", by decide, by decide⟩,
    (GetVote_cases failingStub (str "voter1")).1.1.2 (by decide)⟩
/-! ## C12: records are never updated or deleted -/

theorem runOps_append (stub : Stub) (ops1 ops2 : List Op) :
    runOps stub (ops1 ++ ops2) = runOps (runOps stub ops1) ops2 := by
  simp [runOps, List.foldl_append]

/-- C12: records are never updated or deleted.  A record stored under a key before
an operation (`InitLedger`, `CastVote`, `VoteExists`, `GetVote`, `GetVoteCount`,
with any arguments, succeeding or not) is stored under that key with identical
bytes after it; hence along every sequence of operations a key that holds a
record at some point holds the same record at every later point: the state of a
voter only moves from Absent to Cast. -/
theorem records_kept (stub : Stub) (k value : GoString)
    (h : get k stub.state = some value) :
    get k (InitLedger stub).2.state = some value
      ∧ (∀ voterID candidate, get k (CastVote stub voterID candidate).2.state = some value)
      ∧ (∀ op : Op, get k (Op.run stub op).state = some value)
      ∧ (∀ ops : List Op, get k (runOps stub ops).state = some value)
      ∧ (∀ (init : Stub) (ops1 ops2 : List Op), stub = runOps init ops1 →
          get k (runOps init (ops1 ++ ops2)).state = some value) := by
  refine ⟨h, fun v c => get_run stub (.CastVote v c) k value h,
    fun op => get_run stub op k value h, fun ops => get_runOps stub ops k value h, ?_⟩
  intro init ops1 ops2 hs
  rw [runOps_append, ← hs]
  exact get_runOps stub ops2 k value h

/-- Witness of C12: after voter1 voted for cat, a second `CastVote` of voter1, for
dog, leaves the record of voter1 as it is. -/
theorem records_kept_witness :
    get (str "voter1")
        (CastVote (CastVote (Stub.ofState []) (str "voter1") (str "cat")).2
          (str "voter1") (str "dog")).2.state
      = some (str "\x7b\"candidate\":\"cat\",\"voterID\":\"voter1\"\x7d") :=
  (records_kept (CastVote (Stub.ofState []) (str "voter1") (str "cat")).2 (str "voter1")
    (str "\x7b\"candidate\":\"cat\",\"voterID\":\"voter1\"\x7d") (by decide)).2.1
    (str "voter1") (str "dog")
/-! ## C13: the failures of `GetVoteCount` -/

/-- The loop of `GetVoteCount` ends with a map when no call of `Next` it makes
fails, and with no map and the error of the iteration when one does. -/
theorem tallyLoop_result (nextErr : Nat → Bool) (state : List (GoString × GoString))
    (i : Nat) (m : VoteCounts) :
    ((∃ m', tallyLoop nextErr i state m = (some m', none))
        ∧ ∀ j, j < state.length → nextErr (i + j) = false)
      ∨ (tallyLoop nextErr i state m = (none, some (.iterate .ledger))
        ∧ ∃ j, j < state.length ∧ nextErr (i + j) = true) := by
  induction state generalizing i m with
  | nil => exact Or.inl ⟨⟨m, rfl⟩, fun j hj => by simp at hj⟩
  | cons kv rest ih =>
    by_cases hi : nextErr i = true
    · right
      exact ⟨by simp [tallyLoop, hi], 0, by simp, by simpa using hi⟩
    · have hi' : nextErr i = false := by simpa using hi
      have step : ∃ m1, tallyLoop nextErr i (kv :: rest) m
          = tallyLoop nextErr (i + 1) rest m1 := by
        cases hu : Unmarshal kv.2 with
        | error e => exact ⟨m, by simp [tallyLoop, hi', hu]⟩
        | ok vote => exact ⟨m.incr vote.Candidate, by simp [tallyLoop, hi', hu]⟩
      obtain ⟨m1, hm1⟩ := step
      rw [hm1]
      rcases ih (i + 1) m1 with ⟨hok, hall⟩ | ⟨herr, j, hj, hjt⟩
      · left
        refine ⟨hok, ?_⟩
        intro j hj
        cases j with
        | zero => simpa using hi'
        | succ j =>
          have := hall j (by simpa using hj)
          rw [← this]; congr 1; omega
      · right
        refine ⟨herr, j + 1, by simpa using hj, ?_⟩
        rw [← hjt]; congr 1; omega

/-- C13: `GetVoteCount` fails if and only if the range iteration cannot be opened
or a call of `Next` made by the iteration (one for each record of the store)
returns an error.  When it fails it returns no map at all, and the error is a
StorageFailure; when it does not fail it returns a map.  It never fails because
of the content of a record: whether it fails is the same for any two stores with
the same failing calls and the same number of records. -/
theorem GetVoteCount_fails_iff (stub : Stub) :
    ((GetVoteCount stub).2 ≠ none
        ↔ stub.getStateByRangeErr = true
          ∨ ∃ i, i < stub.state.length ∧ stub.nextErr i = true)
      ∧ ((GetVoteCount stub).2 ≠ none →
          (GetVoteCount stub).1 = none
            ∧ ∃ e, (GetVoteCount stub).2 = some e ∧ e.kind = .StorageFailure)
      ∧ ((GetVoteCount stub).2 = none → ∃ m, (GetVoteCount stub).1 = some m)
      ∧ (∀ stub' : Stub, stub'.getStateByRangeErr = stub.getStateByRangeErr →
          stub'.nextErr = stub.nextErr → stub'.state.length = stub.state.length →
          (GetVoteCount stub').2 = (GetVoteCount stub).2) := by
  have key : ∀ s : Stub,
      (s.getStateByRangeErr = true ∧ GetVoteCount s = (none, some (.getStateRange .ledger)))
        ∨ (s.getStateByRangeErr = false
          ∧ (∃ m', GetVoteCount s = (some m', none))
          ∧ ∀ j, j < s.state.length → s.nextErr j = false)
        ∨ (s.getStateByRangeErr = false
          ∧ GetVoteCount s = (none, some (.iterate .ledger))
          ∧ ∃ j, j < s.state.length ∧ s.nextErr j = true) := by
    intro s
    by_cases hr : s.getStateByRangeErr = true
    · left; exact ⟨hr, by simp [GetVoteCount, hr]⟩
    · right
      have hr' : s.getStateByRangeErr = false := by simpa using hr
      have hg : GetVoteCount s = tallyLoop s.nextErr 0 s.state [] := by
        simp [GetVoteCount, hr']
      rw [hg]
      rcases tallyLoop_result s.nextErr s.state 0 [] with ⟨hok, hall⟩ | ⟨herr, j, hj, hjt⟩
      · left
        exact ⟨hr', hok, fun j hj => by simpa using hall j hj⟩
      · right
        exact ⟨hr', herr, j, hj, by simpa using hjt⟩
  refine ⟨?_, ?_, ?_, ?_⟩
  · rcases key stub with ⟨hr, hg⟩ | ⟨hr, ⟨m', hg⟩, hall⟩ | ⟨hr, hg, j, hj, hjt⟩
    · rw [hg]; simp [hr]
    · rw [hg]
      simp only [ne_eq, not_true_eq_false, false_iff, not_or, not_exists, not_and]
      exact ⟨by simp [hr], fun i hi => by simp [hall i hi]⟩
    · rw [hg]
      simp only [ne_eq, reduceCtorEq, not_false_eq_true, true_iff]
      exact Or.inr ⟨j, hj, hjt⟩
  · rcases key stub with ⟨hr, hg⟩ | ⟨hr, ⟨m', hg⟩, hall⟩ | ⟨hr, hg, j, hj, hjt⟩
    · rw [hg]; intro _; exact ⟨rfl, _, rfl, rfl⟩
    · rw [hg]; intro h; exact absurd rfl h
    · rw [hg]; intro _; exact ⟨rfl, _, rfl, rfl⟩
  · rcases key stub with ⟨hr, hg⟩ | ⟨hr, ⟨m', hg⟩, hall⟩ | ⟨hr, hg, j, hj, hjt⟩
    · rw [hg]; intro h; cases h
    · rw [hg]; intro _; exact ⟨m', rfl⟩
    · rw [hg]; intro h; cases h
  · intro stub' h1 h2 h3
    rcases key stub with ⟨hr, hg⟩ | ⟨hr, ⟨m', hg⟩, hall⟩ | ⟨hr, hg, j, hj, hjt⟩
    · rcases key stub' with ⟨hr', hg'⟩ | ⟨hr', -, -⟩ | ⟨hr', -, -⟩
      · rw [hg, hg']
      · rw [h1, hr] at hr'; cases hr'
      · rw [h1, hr] at hr'; cases hr'
    · rcases key stub' with ⟨hr', hg'⟩ | ⟨hr', ⟨m'', hg'⟩, -⟩ | ⟨hr', -, j, hj, hjt⟩
      · rw [h1, hr] at hr'; cases hr'
      · rw [hg, hg']
      · rw [h2] at hjt; rw [h3] at hj
        rw [hall j hj] at hjt; cases hjt
    · rcases key stub' with ⟨hr', hg'⟩ | ⟨hr', -, hall⟩ | ⟨hr', hg', -⟩
      · rw [h1, hr] at hr'; cases hr'
      · rw [← h2] at hjt; rw [← h3] at hj
        rw [hall j hj] at hjt; cases hjt
      · rw [hg, hg']

/-- Witness of C13: on a store whose third call of `Next` fails, `GetVoteCount`
fails when there are three records and succeeds when there are two. -/
theorem GetVoteCount_fails_iff_witness :
    (GetVoteCount ⟨tallyExample.state, fun _ => false, fun _ _ => false, false,
        fun i => decide (i = 2)⟩).2 ≠ none
      ∧ (GetVoteCount ⟨tallyExample.state.take 2, fun _ => false, fun _ _ => false, false,
        fun i => decide (i = 2)⟩).2 = none :=
  ⟨(GetVoteCount_fails_iff ⟨tallyExample.state, fun _ => false, fun _ _ => false, false,
        fun i => decide (i = 2)⟩).1.2 (Or.inr ⟨2, by decide, by decide⟩),
    by decide⟩
/-! ## C14: encoding a vote never fails -/

/-- The struct encoder fails exactly when it meets a field of a kind that cannot be
encoded. -/
theorem encodeFields_error_iff (fields : List (GoString × FieldValue)) (e : GoString)
    (next : Byte) :
    (∃ err, encodeFields e next fields = .error err) ↔ ∃ f ∈ fields, f.2 = .unsupported := by
  induction fields generalizing e next with
  | nil => simp [encodeFields]
  | cons f rest ih =>
    obtain ⟨name, fv⟩ := f
    cases fv with
    | string s =>
      simp only [encodeFields, FieldValue.encode, ih, List.mem_cons, exists_eq_or_imp,
        reduceCtorEq, false_or]
    | unsupported =>
      simp [encodeFields, FieldValue.encode]

/-- The errors `CastVote` can return. -/
theorem CastVote_error_cases (stub : Stub) (voterID candidate : GoString) :
    (CastVote stub voterID candidate).1 = none
      ∨ (CastVote stub voterID candidate).1 = some .voterIdEmpty
      ∨ (CastVote stub voterID candidate).1 = some .candidateEmpty
      ∨ (CastVote stub voterID candidate).1 = some (.checkVoted (.readWorldState .ledger))
      ∨ (CastVote stub voterID candidate).1 = some (.alreadyVoted (TrimSpace voterID))
      ∨ (CastVote stub voterID candidate).1 = some (.storeVote .ledger) := by
  unfold CastVote VoteExists Stub.GetState Stub.PutState
  simp only [Marshal_eq]
  by_cases h1 : TrimSpace voterID = []
  · simp [h1]
  by_cases h2 : TrimSpace candidate = []
  · simp [h1, h2]
  by_cases h3 : stub.getStateErr (TrimSpace voterID) = true
  · simp [h1, h2, h3]
  cases h4 : get (TrimSpace voterID) stub.state with
  | some v => simp [h1, h2, h3, h4]
  | none =>
    by_cases h5 : stub.putStateErr (TrimSpace voterID)
        (structEncoder ⟨TrimSpace candidate, TrimSpace voterID⟩) = true
    · simp [h1, h2, h3, h4, h5]
    · simp [h1, h2, h3, h4, h5]

/-- C14: encoding a vote never fails.  The struct encoder of `json.Marshal` fails
exactly when it meets a field of a kind that cannot be encoded, and a `Vote` has
two fields of kind string: so `json.Marshal` of a `Vote` returns bytes and no
error, whatever the two strings (so for every pair of non-empty trimmed strings).
Hence the EncodeError branch of `CastVote` is unreachable: no call of `CastVote`
returns the error "failed to marshal vote data" or any error of kind EncodeError;
a `CastVote` with valid inputs (both non-empty after trimming) on a store whose
reads and writes do not fail either succeeds or fails with AlreadyVoted; and when
the voter has no record it succeeds, having stored the bytes `json.Marshal`
returned. -/
theorem Marshal_never_fails (stub : Stub) (voterID candidate : GoString) :
    (∀ fields : List (GoString × FieldValue),
        (∃ err, encodeFields [] 0x7B fields = .error err)
          ↔ ∃ f ∈ fields, f.2 = .unsupported)
      ∧ (∀ f ∈ Vote.fields { Candidate := candidate, VoterID := voterID },
          f.2 ≠ .unsupported)
      ∧ (∃ voteJSON, Marshal { Candidate := candidate, VoterID := voterID } = .ok voteJSON)
      ∧ (∀ cause, (CastVote stub voterID candidate).1 ≠ some (.marshalVote cause))
      ∧ (∀ e, (CastVote stub voterID candidate).1 = some e → e.kind ≠ .EncodeError)
      ∧ (TrimSpace voterID ≠ [] → TrimSpace candidate ≠ [] →
          (∀ key, stub.getStateErr key = false) →
          (∀ key value, stub.putStateErr key value = false) →
          ((CastVote stub voterID candidate).1 = none
            ∨ ((CastVote stub voterID candidate).1 = some (.alreadyVoted (TrimSpace voterID))
              ∧ (Error.alreadyVoted (TrimSpace voterID)).kind = .AlreadyVoted))
          ∧ (get (TrimSpace voterID) stub.state = none →
              (CastVote stub voterID candidate).1 = none
                ∧ ∃ voteJSON,
                  Marshal { Candidate := TrimSpace candidate, VoterID := TrimSpace voterID }
                      = .ok voteJSON
                    ∧ get (TrimSpace voterID) (CastVote stub voterID candidate).2.state
                      = some voteJSON)) := by
  have hfields : ∀ f ∈ Vote.fields { Candidate := candidate, VoterID := voterID },
      f.2 ≠ .unsupported := by
    intro f hf
    simp only [Vote.fields, List.mem_cons, List.mem_singleton, List.mem_nil_iff,
      or_false] at hf
    rcases hf with rfl | rfl <;> simp
  refine ⟨fun fields => encodeFields_error_iff fields [] 0x7B, hfields, ?_, ?_, ?_, ?_⟩
  · cases hm : Marshal { Candidate := candidate, VoterID := voterID } with
    | ok voteJSON => exact ⟨voteJSON, rfl⟩
    | error err =>
      exfalso
      obtain ⟨f, hf, hu⟩ := (encodeFields_error_iff _ [] 0x7B).1 ⟨err, hm⟩
      exact hfields f hf hu
  · intro cause
    rcases CastVote_error_cases stub voterID candidate with h | h | h | h | h | h <;>
      rw [h] <;> simp
  · intro e he
    rcases CastVote_error_cases stub voterID candidate with h | h | h | h | h | h <;>
      rw [h] at he <;> cases he <;> simp [Error.kind]
  · intro h1 h2 hget hput
    have hsucc : get (TrimSpace voterID) stub.state = none →
        (CastVote stub voterID candidate).1 = none := fun h4 =>
      (CastVote_eq_none_iff stub voterID candidate).2 ⟨h1, h2, hget _, h4, hput _ _⟩
    constructor
    · cases h4 : get (TrimSpace voterID) stub.state with
      | some v =>
        right
        refine ⟨?_, rfl⟩
        unfold CastVote VoteExists Stub.GetState Stub.PutState
        simp [h1, h2, hget (TrimSpace voterID), h4]
      | none => exact Or.inl (hsucc h4)
    · intro h4
      refine ⟨hsucc h4, structEncoder ⟨TrimSpace candidate, TrimSpace voterID⟩,
        Marshal_eq _, ?_⟩
      rw [CastVote_store_of_success stub voterID candidate (hsucc h4)]
      exact get_put_same _ _ _

/-- Witness of C14: on the empty store the vote of voter1 for cat passes through
`json.Marshal` and is stored; `Marshal` returns the bytes of the record. -/
theorem Marshal_never_fails_witness :
    (CastVote (Stub.ofState []) (str " voter1 ") (str "cat")).1 = none
      ∧ ∃ voteJSON,
        Marshal { Candidate := TrimSpace (str "cat"), VoterID := TrimSpace (str " voter1 ") }
            = .ok voteJSON
          ∧ get (TrimSpace (str " voter1 "))
              (CastVote (Stub.ofState []) (str " voter1 ") (str "cat")).2.state
            = some voteJSON :=
  ((Marshal_never_fails (Stub.ofState []) (str " voter1 ") (str "cat")).2.2.2.2.2
    (by decide) (by decide) (fun _ => rfl) (fun _ _ => rfl)).2 (by decide)
/-! ## C15: the tally after a vote -/

/-- The records for a candidate after a vote is stored under a new key. -/
theorem votesFor_put (n key : GoString) (vote : Vote) (state : List (GoString × GoString))
    (h : get key state = none) :
    votesFor n (put key (structEncoder vote) state)
      = votesFor n state + (if n = coerceUTF8 vote.Candidate then 1 else 0) := by
  rw [votesFor_perm n _ _ (put_perm key (structEncoder vote) state h)]
  exact votesFor_cons_ok n (key, structEncoder vote) state _ (Unmarshal_structEncoder vote)

/-- C15 (amended): on a store whose range iteration does not fail, after a
successful `CastVote(v, c)` the tally is the tally before with the count of one
candidate increased by exactly one (created at 1 if it was absent) and every other
count unchanged, wherever the new key falls in the iteration order.  That
candidate is the trimmed `c` with every byte that is not valid UTF-8 replaced by
U+FFFD, which is the trimmed `c` itself when it is valid UTF-8. -/
theorem GetVoteCount_after_CastVote (stub : Stub) (v c : GoString)
    (hrange : stub.getStateByRangeErr = false) (hnext : ∀ i, stub.nextErr i = false)
    (h : (CastVote stub v c).1 = none) :
    ∃ m m', GetVoteCount stub = (some m, none)
      ∧ GetVoteCount (CastVote stub v c).2 = (some m', none)
      ∧ m'.lookup (coerceUTF8 (TrimSpace c)) = some (m.count (coerceUTF8 (TrimSpace c)) + 1)
      ∧ (∀ n, n ≠ coerceUTF8 (TrimSpace c) → m'.lookup n = m.lookup n)
      ∧ (ValidString (TrimSpace c) = true → coerceUTF8 (TrimSpace c) = TrimSpace c) := by
  obtain ⟨-, -, -, hnone, -⟩ := (CastVote_eq_none_iff stub v c).1 h
  obtain ⟨m, hm, hmc, hml⟩ := tally_counts stub.nextErr hnext stub.state 0
  obtain ⟨m', hm', -, hml'⟩ := tally_counts stub.nextErr hnext
    (put (TrimSpace v) (structEncoder ⟨TrimSpace c, TrimSpace v⟩) stub.state) 0
  refine ⟨m, m', by simp [GetVoteCount, hrange, hm], ?_, ?_, ?_,
    coerceUTF8_of_valid (TrimSpace c)⟩
  · rw [CastVote_store_of_success stub v c h]
    simp [GetVoteCount, hrange, hm']
  · rw [hml', votesFor_put _ _ _ _ hnone, hmc]
    simp
  · intro n hn
    rw [hml', hml, votesFor_put _ _ _ _ hnone]
    simp [hn]

/-- Witness of C15 (amended): a vote for cat on the store of the example, under
a key that falls before the three keys of the store. -/
theorem GetVoteCount_after_CastVote_witness :
    ∃ m m', GetVoteCount tallyExample = (some m, none)
      ∧ GetVoteCount (CastVote tallyExample (str "a") (str " cat")).2 = (some m', none)
      ∧ m'.lookup (coerceUTF8 (TrimSpace (str " cat")))
          = some (m.count (coerceUTF8 (TrimSpace (str " cat"))) + 1)
      ∧ (∀ n, n ≠ coerceUTF8 (TrimSpace (str " cat")) → m'.lookup n = m.lookup n)
      ∧ (ValidString (TrimSpace (str " cat")) = true →
          coerceUTF8 (TrimSpace (str " cat")) = TrimSpace (str " cat")) :=
  GetVoteCount_after_CastVote tallyExample (str "a") (str " cat") rfl (fun _ => rfl)
    (by decide)

/-- Counterexample to C15 as stated: on the empty store, the vote of voter `v` for
the candidate of the one byte 0xFF, which is not valid UTF-8, succeeds; the tally
after it has no entry for the trimmed candidate (the byte 0xFF), and counts 1 for
the candidate U+FFFD instead. -/
theorem GetVoteCount_after_CastVote_invalid_utf8 :
    (CastVote (Stub.ofState []) (str "v") [0xFF]).1 = none
      ∧ GetVoteCount (Stub.ofState []) = (some [], none)
      ∧ TrimSpace [0xFF] = [0xFF]
      ∧ GetVoteCount (CastVote (Stub.ofState []) (str "v") [0xFF]).2
          = (some [([0xEF, 0xBF, 0xBD], 1)], none)
      ∧ (∀ m', GetVoteCount (CastVote (Stub.ofState []) (str "v") [0xFF]).2 = (some m', none) →
          m'.lookup (TrimSpace [0xFF]) = none) := by
  refine ⟨by decide, by decide, by decide, by decide, ?_⟩
  intro m' hm'
  have h : GetVoteCount (CastVote (Stub.ofState []) (str "v") [0xFF]).2
      = (some [([0xEF, 0xBF, 0xBD], 1)], none) := by decide
  rw [h] at hm'
  cases hm'
  decide
/-! ## White space at the ends of a trimmed string -/

theorem lastRuneStart_le (s : GoString) (lim : Int) (fuel : Nat) (start : Int) :
    lastRuneStart s lim fuel start ≤ start := by
  induction fuel generalizing start with
  | zero => simp [lastRuneStart]
  | succ fuel ih =>
    simp only [lastRuneStart]
    split_ifs
    · exact le_refl _
    · exact le_trans (ih (start - 1)) (by omega)
    · exact le_refl _

/-- The three ways `DecodeLastRune` ends on a string that is not empty: on an
ASCII byte, on an error, or on the rune decoded at some index, which reaches to
the end of the string. -/
theorem DecodeLastRune_cases (s : GoString) (hs : s ≠ []) :
    ((s.getD (s.length - 1) 0).val < 0x80
        ∧ DecodeLastRune s = ((s.getD (s.length - 1) 0).val, 1))
      ∨ (0x80 ≤ (s.getD (s.length - 1) 0).val ∧ DecodeLastRune s = (RuneError, 1))
      ∨ (0x80 ≤ (s.getD (s.length - 1) 0).val
        ∧ ∃ start, start < s.length ∧ start + (DecodeRune (s.drop start)).2 = s.length
          ∧ DecodeLastRune s = DecodeRune (s.drop start)) := by
  have hlen : s.length ≠ 0 := by
    intro h; exact hs (List.length_eq_zero.1 h)
  unfold DecodeLastRune
  rw [if_neg hlen]
  by_cases hl : (s.getD (s.length - 1) 0).val < 0x80
  · left
    exact ⟨hl, by simp only [hl, if_true]⟩
  · right
    simp only [hl, if_false]
    have hl' : 0x80 ≤ (s.getD (s.length - 1) 0).val := by omega
    generalize hlim : (if (s.length : Int) - 4 < 0 then (0 : Int) else (s.length : Int) - 4)
      = lim
    have h0 := lastRuneStart_le s lim 4 ((s.length : Int) - 2)
    generalize lastRuneStart s lim 4 ((s.length : Int) - 2) = start0 at h0
    generalize hstart : (if start0 < 0 then (0 : Int) else start0) = start
    have hs0 : 0 ≤ start := by rw [← hstart]; split_ifs <;> omega
    have hs1 : start < (s.length : Int) := by rw [← hstart]; split_ifs <;> omega
    by_cases hne : start + ((DecodeRune (s.drop start.toNat)).2 : Int) ≠ (s.length : Int)
    · left
      exact ⟨hl', if_pos hne⟩
    · right
      refine ⟨hl', start.toNat, by omega, ?_, if_neg hne⟩
      have : start + ((DecodeRune (s.drop start.toNat)).2 : Int) = (s.length : Int) := by
        simpa using hne
      omega
theorem IsSpace_RuneError : IsSpace RuneError = false := by decide

theorem DecodeLastRune_width (q : GoString) (hq : q ≠ []) :
    1 ≤ (DecodeLastRune q).2 ∧ (DecodeLastRune q).2 ≤ q.length := by
  have hlen : 1 ≤ q.length := by
    cases q with
    | nil => exact absurd rfl hq
    | cons b t => simp
  rcases DecodeLastRune_cases q hq with ⟨-, h⟩ | ⟨-, h⟩ | ⟨-, start, h1, h2, h3⟩
  · rw [h]; exact ⟨le_refl _, hlen⟩
  · rw [h]; exact ⟨le_refl _, hlen⟩
  · rw [h3]; omega

/-- The first rune of a string that starts with a rune that is no white space is
no white space either when the string is cut further on. -/
theorem first_rune_of_cut (a b : GoString) (h : IsSpace (DecodeRune (a ++ b)).1 = false) :
    IsSpace (DecodeRune a).1 = false := by
  cases a with
  | nil => exact IsSpace_RuneError
  | cons p0 rest =>
    by_cases hv : DecodeRune (p0 :: rest) = (RuneError, 1)
    · rw [hv]; exact IsSpace_RuneError
    · have vh := ValidHead_of_DecodeRune p0 rest hv
      have vh' := ValidHead_take_append vh
        ((p0 :: rest).drop (DecodeRune (p0 :: rest)).2 ++ b)
      rw [← List.append_assoc, List.take_append_drop] at vh'
      rw [DecodeRune_of_ValidHead vh'] at h
      exact h

/-- A byte that starts a white space rune is no continuation byte. -/
theorem space_head_byte (w0 : Byte) (t : GoString)
    (h : IsSpace (DecodeRune (w0 :: t)).1 = true) : w0.val < 0x80 ∨ 0xC2 ≤ w0.val := by
  by_contra hc
  have h1 : ¬ w0.val < 0x80 := by omega
  have h2 : w0.val < 0xC2 := by omega
  have hd : DecodeRune (w0 :: t) = (RuneError, 1) := by
    simp only [DecodeRune]
    rw [if_neg h1, if_pos h2]
  rw [hd, IsSpace_RuneError] at h
  cases h

/-- A byte from 0x80 on before a white space rune, or at the end of the string,
decodes as an error of width 1. -/
theorem DecodeRune_before_space (b : Byte) (w : GoString) (hb : 0x80 ≤ b.val)
    (hw : w = [] ∨ IsSpace (DecodeRune w).1 = true) :
    (DecodeRune (b :: w)).2 = 1 := by
  cases w with
  | nil =>
    simp only [DecodeRune]
    split_ifs <;> rfl
  | cons w0 t =>
    have hw0 : w0.val < 0x80 ∨ 0xC2 ≤ w0.val := by
      rcases hw with hw | hw
      · cases hw
      · exact space_head_byte w0 t hw
    by_cases hv : DecodeRune (b :: w0 :: t) = (RuneError, 1)
    · rw [hv]
    · exfalso
      obtain ⟨r, n, vh⟩ : ∃ r n, ValidHead (b :: w0 :: t) r n :=
        ⟨_, _, ValidHead_of_DecodeRune b (w0 :: t) hv⟩
      cases vh <;> omega

theorem lastIndexFunc_skip (f : Nat → Bool) (k : Nat) (s : GoString) :
    lastIndexFunc f k s = lastIndexFunc f 0 (s.drop k) := by
  induction s generalizing k with
  | nil => simp [lastIndexFunc]
  | cons b rest ih =>
    cases k with
    | zero => simp
    | succ k => simp only [lastIndexFunc, List.drop_succ_cons]; exact ih k

/-- One step of `lastIndexFunc`, in terms of the string itself. -/
theorem lastIndexFunc_reverse (q : GoString) (hq : q ≠ []) :
    lastIndexFunc IsSpace 0 q.reverse
      = if IsSpace (DecodeLastRune q).1 then
          lastIndexFunc IsSpace 0 (q.take (q.length - (DecodeLastRune q).2)).reverse
        else some (q.length - (DecodeLastRune q).2) := by
  obtain ⟨hk1, hk2⟩ := DecodeLastRune_width q hq
  cases h : q.reverse with
  | nil => exact absurd (List.reverse_eq_nil_iff.1 h) hq
  | cons c rest =>
    have hq' : (c :: rest).reverse = q := by rw [← h, List.reverse_reverse]
    have hl : (c :: rest).length = q.length := by rw [← h, List.length_reverse]
    simp only [lastIndexFunc]
    rw [hq', hl]
    split_ifs with hsp
    · rw [lastIndexFunc_skip, List.reverse_take, h]
      congr 1
      have : q.length - (q.length - (DecodeLastRune q).2) = (DecodeLastRune q).2 := by omega
      rw [this]
      rw [drop_width_cons c rest _ hk1]
    · rfl
theorem drop_pred_length (q : GoString) (hq : q ≠ []) :
    q.drop (q.length - 1) = [q.getD (q.length - 1) 0] := by
  have hlen : 1 ≤ q.length := by
    cases q with
    | nil => exact absurd rfl hq
    | cons b t => simp
  have hlt : q.length - 1 < q.length := by omega
  rw [List.drop_eq_getElem_cons hlt, List.getD_eq_getElem q 0 hlt]
  have : q.length - 1 + 1 = q.length := by omega
  rw [this, List.drop_length]

/-- The bytes of the last rune, when it is no error, decode to it, whatever
follows them. -/
theorem DecodeRune_last_chunk (q : GoString) (hq : q ≠ [])
    (hv : DecodeLastRune q ≠ (RuneError, 1)) (w : GoString) :
    DecodeRune (q.drop (q.length - (DecodeLastRune q).2) ++ w) = DecodeLastRune q := by
  rcases DecodeLastRune_cases q hq with ⟨hl, h⟩ | ⟨-, h⟩ | ⟨-, start, h1, h2, h3⟩
  · rw [h]
    simp only []
    rw [drop_pred_length q hq]
    generalize q.getD (q.length - 1) 0 = b at hl
    simp [DecodeRune, hl]
  · exact absurd h hv
  · rw [h3] at hv ⊢
    have hi : q.length - (DecodeRune (q.drop start)).2 = start := by omega
    rw [hi]
    cases hc : q.drop start with
    | nil =>
      have := congrArg List.length hc
      simp at this
      omega
    | cons c0 rest =>
      rw [hc] at hv h2
      have vh := ValidHead_take_append (ValidHead_of_DecodeRune c0 rest hv) w
      have hlen : (c0 :: rest).length = (DecodeRune (c0 :: rest)).2 := by
        have := congrArg List.length hc
        simp only [List.length_drop] at this
        omega
      rw [List.take_of_length_le (le_of_eq hlen)] at vh
      exact DecodeRune_of_ValidHead vh

/-- The core of `TrimRightFunc`: looking backwards from the end of `q`, with
white space `w` already passed over, the string is cut in front of white space
and after a rune that is no white space. -/
theorem TrimRightFunc_aux (n : Nat) : ∀ (q w : GoString), q.length ≤ n →
    (w = [] ∨ IsSpace (DecodeRune w).1 = true) →
    ∃ v w', q ++ w = v ++ w' ∧ (w' = [] ∨ IsSpace (DecodeRune w').1 = true)
      ∧ IsSpace (DecodeLastRune v).1 = false
      ∧ (match lastIndexFunc IsSpace 0 q.reverse with
          | none => []
          | some i =>
            if ((q ++ w).getD i 0).val ≥ 0x80 then
              (q ++ w).take (i + (DecodeRune ((q ++ w).drop i)).2)
            else (q ++ w).take (i + 1)) = v := by
  induction n with
  | zero =>
    intro q w hq hw
    have : q = [] := List.length_eq_zero.1 (by omega)
    subst this
    exact ⟨[], w, rfl, hw, by decide, rfl⟩
  | succ n ih =>
    intro q w hlen hw
    by_cases hq : q = []
    · subst hq
      exact ⟨[], w, rfl, hw, by decide, rfl⟩
    obtain ⟨hk1, hk2⟩ := DecodeLastRune_width q hq
    rw [lastIndexFunc_reverse q hq]
    by_cases hsp : IsSpace (DecodeLastRune q).1 = true
    · rw [if_pos hsp]
      have hv : DecodeLastRune q ≠ (RuneError, 1) := by
        intro h
        rw [h, IsSpace_RuneError] at hsp
        cases hsp
      have hchunk := DecodeRune_last_chunk q hq hv w
      have hsplit : q.take (q.length - (DecodeLastRune q).2)
          ++ (q.drop (q.length - (DecodeLastRune q).2) ++ w) = q ++ w := by
        rw [← List.append_assoc, List.take_append_drop]
      obtain ⟨v, w', h1, h2, h3, h4⟩ := ih (q.take (q.length - (DecodeLastRune q).2))
        (q.drop (q.length - (DecodeLastRune q).2) ++ w)
        (by rw [List.length_take]; omega)
        (Or.inr (by rw [hchunk]; exact hsp))
      rw [hsplit] at h1 h4
      exact ⟨v, w', h1, h2, h3, h4⟩
    · rw [if_neg hsp]
      have hsp' : IsSpace (DecodeLastRune q).1 = false := by simpa using hsp
      refine ⟨q, w, rfl, hw, hsp', ?_⟩
      simp only []
      have hi : q.length - (DecodeLastRune q).2 < q.length := by omega
      have hget : (q ++ w).getD (q.length - (DecodeLastRune q).2) 0
          = q.getD (q.length - (DecodeLastRune q).2) 0 := by
        rw [List.getD_append _ _ _ _ hi]
      have hdrop : (q ++ w).drop (q.length - (DecodeLastRune q).2)
          = q.drop (q.length - (DecodeLastRune q).2) ++ w :=
        List.drop_append_of_le_length (by omega)
      have hhead : q.drop (q.length - (DecodeLastRune q).2)
          = q.getD (q.length - (DecodeLastRune q).2) 0
            :: q.drop (q.length - (DecodeLastRune q).2 + 1) := by
        rw [List.drop_eq_getElem_cons hi, List.getD_eq_getElem q 0 hi]
      rw [hget, hdrop]
      by_cases hv : DecodeLastRune q = (RuneError, 1)
      · have hk : (DecodeLastRune q).2 = 1 := by rw [hv]
        have hlast : 0x80 ≤ (q.getD (q.length - 1) 0).val := by
          rcases DecodeLastRune_cases q hq with ⟨hl, h⟩ | ⟨hl, -⟩ | ⟨hl, -⟩
          · rw [hv] at h
            have := congrArg Prod.fst h
            simp only [RuneError] at this
            omega
          · exact hl
          · exact hl
        rw [hk] at hget hdrop hhead ⊢
        rw [if_pos hlast, drop_pred_length q hq]
        have hw1 := DecodeRune_before_space (q.getD (q.length - 1) 0) w hlast hw
        simp only [List.singleton_append]
        rw [hw1]
        have : q.length - 1 + 1 = q.length := by omega
        rw [this, List.take_left']
        rfl
      · have hchunk := DecodeRune_last_chunk q hq hv w
        split_ifs with hb
        · rw [hchunk]
          have : q.length - (DecodeLastRune q).2 + (DecodeLastRune q).2 = q.length := by omega
          rw [this, List.take_left']
          rfl
        · have hb' : (q.getD (q.length - (DecodeLastRune q).2) 0).val < 0x80 := by omega
          rw [hhead] at hchunk
          have hd : ∀ (b : Byte) (t : GoString), b.val < 0x80 →
              DecodeRune (b :: t ++ w) = (b.val, 1) := by
            intro b t hb
            simp [DecodeRune, hb]
          rw [hd _ _ hb'] at hchunk
          have hk : (DecodeLastRune q).2 = 1 := by rw [← hchunk]
          rw [hk]
          have : q.length - 1 + 1 = q.length := by omega
          rw [this, List.take_left']
          rfl
/-- Go `strings.TrimRightFunc(s, unicode.IsSpace)` cuts `s` after a rune that is
no white space. -/
theorem TrimRightFunc_spec (u : GoString) :
    (∃ w, u = TrimRightFunc IsSpace u ++ w)
      ∧ IsSpace (DecodeLastRune (TrimRightFunc IsSpace u)).1 = false := by
  obtain ⟨v, w', h1, -, h3, h4⟩ := TrimRightFunc_aux u.length u [] (le_refl _) (Or.inl rfl)
  simp only [List.append_nil] at h1 h4
  have hv : TrimRightFunc IsSpace u = v := by
    rw [← h4]
    unfold TrimRightFunc
    rfl
  rw [hv]
  exact ⟨⟨w', h1⟩, h3⟩

theorem Trimmed_TrimRightFunc (u : GoString) (h : IsSpace (DecodeRune u).1 = false) :
    Trimmed (TrimRightFunc IsSpace u) := by
  obtain ⟨⟨w, hw⟩, hlast⟩ := TrimRightFunc_spec u
  refine ⟨?_, hlast⟩
  rw [hw] at h
  exact first_rune_of_cut _ w h

/-- Go `strings.TrimLeftFunc(s, unicode.IsSpace)` starts with a rune that is no
white space. -/
theorem TrimLeftFunc_first (s : GoString) :
    IsSpace (DecodeRune (TrimLeftFunc IsSpace 0 s)).1 = false := by
  refine rune_induction
    (fun s => IsSpace (DecodeRune (TrimLeftFunc IsSpace 0 s)).1 = false) ?_ ?_ s
  · exact IsSpace_RuneError
  · intro b rest ih
    simp only [TrimLeftFunc]
    split_ifs with hsp
    · rw [TrimLeftFunc_skip, ← drop_width_cons b rest _ (DecodeRune_width_pos b rest)]
      exact ih
    · simpa using hsp

theorem Trimmed_trimSpaceRight (l : GoString)
    (h : IsSpace (DecodeRune l.reverse).1 = false) : Trimmed (trimSpaceRight l) := by
  induction l with
  | nil => exact ⟨IsSpace_RuneError, by decide⟩
  | cons d rest ih =>
    simp only [trimSpaceRight]
    split_ifs with h1 h2
    · exact Trimmed_TrimRightFunc _ h
    · apply ih
      rw [List.reverse_cons] at h
      exact first_rune_of_cut _ _ h
    · refine ⟨h, ?_⟩
      have hne : (d :: rest).reverse ≠ [] := by simp
      have hlast : ((d :: rest).reverse).getD ((d :: rest).reverse.length - 1) 0 = d := by
        simp [List.getD_eq_getElem?_getD, List.getElem?_append_right]
      have hd : d.val < 0x80 := by omega
      rcases DecodeLastRune_cases _ hne with ⟨-, hr⟩ | ⟨hl, -⟩ | ⟨hl, -⟩
      · rw [hr, hlast]
        simp only [asciiSpace, decide_eq_true_eq] at h2
        simp only [IsSpace]
        rw [if_pos (by omega)]
        simp only [decide_eq_false_iff_not]
        omega
      · rw [hlast] at hl; omega
      · rw [hlast] at hl; omega

/-- The result of `strings.TrimSpace` has no leading and no trailing white space. -/
theorem Trimmed_TrimSpace (s : GoString) : Trimmed (TrimSpace s) := by
  induction s with
  | nil => exact ⟨IsSpace_RuneError, by decide⟩
  | cons c rest ih =>
    simp only [TrimSpace]
    split_ifs with h1 h2
    · exact Trimmed_TrimRightFunc _ (TrimLeftFunc_first _)
    · exact ih
    · apply Trimmed_trimSpaceRight
      rw [List.reverse_reverse]
      have hc : c.val < 0x80 := by omega
      have hd : DecodeRune (c :: rest) = (c.val, 1) := by simp [DecodeRune, hc]
      rw [hd]
      simp only [asciiSpace, decide_eq_true_eq] at h2
      simp only [IsSpace]
      rw [if_pos (by omega)]
      simp only [decide_eq_false_iff_not]
      omega
theorem lastRuneStart_hit (s : GoString) (lim : Int) (fuel start : Nat)
    (h1 : lim ≤ (start : Int)) (h2 : RuneStart (s.getD start 0) = true) :
    lastRuneStart s lim (fuel + 1) (start : Int) = (start : Int) := by
  simp only [lastRuneStart]
  rw [if_pos (by omega), Int.toNat_ofNat, if_pos h2]

theorem lastRuneStart_miss (s : GoString) (lim : Int) (fuel start : Nat)
    (h1 : lim ≤ (start : Int)) (h2 : RuneStart (s.getD start 0) = false) :
    lastRuneStart s lim (fuel + 1) (start : Int) = lastRuneStart s lim fuel ((start : Int) - 1) := by
  simp only [lastRuneStart]
  rw [if_pos (by omega), Int.toNat_ofNat, h2, if_neg Bool.false_ne_true]

theorem getD_append_at (p l : GoString) (i : Nat) :
    (p ++ l).getD (p.length + i) 0 = l.getD i 0 := by
  rw [List.getD_append_right _ _ _ _ (by omega)]
  congr 1
  omega

/-- The last rune of a string that ends with the encoding of a rune is that rune. -/
theorem DecodeLastRune_append (p chunk : GoString) (r : Nat)
    (h : ValidHead chunk r chunk.length) : DecodeLastRune (p ++ chunk) = (r, chunk.length) := by
  have hd := DecodeRune_of_ValidHead h
  generalize hn : chunk.length = n at h hd
  cases h with
  | one p0 t h0 =>
    have ht : t = [] := by
      cases t with
      | nil => rfl
      | cons a t => simp at hn
    subst ht
    unfold DecodeLastRune
    rw [if_neg (by simp)]
    have hl : (p ++ [p0]).getD ((p ++ [p0]).length - 1) 0 = p0 := by simp
    simp only [hl]
    rw [if_pos h0]
  | two p0 b1 t h0 h1 =>
    have ht : t = [] := by
      cases t with
      | nil => rfl
      | cons a t => simp at hn
    subst ht
    unfold DecodeLastRune
    rw [if_neg (by simp)]
    have hlen : (p ++ [p0, b1]).length = p.length + 2 := by simp
    have hl : (p ++ [p0, b1]).getD ((p ++ [p0, b1]).length - 1) 0 = b1 := by
      rw [hlen]
      exact getD_append_at p [p0, b1] 1
    have hs : lastRuneStart (p ++ [p0, b1])
        (if ((p ++ [p0, b1]).length : Int) - 4 < 0 then 0
          else ((p ++ [p0, b1]).length : Int) - 4) 4
        (((p ++ [p0, b1]).length : Int) - 2) = (p.length : Int) := by
      have e : (((p ++ [p0, b1]).length : Int) - 2) = ((p.length : Nat) : Int) := by
        rw [hlen]; push_cast; omega
      rw [e]
      apply lastRuneStart_hit
      · rw [hlen]; split_ifs <;> push_cast <;> omega
      · have := getD_append_at p [p0, b1] 0
        simp only [Nat.add_zero] at this
        rw [this]
        simp only [List.getD_cons_zero, RuneStart, decide_eq_true_eq]
        omega
    have hstart : (if ((p.length : Nat) : Int) < 0 then (0 : Int) else (p.length : Int))
        = (p.length : Int) := if_neg (by omega)
    simp only [hl, hs, hstart, Int.toNat_ofNat, List.drop_left, hd]
    rw [if_neg (by omega), if_neg (by rw [hlen]; push_cast; omega)]
  | three p0 b1 b2 t h0 h1 hlo hhi h2 =>
    have ht : t = [] := by
      cases t with
      | nil => rfl
      | cons a t => simp at hn
    subst ht
    unfold DecodeLastRune
    rw [if_neg (by simp)]
    have hlen : (p ++ [p0, b1, b2]).length = p.length + 3 := by simp
    have hl : (p ++ [p0, b1, b2]).getD ((p ++ [p0, b1, b2]).length - 1) 0 = b2 := by
      rw [hlen]
      exact getD_append_at p [p0, b1, b2] 2
    have hs : lastRuneStart (p ++ [p0, b1, b2])
        (if ((p ++ [p0, b1, b2]).length : Int) - 4 < 0 then 0
          else ((p ++ [p0, b1, b2]).length : Int) - 4) 4
        (((p ++ [p0, b1, b2]).length : Int) - 2) = (p.length : Int) := by
      have e : (((p ++ [p0, b1, b2]).length : Int) - 2) = ((p.length + 1 : Nat) : Int) := by
        rw [hlen]; push_cast; omega
      rw [e, lastRuneStart_miss]
      · have e' : (((p.length + 1 : Nat) : Int) - 1) = ((p.length : Nat) : Int) := by
          push_cast; omega
        rw [e']
        apply lastRuneStart_hit
        · rw [hlen]; split_ifs <;> push_cast <;> omega
        · have := getD_append_at p [p0, b1, b2] 0
          simp only [Nat.add_zero] at this
          rw [this]
          simp only [List.getD_cons_zero, RuneStart, decide_eq_true_eq]
          omega
      · rw [hlen]; split_ifs <;> push_cast <;> omega
      · rw [getD_append_at p [p0, b1, b2] 1]
        simp only [List.getD_cons_succ, List.getD_cons_zero, RuneStart, decide_eq_false_iff_not]
        omega
    have hstart : (if ((p.length : Nat) : Int) < 0 then (0 : Int) else (p.length : Int))
        = (p.length : Int) := if_neg (by omega)
    simp only [hl, hs, hstart, Int.toNat_ofNat, List.drop_left, hd]
    rw [if_neg (by omega), if_neg (by rw [hlen]; push_cast; omega)]
  | four p0 b1 b2 b3 t h0 h1 hlo hhi h2 h3 =>
    have ht : t = [] := by
      cases t with
      | nil => rfl
      | cons a t => simp at hn
    subst ht
    unfold DecodeLastRune
    rw [if_neg (by simp)]
    have hlen : (p ++ [p0, b1, b2, b3]).length = p.length + 4 := by simp
    have hl : (p ++ [p0, b1, b2, b3]).getD ((p ++ [p0, b1, b2, b3]).length - 1) 0 = b3 := by
      rw [hlen]
      exact getD_append_at p [p0, b1, b2, b3] 3
    have hs : lastRuneStart (p ++ [p0, b1, b2, b3])
        (if ((p ++ [p0, b1, b2, b3]).length : Int) - 4 < 0 then 0
          else ((p ++ [p0, b1, b2, b3]).length : Int) - 4) 4
        (((p ++ [p0, b1, b2, b3]).length : Int) - 2) = (p.length : Int) := by
      have e : (((p ++ [p0, b1, b2, b3]).length : Int) - 2)
          = ((p.length + 2 : Nat) : Int) := by
        rw [hlen]; push_cast; omega
      rw [e, lastRuneStart_miss]
      · have e' : (((p.length + 2 : Nat) : Int) - 1) = ((p.length + 1 : Nat) : Int) := by
          push_cast; omega
        rw [e', lastRuneStart_miss]
        · have e'' : (((p.length + 1 : Nat) : Int) - 1) = ((p.length : Nat) : Int) := by
            push_cast; omega
          rw [e'']
          apply lastRuneStart_hit
          · rw [hlen]; split_ifs <;> push_cast <;> omega
          · have := getD_append_at p [p0, b1, b2, b3] 0
            simp only [Nat.add_zero] at this
            rw [this]
            simp only [List.getD_cons_zero, RuneStart, decide_eq_true_eq]
            omega
        · rw [hlen]; split_ifs <;> push_cast <;> omega
        · rw [getD_append_at p [p0, b1, b2, b3] 1]
          simp only [List.getD_cons_succ, List.getD_cons_zero, RuneStart,
            decide_eq_false_iff_not]
          omega
      · rw [hlen]; split_ifs <;> push_cast <;> omega
      · rw [getD_append_at p [p0, b1, b2, b3] 2]
        simp only [List.getD_cons_succ, List.getD_cons_zero, RuneStart, decide_eq_false_iff_not]
        omega
    have hstart : (if ((p.length : Nat) : Int) < 0 then (0 : Int) else (p.length : Int))
        = (p.length : Int) := if_neg (by omega)
    simp only [hl, hs, hstart, Int.toNat_ofNat, List.drop_left, hd]
    rw [if_neg (by omega), if_neg (by rw [hlen]; push_cast; omega)]
theorem ValidHead_replacement : ValidHead [0xEF, 0xBF, 0xBD] RuneError 3 := by
  have h := ValidHead.three 0xEF 0xBF 0xBD [] (by decide) (by decide) (by decide) (by decide)
    (by decide)
  exact h

/-- The bytes standing for a rune in the coerced string are a valid encoding. -/
theorem coerceAt_valid (b : Byte) (rest : GoString) :
    ∃ r, ValidHead (coerceAt (b :: rest)) r (coerceAt (b :: rest)).length
      ∧ (r = RuneError ∨ (DecodeRune (b :: rest) = (r, (coerceAt (b :: rest)).length)
          ∧ coerceAt (b :: rest) = (b :: rest).take (DecodeRune (b :: rest)).2)) := by
  unfold coerceAt
  by_cases hv : DecodeRune (b :: rest) = (RuneError, 1)
  · rw [if_pos hv]
    exact ⟨RuneError, ValidHead_replacement, Or.inl rfl⟩
  · rw [if_neg hv]
    have vh := ValidHead_of_DecodeRune b rest hv
    have vh' := ValidHead_take_append vh []
    rw [List.append_nil] at vh'
    have hlen : ((b :: rest).take (DecodeRune (b :: rest)).2).length
        = (DecodeRune (b :: rest)).2 := by
      rw [List.length_take]
      exact min_eq_left (DecodeRune_width_le _)
    rw [hlen]
    exact ⟨_, vh', Or.inr ⟨rfl, rfl⟩⟩

/-- The coerced string ends with the encoding of a rune, which is U+FFFD or the
rune at the end of the string itself. -/
theorem coerceLoop_last (s : GoString) : s ≠ [] →
    ∃ p chunk r, coerceLoop 0 s = p ++ chunk ∧ ValidHead chunk r chunk.length
      ∧ (r = RuneError ∨ ∃ p', s = p' ++ chunk) := by
  refine rune_induction (fun s => s ≠ [] →
    ∃ p chunk r, coerceLoop 0 s = p ++ chunk ∧ ValidHead chunk r chunk.length
      ∧ (r = RuneError ∨ ∃ p', s = p' ++ chunk)) ?_ ?_ s
  · intro h; exact absurd rfl h
  · intro b rest ih _
    rw [coerceLoop_cons]
    by_cases ht : (b :: rest).drop (DecodeRune (b :: rest)).2 = []
    · rw [ht]
      obtain ⟨r, vh, hr⟩ := coerceAt_valid b rest
      refine ⟨[], coerceAt (b :: rest), r, by simp [coerceLoop], vh, ?_⟩
      rcases hr with hr | ⟨-, hr⟩
      · exact Or.inl hr
      · right
        refine ⟨[], ?_⟩
        rw [hr, List.nil_append]
        have := List.take_append_drop (DecodeRune (b :: rest)).2 (b :: rest)
        rw [ht, List.append_nil] at this
        exact this.symm
    · obtain ⟨p, chunk, r, h1, h2, h3⟩ := ih ht
      refine ⟨coerceAt (b :: rest) ++ p, chunk, r, by rw [h1, List.append_assoc], h2, ?_⟩
      rcases h3 with h3 | ⟨p', h3⟩
      · exact Or.inl h3
      · right
        refine ⟨(b :: rest).take (DecodeRune (b :: rest)).2 ++ p', ?_⟩
        rw [List.append_assoc, ← h3, List.take_append_drop]

/-- Coercing a string to valid UTF-8 brings no white space to its ends. -/
theorem Trimmed_coerceUTF8 (s : GoString) (h : Trimmed s) : Trimmed (coerceUTF8 s) := by
  unfold coerceUTF8
  cases s with
  | nil => exact h
  | cons b rest =>
    constructor
    · rw [coerceLoop_cons]
      obtain ⟨r, vh, hr⟩ := coerceAt_valid b rest
      have vh' := ValidHead_take_append vh
        (coerceLoop 0 ((b :: rest).drop (DecodeRune (b :: rest)).2))
      rw [List.take_length] at vh'
      rw [DecodeRune_of_ValidHead vh']
      rcases hr with hr | ⟨hr, -⟩
      · rw [hr]; exact IsSpace_RuneError
      · have := h.1
        rw [hr] at this
        exact this
    · obtain ⟨p, chunk, r, h1, h2, h3⟩ := coerceLoop_last (b :: rest) (by simp)
      rw [h1, DecodeLastRune_append p chunk r h2]
      rcases h3 with h3 | ⟨p', h3⟩
      · rw [h3]; exact IsSpace_RuneError
      · have := h.2
        rw [h3, DecodeLastRune_append p' chunk r h2] at this
        exact this

theorem coerceUTF8_ne_nil (s : GoString) (h : s ≠ []) : coerceUTF8 s ≠ [] := by
  unfold coerceUTF8
  cases s with
  | nil => exact absurd rfl h
  | cons b rest =>
    rw [coerceLoop_cons]
    obtain ⟨r, vh, -⟩ := coerceAt_valid b rest
    intro hnil
    have hc : coerceAt (b :: rest) = [] := (List.append_eq_nil.1 hnil).1
    rw [hc] at vh
    cases vh
/-! ## C16: the records of a reachable store -/

theorem decodes_eq_true_iff (data : GoString) :
    decodes data = true ↔ ∃ vote, Unmarshal data = .ok vote := by
  unfold decodes
  cases Unmarshal data <;> simp

theorem not_mem_keys_of_get (key : GoString) (l : List (GoString × GoString))
    (h : get key l = none) : key ∉ l.map Prod.fst := by
  induction l with
  | nil => simp
  | cons kv rest ih =>
    obtain ⟨k, v⟩ := kv
    by_cases hk : k = key
    · simp [get, hk] at h
    · simp only [get, hk, if_false] at h
      simp only [List.map_cons, List.mem_cons, not_or]
      exact ⟨fun e => hk e.symm, ih h⟩

theorem total_incr (k : GoString) (m : VoteCounts) : (m.incr k).total = m.total + 1 := by
  induction m with
  | nil => simp [VoteCounts.incr, VoteCounts.total]
  | cons kv rest ih =>
    obtain ⟨k', n⟩ := kv
    unfold VoteCounts.total at ih ⊢
    by_cases hk : k' = k
    · simp only [VoteCounts.incr, hk, if_true, List.map_cons, List.sum_cons]
      omega
    · simp only [VoteCounts.incr, hk, if_false, List.map_cons, List.sum_cons, ih]
      omega

/-- When every record unmarshals, a loop of `GetVoteCount` that ends with a map
has added one to the counts for each record. -/
theorem tallyLoop_total (nextErr : Nat → Bool) (state : List (GoString × GoString))
    (hdec : ∀ kv ∈ state, decodes kv.2 = true) (i : Nat) (m m' : VoteCounts)
    (h : tallyLoop nextErr i state m = (some m', none)) :
    m'.total = m.total + state.length := by
  induction state generalizing i m with
  | nil =>
    simp only [tallyLoop, Prod.mk.injEq, Option.some.injEq, and_true] at h
    rw [← h]; rfl
  | cons kv rest ih =>
    have hkv := hdec kv (List.mem_cons_self _ _)
    obtain ⟨vote, hvote⟩ := (decodes_eq_true_iff kv.2).1 hkv
    simp only [tallyLoop, hvote] at h
    by_cases hi : nextErr i = true
    · simp [hi] at h
    · simp only [hi, Bool.false_eq_true, if_false] at h
      rw [ih (fun x hx => hdec x (List.mem_cons_of_mem _ hx)) (i + 1) _ h, total_incr]
      simp only [List.length_cons]
      omega

/-- Every record of a reachable store is the encoding of a vote of its key, a
trimmed string that is not empty, for a trimmed candidate that is not empty; and
no key is in the store twice. -/
theorem reachable_inv (stub : Stub) (h : Reachable stub) :
    (stub.state.map Prod.fst).Nodup
      ∧ ∀ kv ∈ stub.state, ∃ c, kv.2 = structEncoder ⟨c, kv.1⟩ ∧ kv.1 ≠ [] ∧ c ≠ []
          ∧ Trimmed kv.1 ∧ Trimmed c := by
  obtain ⟨init, ops, h0, rfl⟩ := h
  have key : ∀ (ops : List Op) (s : Stub),
      ((s.state.map Prod.fst).Nodup
        ∧ ∀ kv ∈ s.state, ∃ c, kv.2 = structEncoder ⟨c, kv.1⟩ ∧ kv.1 ≠ [] ∧ c ≠ []
            ∧ Trimmed kv.1 ∧ Trimmed c) →
      (((runOps s ops).state.map Prod.fst).Nodup
        ∧ ∀ kv ∈ (runOps s ops).state, ∃ c, kv.2 = structEncoder ⟨c, kv.1⟩ ∧ kv.1 ≠ []
            ∧ c ≠ [] ∧ Trimmed kv.1 ∧ Trimmed c) := by
    intro ops
    induction ops with
    | nil => intro s hs; exact hs
    | cons op rest ih =>
      intro s hs
      apply ih (Op.run s op)
      rcases run_state s op with he | ⟨v, c, -, -, hv, hc, hnone, he⟩
      · rw [he]; exact hs
      · rw [he]
        have hperm := put_perm (TrimSpace v) (structEncoder ⟨TrimSpace c, TrimSpace v⟩)
          s.state hnone
        constructor
        · rw [(hperm.map Prod.fst).nodup_iff]
          simp only [List.map_cons, List.nodup_cons]
          exact ⟨not_mem_keys_of_get _ _ hnone, hs.1⟩
        · intro kv hkv
          rw [hperm.mem_iff, List.mem_cons] at hkv
          rcases hkv with rfl | hkv
          · exact ⟨TrimSpace c, rfl, hv, hc, Trimmed_TrimSpace v, Trimmed_TrimSpace c⟩
          · exact hs.2 kv hkv
  apply key ops init
  rw [h0]
  exact ⟨List.nodup_nil, fun kv hkv => by simp at hkv⟩

/-- C16 (amended): in every store reachable from the empty store by operations of
the contract, no key is stored twice, and each record stored under a key `k` is
the encoding of a vote of voter `k` for a candidate `c`, where `k` and `c` are not
empty and have no leading or trailing white space.  The record unmarshals
successfully, to the vote whose voterID is `k` and whose candidate is `c`, each
with every byte that is not valid UTF-8 replaced by U+FFFD: so the voterID of the
vote is `k` when `k` is valid UTF-8 (and the candidate is `c` when `c` is), the
candidate is not empty, and both are without leading or trailing white space.
Consequently the sum of all counts returned by `GetVoteCount` equals the number of
keys of the store. -/
theorem Reachable_records (stub : Stub) (h : Reachable stub) :
    (stub.state.map Prod.fst).Nodup
      ∧ (∀ k value, (k, value) ∈ stub.state →
          ∃ c, value = structEncoder ⟨c, k⟩
            ∧ Unmarshal value = .ok ⟨coerceUTF8 c, coerceUTF8 k⟩
            ∧ (ValidString k = true → coerceUTF8 k = k)
            ∧ (ValidString c = true → coerceUTF8 c = c)
            ∧ k ≠ [] ∧ c ≠ [] ∧ coerceUTF8 c ≠ []
            ∧ Trimmed k ∧ Trimmed c ∧ Trimmed (coerceUTF8 k) ∧ Trimmed (coerceUTF8 c))
      ∧ (∀ m, GetVoteCount stub = (some m, none) →
          m.total = (stub.state.map Prod.fst).length)
      ∧ (stub.getStateByRangeErr = false → (∀ i, stub.nextErr i = false) →
          ∃ m, GetVoteCount stub = (some m, none)) := by
  obtain ⟨hnodup, hrec⟩ := reachable_inv stub h
  refine ⟨hnodup, ?_, ?_, ?_⟩
  · intro k value hmem
    obtain ⟨c, h1, h2, h3, h4, h5⟩ := hrec (k, value) hmem
    simp only at h1 h2 h4
    refine ⟨c, h1, ?_, coerceUTF8_of_valid k, coerceUTF8_of_valid c, h2, h3,
      coerceUTF8_ne_nil c h3, h4, h5, Trimmed_coerceUTF8 k h4, Trimmed_coerceUTF8 c h5⟩
    rw [h1]
    exact Unmarshal_structEncoder ⟨c, k⟩
  · intro m hm
    have hdec : ∀ kv ∈ stub.state, decodes kv.2 = true := by
      intro kv hkv
      obtain ⟨c, h1, -⟩ := hrec kv hkv
      rw [h1]
      exact (decodes_eq_true_iff _).2 ⟨_, Unmarshal_structEncoder _⟩
    by_cases hr : stub.getStateByRangeErr = true
    · simp [GetVoteCount, hr] at hm
    · simp only [GetVoteCount, hr, Bool.false_eq_true, if_false] at hm
      rw [tallyLoop_total stub.nextErr stub.state hdec 0 [] m hm]
      simp [VoteCounts.total]
  · intro hr hnext
    obtain ⟨m, hm, -⟩ := tallyLoop_spec stub.nextErr hnext stub.state 0 []
    exact ⟨m, by simp [GetVoteCount, hr, hm]⟩

/-- Witness of C16 (amended): the store after a vote of voter1 for cat, a tally
and a vote of voter2 for dog. -/
theorem Reachable_records_witness :
    ((runOps (Stub.ofState []) [.CastVote (str " voter1 ") (str "cat"), .GetVoteCount,
        .CastVote (str "voter2") (str "dog ")]).state.map Prod.fst).Nodup
      ∧ ∃ m, GetVoteCount (runOps (Stub.ofState []) [.CastVote (str " voter1 ") (str "cat"),
          .GetVoteCount, .CastVote (str "voter2") (str "dog ")]) = (some m, none) :=
  ⟨(Reachable_records _ ⟨Stub.ofState [], _, rfl, rfl⟩).1,
    (Reachable_records _ ⟨Stub.ofState [], _, rfl, rfl⟩).2.2.2 rfl (fun _ => rfl)⟩

/-- Counterexample to C16 as stated: on the empty store, the vote of the voter
whose id is the one byte 0xFF, which is not valid UTF-8, succeeds; the record
stored under the key 0xFF unmarshals to a vote whose voterID is U+FFFD (the bytes
EF BF BD), not the key. -/
theorem Reachable_record_voterID_differs :
    Reachable (CastVote (Stub.ofState []) [0xFF] (str "cat")).2
      ∧ (CastVote (Stub.ofState []) [0xFF] (str "cat")).1 = none
      ∧ (CastVote (Stub.ofState []) [0xFF] (str "cat")).2.state
          = [([0xFF], str "\x7b\"candidate\":\"cat\",\"voterID\":\"\\ufffd\"\x7d")]
      ∧ Unmarshal (str "\x7b\"candidate\":\"cat\",\"voterID\":\"\\ufffd\"\x7d")
          = .ok ⟨str "cat", [0xEF, 0xBF, 0xBD]⟩
      ∧ ([0xEF, 0xBF, 0xBD] : GoString) ≠ [0xFF] :=
  ⟨⟨Stub.ofState [], [.CastVote [0xFF] (str "cat")], rfl, rfl⟩, by decide, by decide,
    by decide, by decide⟩
/-! ## C10: `VoteExists` is an existence check -/

theorem structEncoder_ne_nil (vote : Vote) : structEncoder vote ≠ [] := by
  have h : str "\x7b\"candidate\":" ≠ [] := by decide
  intro hnil
  unfold structEncoder at hnil
  simp only [List.append_eq_nil] at hnil
  exact h hnil.1.1.1.1

/-- C10 (amended): when the read of the store does not fail, `VoteExists(voterID)`
returns true if and only if a value, empty or not, is stored under exactly that
key, whether or not that value unmarshals to a vote.  That is "a non-empty value
is stored" on every store that holds no empty value, and so on every store
reachable from the empty store by operations of the contract.  `VoteExists`
fails, with a StorageFailure, if and only if the read fails. -/
theorem VoteExists_iff_stored (stub : Stub) (voterID : GoString) :
    (stub.getStateErr voterID = false →
        (VoteExists stub voterID).2 = none
          ∧ ((VoteExists stub voterID).1 = true ↔ ∃ value, get voterID stub.state = some value)
          ∧ ((∀ kv ∈ stub.state, kv.2 ≠ []) →
              ((VoteExists stub voterID).1 = true
                ↔ ∃ value, value ≠ [] ∧ get voterID stub.state = some value))
          ∧ (∀ value, get voterID stub.state = some value → decodes value = false →
              VoteExists stub voterID = (true, none))
          ∧ (Reachable stub →
              ((VoteExists stub voterID).1 = true
                ↔ ∃ value, value ≠ [] ∧ get voterID stub.state = some value)))
      ∧ ((VoteExists stub voterID).2 ≠ none ↔ stub.getStateErr voterID = true)
      ∧ (stub.getStateErr voterID = true →
          VoteExists stub voterID = (false, some (.readWorldState .ledger))
            ∧ (Error.readWorldState .ledger).kind = .StorageFailure) := by
  refine ⟨?_, ?_, ?_⟩
  · intro h
    rw [VoteExists_of_ok stub voterID h]
    have hC : (∀ kv ∈ stub.state, kv.2 ≠ []) →
        ((get voterID stub.state).isSome = true
          ↔ ∃ value, value ≠ [] ∧ get voterID stub.state = some value) := by
      intro hne
      simp only [Option.isSome_iff_exists]
      constructor
      · rintro ⟨value, hv⟩
        exact ⟨value, hne _ (mem_of_get _ _ _ hv), hv⟩
      · rintro ⟨value, -, hv⟩
        exact ⟨value, hv⟩
    refine ⟨rfl, ?_, hC, ?_, ?_⟩
    · simp [Option.isSome_iff_exists]
    · intro value hv _
      rw [hv]; rfl
    · intro hreach
      apply hC
      intro kv hkv
      obtain ⟨c, hc, -⟩ := (reachable_inv stub hreach).2 kv hkv
      rw [hc]
      exact structEncoder_ne_nil _
  · by_cases h : stub.getStateErr voterID = true
    · simp [VoteExists, Stub.GetState, h]
    · simp [VoteExists, Stub.GetState, h]
  · intro h
    simp [VoteExists, Stub.GetState, h, Error.kind]

/-- Witness of C10 (amended): a key with a value that is no vote, and a failing
read. -/
theorem VoteExists_iff_stored_witness :
    VoteExists (Stub.ofState [(str "v1", str "not a vote")]) (str "v1") = (true, none)
      ∧ ((VoteExists (Stub.ofState [(str "v1", str "not a vote")]) (str "v1")).1 = true
        ↔ ∃ value, value ≠ []
            ∧ get (str "v1") (Stub.ofState [(str "v1", str "not a vote")]).state = some value)
      ∧ VoteExists failingStub (str "v1") = (false, some (.readWorldState .ledger)) :=
  ⟨(VoteExists_iff_stored (Stub.ofState [(str "v1", str "not a vote")]) (str "v1")).1 rfl
      |>.2.2.2.1 (str "not a vote") (by decide) (by decide),
    (VoteExists_iff_stored (Stub.ofState [(str "v1", str "not a vote")]) (str "v1")).1 rfl
      |>.2.2.1 (by decide),
    ((VoteExists_iff_stored failingStub (str "v1")).2.2 rfl).1⟩

/-- Counterexample to C10 as stated: on the store that holds the empty value under
the key v1, the read does not fail and `VoteExists(v1)` returns true, though no
non-empty value is stored under v1. -/
theorem VoteExists_empty_value :
    (Stub.ofState [(str "v1", [])]).getStateErr (str "v1") = false
      ∧ VoteExists (Stub.ofState [(str "v1", [])]) (str "v1") = (true, none)
      ∧ get (str "v1") (Stub.ofState [(str "v1", [])]).state = some []
      ∧ ¬ ∃ value, value ≠ []
          ∧ get (str "v1") (Stub.ofState [(str "v1", [])]).state = some value := by
  refine ⟨rfl, by decide, by decide, ?_⟩
  rintro ⟨value, hne, h⟩
  have h0 : get (str "v1") (Stub.ofState [(str "v1", [])]).state = some [] := by decide
  rw [h0] at h
  cases h
  exact hne rfl
/-! ## C17: the tally loop is additive -/

/-- C17: the tally loop is additive over the concatenation of record sequences:
when no step of the iteration fails, the tally of `xs ++ ys` is the pointwise sum
of the tally of `xs` and the tally of `ys` (a candidate is in it when it is in one
of the two, with the sum of its counts); hence the tally of any permutation of a
sequence is, as a map, the tally of the sequence. -/
theorem tallyLoop_additive (nextErr : Nat → Bool) (hnext : ∀ i, nextErr i = false)
    (xs ys : List (GoString × GoString)) :
    ∃ a b ab, tallyLoop nextErr 0 xs [] = (some a, none)
      ∧ tallyLoop nextErr 0 ys [] = (some b, none)
      ∧ tallyLoop nextErr 0 (xs ++ ys) [] = (some ab, none)
      ∧ (∀ n, ab.count n = a.count n + b.count n)
      ∧ (∀ n, ab.lookup n = none ↔ a.lookup n = none ∧ b.lookup n = none)
      ∧ (∀ n c, ab.lookup n = some c ↔ c ≠ 0 ∧ c = a.count n + b.count n)
      ∧ (∀ zs, zs.Perm xs → ∃ c, tallyLoop nextErr 0 zs [] = (some c, none)
          ∧ ∀ n, c.lookup n = a.lookup n) := by
  obtain ⟨a, ha, hac, hal⟩ := tally_counts nextErr hnext xs 0
  obtain ⟨b, hb, hbc, hbl⟩ := tally_counts nextErr hnext ys 0
  obtain ⟨ab, hab, habc, habl⟩ := tally_counts nextErr hnext (xs ++ ys) 0
  refine ⟨a, b, ab, ha, hb, hab, ?_, ?_, ?_, ?_⟩
  · intro n
    rw [habc, hac, hbc, votesFor_append]
  · intro n
    rw [habl, hal, hbl, votesFor_append]
    by_cases h1 : votesFor n xs = 0 <;> by_cases h2 : votesFor n ys = 0 <;> simp [h1, h2]
  · intro n c
    rw [habl, hac, hbc, votesFor_append]
    by_cases h : votesFor n xs + votesFor n ys = 0
    · rw [if_pos h]
      constructor
      · intro hc; cases hc
      · rintro ⟨h1, h2⟩; omega
    · rw [if_neg h]
      constructor
      · intro hc
        cases hc
        exact ⟨h, rfl⟩
      · rintro ⟨-, h2⟩; rw [h2]
  · intro zs hp
    obtain ⟨c, hc, -, hcl⟩ := tally_counts nextErr hnext zs 0
    refine ⟨c, hc, ?_⟩
    intro n
    rw [hcl, hal, votesFor_perm n zs xs hp]

/-- Witness of C17: the records of the example, split after the first. -/
theorem tallyLoop_additive_witness :
    ∃ a b ab, tallyLoop (fun _ => false) 0 (tallyExample.state.take 1) [] = (some a, none)
      ∧ tallyLoop (fun _ => false) 0 (tallyExample.state.drop 1) [] = (some b, none)
      ∧ tallyLoop (fun _ => false) 0
          (tallyExample.state.take 1 ++ tallyExample.state.drop 1) [] = (some ab, none)
      ∧ (∀ n, ab.count n = a.count n + b.count n)
      ∧ (∀ n, ab.lookup n = none ↔ a.lookup n = none ∧ b.lookup n = none)
      ∧ (∀ n c, ab.lookup n = some c ↔ c ≠ 0 ∧ c = a.count n + b.count n)
      ∧ (∀ zs, zs.Perm (tallyExample.state.take 1) →
          ∃ c, tallyLoop (fun _ => false) 0 zs [] = (some c, none)
            ∧ ∀ n, c.lookup n = a.lookup n) :=
  tallyLoop_additive (fun _ => false) (fun _ => rfl) (tallyExample.state.take 1)
    (tallyExample.state.drop 1)
end Voting
